import Mathlib

/-!
# Verification of the `mcc` C-compiler core

This file shallowly embeds the core of the `mcc` compiler pipeline and proves
properties of it:

* the Three Address Code (TAC) data model (`crates/mcc/src/lowering/tacky.rs`);
* the AST-to-TAC lowering pass (`crates/mcc/src/lowering/mod.rs`), including
  short-circuit lowering of `&&` and `||`, the shared fresh-name counter,
  accumulated diagnostics, and the two panic sites (`todo!()` on a bare
  `return;`, `.parse().unwrap()` on a number literal);
* the assembly IR and the code generator (`crates/mcc/src/codegen/asm.rs` and
  `crates/mcc/src/codegen/mod.rs`): stack-slot assignment, instruction
  selection, and the operand fix-up pass;
* the operand renderer (`crates/mcc/src/render.rs`).

Machine integers: the Rust `u32` fresh-name counter and stack offsets are
modelled as `Nat` (wraparound beyond `2^32` temporaries in a single function
is not modelled); `i32` constants are modelled as `Int`, with explicit
reduction into `[-2^31, 2^31)` (`toI32`) in the arithmetic semantics where
x86 32-bit wraparound matters.  Source spans, the `salsa` database handle and
the interning of `Text` are metadata and are dropped; diagnostics keep their
severity, message and code.
-/

namespace Tacky

/-- A TAC variable: either a named C identifier or an anonymous temporary
(`Variable` in `tacky.rs`). -/
inductive Variable where
  | named (name : String)
  | anonymous (i : Nat)
deriving DecidableEq, Repr

/-- A TAC value: a constant or a variable (`Val` in `tacky.rs`). -/
inductive Val where
  | constant (c : Int)
  | var (v : Variable)
deriving DecidableEq, Repr

/-- TAC unary operators (`UnaryOperator` in `tacky.rs`). -/
inductive UnaryOperator where
  | complement
  | negate
  | not
deriving DecidableEq, Repr

/-- TAC binary operators.  The snapshot's `tacky.rs` declares a
`BinaryOperator` enum that also contains comparison variants and lacks a
separate comparison type, while `lowering/mod.rs` and `codegen/mod.rs` use a
nine-variant `BinaryOperator` plus a dedicated `ComparisonOperator`; the
constructor uses in those two files (and spec section 3) determine the shape
used here. -/
inductive BinaryOperator where
  | add
  | sub
  | mul
  | div
  | mod
  | and
  | or
  | leftShift
  | rightShift
deriving DecidableEq, Repr

/-- TAC comparison operators, as used by `lowering/mod.rs` and
`codegen/mod.rs` (spec section 3: `op ∈ {Eq, Ne, Lt, Le, Gt, Ge}`). -/
inductive ComparisonOperator where
  | equal
  | notEqual
  | lessThan
  | lessThanOrEqual
  | greaterThan
  | greaterThanOrEqual
deriving DecidableEq, Repr

/-- TAC instructions (`Instruction` in `tacky.rs`; the `Comparison` variant is
determined by its constructor uses in `lowering/mod.rs` and its consumer in
`codegen/mod.rs`, matching spec section 3).  Labels and jump targets are
plain strings (`Text` in the source). -/
inductive Instruction where
  | ret (val : Val)
  | unary (op : UnaryOperator) (src : Val) (dst : Val)
  | binary (op : BinaryOperator) (left_src : Val) (right_src : Val) (dst : Val)
  | comparison (op : ComparisonOperator) (left_src : Val) (right_src : Val) (dst : Val)
  | copy (src : Val) (dst : Val)
  | jump (target : String)
  | jumpIfZero (condition : Val) (target : String)
  | jumpIfNotZero (condition : Val) (target : String)
  | label (name : String)
deriving DecidableEq, Repr

/-- A lowered TAC function: a name and a flat instruction list
(`FunctionDefinition` in `tacky.rs`, minus the source span). -/
structure FunctionDefinition where
  name : String
  instructions : List Instruction
deriving DecidableEq, Repr

end Tacky

/-- Diagnostic severities (a subset of `codespan_reporting`'s `Severity` as
used by `diagnostics.rs`: `Diagnostic::bug()` and `Diagnostic::error()` are
the two constructors the lowering pass uses). -/
inductive Severity where
  | bug
  | help
  | note
  | warning
  | error
deriving DecidableEq, Repr

/-- An accumulated diagnostic: severity, primary message and optional error
code.  Source labels/spans are dropped. -/
structure Diagnostic where
  severity : Severity
  message : String
  code : Option String
deriving DecidableEq, Repr

namespace Ast

/-- The unary operators the grammar offers to `lower_unary_expression`
(`ast::anon_unions::Not_Add_Sub_BitNot`). -/
inductive UnaryOp where
  | not
  | plus
  | minus
  | bitnot
deriving DecidableEq, Repr

/-- The binary operators the grammar offers to `lower_binary_expression`
(`ast::anon_unions::NotEq_Mod_And_AndAnd_..._Or_OrOr`).  `bitxor` is present
in the grammar but has no lowering arm, so it falls into the
"Binary operator not implemented" diagnostic branch. -/
inductive BinaryOp where
  | noteq
  | mod
  | band
  | andand
  | mul
  | add
  | sub
  | div
  | lt
  | shl
  | lte
  | eqeq
  | gt
  | gte
  | shr
  | bitxor
  | bor
  | oror
deriving DecidableEq, Repr

/-- The expression subset reaching `FunctionContext::lower_expression`.  A
number literal is represented by the numeric value of its (non-negative,
decimal) source text; `parenNonExpr` stands for a parenthesized node whose
child is not an expression, and `unsupported` for every other expression kind
(both only emit an `unimplemented` diagnostic). -/
inductive Expr where
  | num (v : Nat)
  | unary (op : UnaryOp) (arg : Expr)
  | binary (op : BinaryOp) (left : Expr) (right : Expr)
  | paren (inner : Expr)
  | parenNonExpr
  | unsupported
deriving DecidableEq, Repr

/-- The statement subset reaching `FunctionContext::lower_statement`:
`return e;`, a bare `return;` (which hits the `todo!()` branch of
`lower_return_statement`), and any other statement kind (which emits a
"Statement not implemented" diagnostic). -/
inductive Stmt where
  | returnStmt (e : Expr)
  | returnBare
  | unsupported
deriving DecidableEq, Repr

/-- A translation-unit item: a function definition (name plus body
statements) or any other top-level item (which emits a
"Translation unit item not implemented" diagnostic). -/
inductive Item where
  | funcDef (name : String) (body : List Stmt)
  | other
deriving DecidableEq, Repr

end Ast

namespace Lowering

/-- The two panic sites reachable from `lower`: the `todo!()` on a bare
`return;` in `lower_return_statement`, and the `.parse().unwrap()` on an
out-of-range number literal in `lower_number_literal`. -/
inductive Panic where
  | todoBareReturn
  | parseIntUnwrap
deriving DecidableEq, Repr

/-- The mutable state of `FunctionContext` (`lowering/mod.rs`): the growing
instruction vector and the shared fresh-name counter, plus the diagnostics
accumulated through the database handle while this context is active. -/
structure FunctionContext where
  instructions : List Tacky.Instruction
  next_anonymous : Nat
  diags : List Diagnostic
deriving DecidableEq, Repr

/-- Push one instruction (`self.instructions.push(..)`). -/
def push (ctx : FunctionContext) (i : Tacky.Instruction) : FunctionContext :=
  { ctx with instructions := ctx.instructions ++ [i] }

/-- Accumulate one diagnostic (`diagnostic.accumulate(self.db)`). -/
def accumulate (ctx : FunctionContext) (d : Diagnostic) : FunctionContext :=
  { ctx with diags := ctx.diags ++ [d] }

/-- Mirror of `FunctionContext::temporary`. -/
def temporary (ctx : FunctionContext) : Tacky.Variable × FunctionContext :=
  (Tacky.Variable.anonymous ctx.next_anonymous,
    { ctx with next_anonymous := ctx.next_anonymous + 1 })

/-- The label-name format `format!("L{}", i)`. -/
def mkLabel (i : Nat) : String :=
  "L" ++ Nat.repr i

/-- Mirror of `FunctionContext::label`: a fresh label name drawn from the
same counter as `temporary`. -/
def label (ctx : FunctionContext) : String × FunctionContext :=
  (mkLabel ctx.next_anonymous, { ctx with next_anonymous := ctx.next_anonymous + 1 })

/-- Rust's `str::parse::<i32>` on the (non-negative decimal) text of a number
literal: it succeeds exactly when the value fits in an `i32`. -/
def parseI32 (v : Nat) : Option Int :=
  if v ≤ 2147483647 then some (Int.ofNat v) else none

/-- The "Statement not implemented" diagnostic. -/
def stmtUnimplementedDiag : Diagnostic :=
  ⟨Severity.bug, "Statement not implemented", some "unimplemented"⟩

/-- The "Expression not implemented" diagnostic. -/
def exprUnimplementedDiag : Diagnostic :=
  ⟨Severity.bug, "Expression not implemented", some "unimplemented"⟩

/-- The "Unexpected item in parenthesized expression" diagnostic. -/
def parenUnimplementedDiag : Diagnostic :=
  ⟨Severity.bug, "Unexpected item in parenthesized expression", some "unimplemented"⟩

/-- The "Binary operator not implemented" diagnostic. -/
def binOpUnimplementedDiag : Diagnostic :=
  ⟨Severity.bug, "Binary operator not implemented", some "unimplemented"⟩

/-- The "Translation unit item not implemented" diagnostic. -/
def itemUnimplementedDiag : Diagnostic :=
  ⟨Severity.bug, "Translation unit item not implemented", some "unimplemented"⟩

/-- The error emitted when the translation unit lowers to zero functions. -/
def mustContainMainDiag : Diagnostic :=
  ⟨Severity.error, "The program must contain a valid `main` function", none⟩

/-- The error emitted for each lowered function not named `main` when the
function list is not a single `main`. -/
def onlyMainDiag : Diagnostic :=
  ⟨Severity.error, "Only a `main` function is supported", none⟩

/-- Mirror of `FunctionContext::lower_binary_operator`. -/
def lowerBinaryOperator (left right : Tacky.Val) (op : Tacky.BinaryOperator)
    (ctx : FunctionContext) : Option Tacky.Val × FunctionContext :=
  let (t, ctx') := temporary ctx
  let dst := Tacky.Val.var t
  (some dst, push ctx' (Tacky.Instruction.binary op left right dst))

/-- Mirror of `FunctionContext::lower_comparison`. -/
def lowerComparison (left right : Tacky.Val) (op : Tacky.ComparisonOperator)
    (ctx : FunctionContext) : Option Tacky.Val × FunctionContext :=
  let (t, ctx') := temporary ctx
  let dst := Tacky.Val.var t
  (some dst, push ctx' (Tacky.Instruction.comparison op left right dst))

/-- Mirror of `FunctionContext::lower_expression` together with the helpers
it dispatches to (`lower_number_literal`, `lower_unary_expression`,
`lower_binary_expression`, `lower_logical_and`, `lower_logical_or`), which
are inlined here so the whole lowering is one structural recursion over the
expression.  An `Option.none` result models the Rust functions returning
`None` after accumulating a diagnostic; an `Except.error` models a panic. -/
def lowerExpr : Ast.Expr → FunctionContext →
    Except Panic (Option Tacky.Val × FunctionContext)
  | .num v, ctx =>
    -- lower_number_literal: `literal.utf8_text(..).parse().unwrap()`
    match parseI32 v with
    | some c => .ok (some (Tacky.Val.constant c), ctx)
    | none => .error Panic.parseIntUnwrap
  | .unary op arg, ctx =>
    -- lower_unary_expression: the temporary is consumed before the operator
    -- match, so a unary `+` still bumps the counter.
    match lowerExpr arg ctx with
    | .error p => .error p
    | .ok (none, ctx') => .ok (none, ctx')
    | .ok (some src, ctx') =>
      let (dstName, ctx'') := temporary ctx'
      let dst := Tacky.Val.var dstName
      match op with
      | .plus => .ok (some src, ctx'')
      | .minus => .ok (some dst, push ctx'' (Tacky.Instruction.unary .negate src dst))
      | .bitnot => .ok (some dst, push ctx'' (Tacky.Instruction.unary .complement src dst))
      | .not => .ok (some dst, push ctx'' (Tacky.Instruction.unary .not src dst))
  | .binary bop l r, ctx =>
    match bop with
    | .andand =>
      -- lower_logical_and
      match lowerExpr l ctx with
      | .error p => .error p
      | .ok (none, ctx₁) => .ok (none, ctx₁)
      | .ok (some leftVal, ctx₁) =>
        let (falseLabel, ctx₂) := label ctx₁
        let (endLabel, ctx₃) := label ctx₂
        let (resName, ctx₄) := temporary ctx₃
        let result := Tacky.Val.var resName
        let ctx₅ := push ctx₄ (Tacky.Instruction.jumpIfZero leftVal falseLabel)
        match lowerExpr r ctx₅ with
        | .error p => .error p
        | .ok (none, ctx₆) => .ok (none, ctx₆)
        | .ok (some rightVal, ctx₆) =>
          let (rbName, ctx₇) := temporary ctx₆
          let rightBool := Tacky.Val.var rbName
          let ctx₈ := push ctx₇
            (Tacky.Instruction.comparison .notEqual (Tacky.Val.constant 0) rightVal rightBool)
          let ctx₉ := push ctx₈ (Tacky.Instruction.copy rightBool result)
          let ctx₁₀ := push ctx₉ (Tacky.Instruction.jump endLabel)
          let ctx₁₁ := push ctx₁₀ (Tacky.Instruction.label falseLabel)
          let ctx₁₂ := push ctx₁₁ (Tacky.Instruction.copy (Tacky.Val.constant 0) result)
          let ctx₁₃ := push ctx₁₂ (Tacky.Instruction.label endLabel)
          .ok (some result, ctx₁₃)
    | .oror =>
      -- lower_logical_or
      match lowerExpr l ctx with
      | .error p => .error p
      | .ok (none, ctx₁) => .ok (none, ctx₁)
      | .ok (some leftVal, ctx₁) =>
        let (trueLabel, ctx₂) := label ctx₁
        let (endLabel, ctx₃) := label ctx₂
        let (resName, ctx₄) := temporary ctx₃
        let result := Tacky.Val.var resName
        let ctx₅ := push ctx₄ (Tacky.Instruction.jumpIfNotZero leftVal trueLabel)
        match lowerExpr r ctx₅ with
        | .error p => .error p
        | .ok (none, ctx₆) => .ok (none, ctx₆)
        | .ok (some rightVal, ctx₆) =>
          let (rbName, ctx₇) := temporary ctx₆
          let rightBool := Tacky.Val.var rbName
          let ctx₈ := push ctx₇
            (Tacky.Instruction.comparison .notEqual (Tacky.Val.constant 0) rightVal rightBool)
          let ctx₉ := push ctx₈ (Tacky.Instruction.copy rightBool result)
          let ctx₁₀ := push ctx₉ (Tacky.Instruction.jump endLabel)
          let ctx₁₁ := push ctx₁₀ (Tacky.Instruction.label trueLabel)
          let ctx₁₂ := push ctx₁₁ (Tacky.Instruction.copy (Tacky.Val.constant 1) result)
          let ctx₁₃ := push ctx₁₂ (Tacky.Instruction.label endLabel)
          .ok (some result, ctx₁₃)
    | op =>
      -- Regular binary operators: both operands are lowered before the
      -- operator is inspected, so even the unimplemented `^` lowers both.
      match lowerExpr l ctx with
      | .error p => .error p
      | .ok (none, ctx₁) => .ok (none, ctx₁)
      | .ok (some leftVal, ctx₁) =>
        match lowerExpr r ctx₁ with
        | .error p => .error p
        | .ok (none, ctx₂) => .ok (none, ctx₂)
        | .ok (some rightVal, ctx₂) =>
          match op with
          | .add => .ok (lowerBinaryOperator leftVal rightVal .add ctx₂)
          | .sub => .ok (lowerBinaryOperator leftVal rightVal .sub ctx₂)
          | .mul => .ok (lowerBinaryOperator leftVal rightVal .mul ctx₂)
          | .div => .ok (lowerBinaryOperator leftVal rightVal .div ctx₂)
          | .mod => .ok (lowerBinaryOperator leftVal rightVal .mod ctx₂)
          | .band => .ok (lowerBinaryOperator leftVal rightVal .and ctx₂)
          | .bor => .ok (lowerBinaryOperator leftVal rightVal .or ctx₂)
          | .shl => .ok (lowerBinaryOperator leftVal rightVal .leftShift ctx₂)
          | .shr => .ok (lowerBinaryOperator leftVal rightVal .rightShift ctx₂)
          | .eqeq => .ok (lowerComparison leftVal rightVal .equal ctx₂)
          | .noteq => .ok (lowerComparison leftVal rightVal .notEqual ctx₂)
          | .lt => .ok (lowerComparison leftVal rightVal .lessThan ctx₂)
          | .lte => .ok (lowerComparison leftVal rightVal .lessThanOrEqual ctx₂)
          | .gt => .ok (lowerComparison leftVal rightVal .greaterThan ctx₂)
          | .gte => .ok (lowerComparison leftVal rightVal .greaterThanOrEqual ctx₂)
          | _ => .ok (none, accumulate ctx₂ binOpUnimplementedDiag)
  | .paren inner, ctx => lowerExpr inner ctx
  | .parenNonExpr, ctx => .ok (none, accumulate ctx parenUnimplementedDiag)
  | .unsupported, ctx => .ok (none, accumulate ctx exprUnimplementedDiag)

/-- Mirror of `FunctionContext::lower_return_statement`: a bare `return;`
hits `todo!()`; a failing expression propagates `None` without pushing the
`Return`. -/
def lowerReturnStatement (e : Option Ast.Expr) (ctx : FunctionContext) :
    Except Panic FunctionContext :=
  match e with
  | some expr =>
    match lowerExpr expr ctx with
    | .error p => .error p
    | .ok (none, ctx') => .ok ctx'
    | .ok (some ret, ctx') => .ok (push ctx' (Tacky.Instruction.ret ret))
  | none => .error Panic.todoBareReturn

/-- Mirror of `FunctionContext::lower_statement`. -/
def lowerStatement (s : Ast.Stmt) (ctx : FunctionContext) :
    Except Panic FunctionContext :=
  match s with
  | .returnStmt e => lowerReturnStatement (some e) ctx
  | .returnBare => lowerReturnStatement none ctx
  | .unsupported => .ok (accumulate ctx stmtUnimplementedDiag)

/-- Mirror of `FunctionContext::lower_body`: lower the statements in order. -/
def lowerBody (stmts : List Ast.Stmt) (ctx : FunctionContext) :
    Except Panic FunctionContext :=
  match stmts with
  | [] => .ok ctx
  | s :: rest =>
    match lowerStatement s ctx with
    | .error p => .error p
    | .ok ctx' => lowerBody rest ctx'

/-- Mirror of `lower_function`: a fresh `FunctionContext` per function.  The
function's accumulated diagnostics are returned alongside its definition. -/
def lowerFunction (name : String) (body : List Ast.Stmt) :
    Except Panic (Tacky.FunctionDefinition × List Diagnostic) :=
  match lowerBody body ⟨[], 0, []⟩ with
  | .error p => .error p
  | .ok ctx => .ok (⟨name, ctx.instructions⟩, ctx.diags)

/-- The item loop at the top of `lower`: lower each function definition,
emit an `unimplemented` diagnostic for every other item. -/
def lowerItems : List Ast.Item →
    Except Panic (List Tacky.FunctionDefinition × List Diagnostic)
  | [] => .ok ([], [])
  | .funcDef name body :: rest =>
    match lowerFunction name body with
    | .error p => .error p
    | .ok (f, ds) =>
      match lowerItems rest with
      | .error p => .error p
      | .ok (fs, ds') => .ok (f :: fs, ds ++ ds')
  | .other :: rest =>
    match lowerItems rest with
    | .error p => .error p
    | .ok (fs, ds) => .ok (fs, itemUnimplementedDiag :: ds)

/-- The per-extra-function loop in `lower`'s catch-all arm: every lowered
function not named `main` yields one error diagnostic. -/
def extraFunctionDiags (fs : List Tacky.FunctionDefinition) : List Diagnostic :=
  fs.filterMap fun f => if f.name = "main" then none else some onlyMainDiag

/-- The `match functions.as_slice()` validation at the end of `lower`:
an empty list yields the "must contain main" error; a singleton named
`main` is the happy path; everything else runs the per-extra-function
loop (which skips anything named `main`). -/
def validationDiags (fs : List Tacky.FunctionDefinition) : List Diagnostic :=
  match fs with
  | [] => [mustContainMainDiag]
  | [f] => if f.name = "main" then [] else extraFunctionDiags fs
  | _ => extraFunctionDiags fs

/-- Mirror of the `lower` query: lower all items, then validate the function
list, accumulating diagnostics throughout.  The result is the TAC program's
function list together with every accumulated diagnostic. -/
def lower (items : List Ast.Item) :
    Except Panic (List Tacky.FunctionDefinition × List Diagnostic) :=
  match lowerItems items with
  | .error p => .error p
  | .ok (fs, ds) => .ok (fs, ds ++ validationDiags fs)

end Lowering

namespace Asm

/-- Assembly registers (`Register` in `asm.rs`). -/
inductive Register where
  | ax
  | dx
  | r10
deriving DecidableEq, Repr

/-- Assembly operands (`Operand` in `asm.rs`): an immediate, a register, or a
stack slot given as a byte offset from `%rbp`. -/
inductive Operand where
  | imm (c : Int)
  | register (r : Register)
  | stack (offset : Nat)
deriving DecidableEq, Repr

/-- Assembly unary operators (`UnaryOperator` in `asm.rs`). -/
inductive UnaryOperator where
  | neg
  | complement
  | not
deriving DecidableEq, Repr

/-- Assembly binary operators (`BinaryOperator` in `asm.rs`). -/
inductive BinaryOperator where
  | add
  | sub
  | mul
  | and
  | or
  | leftShift
  | rightShift
deriving DecidableEq, Repr

/-- Assembly comparison operators (`ComparisonOperator` in `asm.rs`). -/
inductive ComparisonOperator where
  | equal
  | notEqual
  | lessThan
  | lessThanOrEqual
  | greaterThan
  | greaterThanOrEqual
deriving DecidableEq, Repr

/-- Assembly instructions (`Instruction` in `asm.rs`). -/
inductive Instruction where
  | mov (src : Operand) (dst : Operand)
  | unary (op : UnaryOperator) (operand : Operand)
  | binary (op : BinaryOperator) (src : Operand) (dst : Operand)
  | idiv (src : Operand)
  | cdq
  | allocateStack (bytes : Nat)
  | ret
  | label (name : String)
  | jump (target : String)
  | jumpIfZero (condition : Operand) (target : String)
  | jumpIfNotZero (condition : Operand) (target : String)
  | comparison (op : ComparisonOperator) (left : Operand) (right : Operand) (dst : Operand)
deriving DecidableEq, Repr

/-- An assembly function: name and instruction list (`FunctionDefinition` in
`asm.rs`, minus the source span). -/
structure FunctionDefinition where
  name : String
  instructions : List Instruction
deriving DecidableEq, Repr

end Asm

namespace Codegen

/-- Mirror of `unary_operator_to_asm`. -/
def unaryOperatorToAsm : Tacky.UnaryOperator → Asm.UnaryOperator
  | .negate => .neg
  | .complement => .complement
  | .not => .not

/-- The local `BinOpKind` enum inside `to_assembly`'s `Binary` arm. -/
inductive BinOpKind where
  | bin (op : Asm.BinaryOperator)
  | div
  | mod
deriving DecidableEq, Repr

/-- Mirror of the `match op` table in `to_assembly`'s `Binary` arm. -/
def binOpKind : Tacky.BinaryOperator → BinOpKind
  | .add => .bin .add
  | .sub => .bin .sub
  | .mul => .bin .mul
  | .and => .bin .and
  | .or => .bin .or
  | .leftShift => .bin .leftShift
  | .rightShift => .bin .rightShift
  | .div => .div
  | .mod => .mod

/-- Mirror of the comparison-operator table in `to_assembly`'s
`Comparison` arm. -/
def comparisonOperatorToAsm : Tacky.ComparisonOperator → Asm.ComparisonOperator
  | .equal => .equal
  | .notEqual => .notEqual
  | .lessThan => .lessThan
  | .lessThanOrEqual => .lessThanOrEqual
  | .greaterThan => .greaterThan
  | .greaterThanOrEqual => .greaterThanOrEqual

/-- Mirror of `StackAllocator` (`codegen/mod.rs`): the list of variables in
first-seen order; a variable's slot index is its position in the list. -/
structure StackAllocator where
  vars : List Tacky.Variable
deriving DecidableEq, Repr

/-- Rust's `Iterator::position` specialised to equality with a variable:
the index of the first occurrence, if any. -/
def positionOf (v : Tacky.Variable) : List Tacky.Variable → Option Nat
  | [] => none
  | w :: rest => if w = v then some 0 else (positionOf v rest).map (· + 1)

/-- Mirror of `StackAllocator::index_of`: look the variable up; if absent,
append it and return the old length. -/
def StackAllocator.indexOf (a : StackAllocator) (v : Tacky.Variable) :
    Nat × StackAllocator :=
  match positionOf v a.vars with
  | some i => (i, a)
  | none => (a.vars.length, ⟨a.vars ++ [v]⟩)

/-- Mirror of `StackAllocator::offset_for`: `index * 4` bytes. -/
def StackAllocator.offsetFor (a : StackAllocator) (v : Tacky.Variable) :
    Nat × StackAllocator :=
  let (i, a') := a.indexOf v
  (i * 4, a')

/-- Mirror of `StackAllocator::operand_for`. -/
def StackAllocator.operandFor (a : StackAllocator) (val : Tacky.Val) :
    Asm.Operand × StackAllocator :=
  match val with
  | .constant c => (Asm.Operand.imm c, a)
  | .var v =>
    let (k, a') := a.offsetFor v
    (Asm.Operand.stack k, a')

/-- The body of `to_assembly`'s per-instruction `match`, producing the
assembly instructions for one TAC instruction and threading the stack
allocator. -/
def toAssemblyInstr (a : StackAllocator) :
    Tacky.Instruction → List Asm.Instruction × StackAllocator
  | .ret v =>
    let (src, a₁) := a.operandFor v
    ([Asm.Instruction.mov src (Asm.Operand.register .ax), Asm.Instruction.ret], a₁)
  | .unary op src dst =>
    let op := unaryOperatorToAsm op
    let (src, a₁) := a.operandFor src
    let (dst, a₂) := a₁.operandFor dst
    ([Asm.Instruction.mov src dst, Asm.Instruction.unary op dst], a₂)
  | .binary op left right dst =>
    let (leftSrc, a₁) := a.operandFor left
    let (rightSrc, a₂) := a₁.operandFor right
    let (dst, a₃) := a₂.operandFor dst
    match binOpKind op with
    | .bin op =>
      ([Asm.Instruction.mov leftSrc (Asm.Operand.register .r10),
        Asm.Instruction.binary op rightSrc (Asm.Operand.register .r10),
        Asm.Instruction.mov (Asm.Operand.register .r10) dst], a₃)
    | .div =>
      ([Asm.Instruction.mov leftSrc (Asm.Operand.register .ax),
        Asm.Instruction.cdq,
        Asm.Instruction.idiv rightSrc,
        Asm.Instruction.mov (Asm.Operand.register .ax) dst], a₃)
    | .mod =>
      ([Asm.Instruction.mov leftSrc (Asm.Operand.register .ax),
        Asm.Instruction.cdq,
        Asm.Instruction.idiv rightSrc,
        Asm.Instruction.mov (Asm.Operand.register .dx) dst], a₃)
  | .comparison op left right dst =>
    let (leftSrc, a₁) := a.operandFor left
    let (rightSrc, a₂) := a₁.operandFor right
    let (dst, a₃) := a₂.operandFor dst
    ([Asm.Instruction.comparison (comparisonOperatorToAsm op) leftSrc rightSrc dst], a₃)
  | .copy src dst =>
    let (src, a₁) := a.operandFor src
    let (dst, a₂) := a₁.operandFor dst
    ([Asm.Instruction.mov src dst], a₂)
  | .jump target => ([Asm.Instruction.jump target], a)
  | .label target => ([Asm.Instruction.label target], a)
  | .jumpIfZero condition target =>
    let (condition, a₁) := a.operandFor condition
    ([Asm.Instruction.jumpIfZero condition target], a₁)
  | .jumpIfNotZero condition target =>
    let (condition, a₁) := a.operandFor condition
    ([Asm.Instruction.jumpIfNotZero condition target], a₁)

/-- The instruction loop of `to_assembly`: translate each TAC instruction in
order, threading the allocator. -/
def toAssemblyGo (a : StackAllocator) :
    List Tacky.Instruction → List Asm.Instruction × StackAllocator
  | [] => ([], a)
  | i :: rest =>
    let (new, a₁) := toAssemblyInstr a i
    let (tail, a₂) := toAssemblyGo a₁ rest
    (new ++ tail, a₂)

/-- Mirror of `to_assembly`: run the instruction loop from an empty
allocator, then prepend `AllocateStack(4 * |variables|)` if any slot was
allocated. -/
def toAssembly (f : Tacky.FunctionDefinition) : Asm.FunctionDefinition :=
  let (instrs, alloc) := toAssemblyGo ⟨[]⟩ f.instructions
  let stackSizeBytes := alloc.vars.length * 4
  ⟨f.name,
    if stackSizeBytes > 0 then Asm.Instruction.allocateStack stackSizeBytes :: instrs
    else instrs⟩

/-- Mirror of `fix_up_instructions`: rewrite the illegal operand shapes
(`Mov Stack→Stack`, `Idiv Imm`, `Comparison` with `(Imm, Imm)`,
`(Stack, Imm)` or `(Imm, Stack)`); everything else passes through.
The arms appear in the source's order. -/
def fixUpInstructions : List Asm.Instruction → List Asm.Instruction
  | [] => []
  | .mov (.stack s) (.stack d) :: rest =>
    Asm.Instruction.mov (Asm.Operand.stack s) (Asm.Operand.register .r10) ::
    Asm.Instruction.mov (Asm.Operand.register .r10) (Asm.Operand.stack d) ::
    fixUpInstructions rest
  | .idiv (.imm c) :: rest =>
    Asm.Instruction.mov (Asm.Operand.imm c) (Asm.Operand.register .r10) ::
    Asm.Instruction.idiv (Asm.Operand.register .r10) ::
    fixUpInstructions rest
  | .comparison op (.imm cl) (.imm cr) dst :: rest =>
    Asm.Instruction.mov (Asm.Operand.imm cl) (Asm.Operand.register .r10) ::
    Asm.Instruction.comparison op (Asm.Operand.register .r10) (Asm.Operand.imm cr) dst ::
    fixUpInstructions rest
  | .comparison op (.stack s) (.imm cr) dst :: rest =>
    Asm.Instruction.mov (Asm.Operand.stack s) (Asm.Operand.register .r10) ::
    Asm.Instruction.comparison op (Asm.Operand.register .r10) (Asm.Operand.imm cr) dst ::
    fixUpInstructions rest
  | .comparison op (.imm cl) (.stack s) dst :: rest =>
    -- Note the swap: the original Imm left operand becomes the new right.
    Asm.Instruction.mov (Asm.Operand.stack s) (Asm.Operand.register .r10) ::
    Asm.Instruction.comparison op (Asm.Operand.register .r10) (Asm.Operand.imm cl) dst ::
    fixUpInstructions rest
  | i :: rest => i :: fixUpInstructions rest

/-- Mirror of codegen's `lower_function`: selection followed by fix-up. -/
def lowerFunction (f : Tacky.FunctionDefinition) : Asm.FunctionDefinition :=
  let a := toAssembly f
  ⟨a.name, fixUpInstructions a.instructions⟩

end Codegen

namespace Render

/-- Mirror of `AssemblyRenderer::register`. -/
def registerText : Asm.Register → String
  | .ax => "%eax"
  | .dx => "%edx"
  | .r10 => "%r10d"

/-- Mirror of `AssemblyRenderer::operand`: immediates render as `$n`,
registers by name, and `Stack(k)` as `-(k+4)(%rbp)`. -/
def operandText : Asm.Operand → String
  | .imm c => "$" ++ toString c
  | .register r => registerText r
  | .stack k => "-" ++ toString (k + 4) ++ "(%rbp)"

end Render

namespace Sem

/-- A TAC machine state: one integer per variable. -/
def Env : Type := Tacky.Variable → Int

/-- Point update of an environment. -/
def setVar (env : Env) (v : Tacky.Variable) (x : Int) : Env :=
  fun w => if w = v then x else env w

/-- Evaluate a TAC value in an environment. -/
def evalVal (env : Env) : Tacky.Val → Int
  | .constant c => c
  | .var v => env v

/-- Reduce an integer into the `i32` range `[-2^31, 2^31)`, i.e. 32-bit
two's-complement wraparound. -/
def toI32 (n : Int) : Int :=
  (n + 2 ^ 31) % 2 ^ 32 - 2 ^ 31

/-- Semantics of the TAC unary operators, following the rendered x86:
`negl`, `notl`, and the `cmpl $0` / `sete` sequence for logical not. -/
def applyUnary : Tacky.UnaryOperator → Int → Int
  | .negate => fun x => toI32 (-x)
  | .complement => fun x => toI32 (-x - 1)
  | .not => fun x => if x = 0 then 1 else 0

/-- Semantics of the TAC binary operators, following the rendered 32-bit
x86 instructions (`addl`, `subl`, `imull`, `idivl`, `andl`, `orl`, shifts
masked to five bits). -/
def applyBinary : Tacky.BinaryOperator → Int → Int → Int
  | .add => fun a b => toI32 (a + b)
  | .sub => fun a b => toI32 (a - b)
  | .mul => fun a b => toI32 (a * b)
  | .div => fun a b => Int.tdiv a b
  | .mod => fun a b => Int.tmod a b
  | .and => fun a b => toI32 (Int.land a b)
  | .or => fun a b => toI32 (Int.lor a b)
  | .leftShift => fun a b => toI32 (a * 2 ^ (b % 32).toNat)
  | .rightShift => fun a b => toI32 ((a % 2 ^ 32) / 2 ^ (b % 32).toNat)

/-- Semantics of the TAC comparison operators: signed comparison producing
`1` or `0` (`cmpl` plus `sete`/`setne`/`setl`/`setle`/`setg`/`setge`). -/
def applyComparison : Tacky.ComparisonOperator → Int → Int → Int
  | .equal => fun a b => if a = b then 1 else 0
  | .notEqual => fun a b => if a ≠ b then 1 else 0
  | .lessThan => fun a b => if a < b then 1 else 0
  | .lessThanOrEqual => fun a b => if a ≤ b then 1 else 0
  | .greaterThan => fun a b => if a > b then 1 else 0
  | .greaterThanOrEqual => fun a b => if a ≥ b then 1 else 0

/-- Division faults of x86 `idivl`: divide by zero, or the overflowing
`INT_MIN / -1`. -/
def divFault (a b : Int) : Bool :=
  b == 0 || (a == -(2 ^ 31) && b == -1)

/-- Outcome of running a TAC instruction list: a `Return` was executed, the
list was exhausted, or execution got stuck (an unresolvable jump target, a
constant destination, or a faulting division). -/
inductive ExecResult where
  | returned (v : Int)
  | fellThrough (env : Env)
  | stuck

mutual

/-- Operational semantics for a TAC instruction list, modelled from the
spec's meaning of each instruction (spec sections 3 and 4.3); the repository
itself gives TAC its meaning only through the x86 it compiles to.  Jumps
search forward from the jump site (`skipTo`); all code produced by the
lowering pass only jumps forward. -/
def runInstrs : List Tacky.Instruction → Env → ExecResult
  | [], env => .fellThrough env
  | .ret v :: _, env => .returned (evalVal env v)
  | .unary op src dst :: rest, env =>
    match dst with
    | .var d => runInstrs rest (setVar env d (applyUnary op (evalVal env src)))
    | .constant _ => .stuck
  | .binary op l r dst :: rest, env =>
    match dst with
    | .var d =>
      if (op = .div ∨ op = .mod) ∧ divFault (evalVal env l) (evalVal env r) then .stuck
      else runInstrs rest (setVar env d (applyBinary op (evalVal env l) (evalVal env r)))
    | .constant _ => .stuck
  | .comparison op l r dst :: rest, env =>
    match dst with
    | .var d => runInstrs rest (setVar env d (applyComparison op (evalVal env l) (evalVal env r)))
    | .constant _ => .stuck
  | .copy src dst :: rest, env =>
    match dst with
    | .var d => runInstrs rest (setVar env d (evalVal env src))
    | .constant _ => .stuck
  | .jump t :: rest, env => skipTo t rest env
  | .jumpIfZero c t :: rest, env =>
    if evalVal env c = 0 then skipTo t rest env else runInstrs rest env
  | .jumpIfNotZero c t :: rest, env =>
    if evalVal env c = 0 then runInstrs rest env else skipTo t rest env
  | .label _ :: rest, env => runInstrs rest env

/-- Scan forward for a label and resume execution after it. -/
def skipTo (t : String) : List Tacky.Instruction → Env → ExecResult
  | [], _ => .stuck
  | .label u :: rest, env => if u = t then runInstrs rest env else skipTo t rest env
  | _ :: rest, env => skipTo t rest env

end

/-- Reference denotational semantics for the supported expression subset,
written from the spec's description of expression lowering (spec section
4.3) and the operator semantics above; this is the comparison point for the
short-circuit observable-equivalence claim.  `none` marks expressions whose
compiled form has no defined value: unsupported constructs, out-of-range
literals, and faulting divisions. -/
def exprEval : Ast.Expr → Option Int
  | .num v => if v ≤ 2147483647 then some (Int.ofNat v) else none
  | .unary .plus e => exprEval e
  | .unary .minus e => (exprEval e).map (applyUnary .negate)
  | .unary .bitnot e => (exprEval e).map (applyUnary .complement)
  | .unary .not e => (exprEval e).map (applyUnary .not)
  | .binary op l r =>
    match exprEval l, exprEval r with
    | some a, some b =>
      match op with
      | .andand => some (if a ≠ 0 ∧ b ≠ 0 then 1 else 0)
      | .oror => some (if a ≠ 0 ∨ b ≠ 0 then 1 else 0)
      | .add => some (applyBinary .add a b)
      | .sub => some (applyBinary .sub a b)
      | .mul => some (applyBinary .mul a b)
      | .div => if divFault a b then none else some (applyBinary .div a b)
      | .mod => if divFault a b then none else some (applyBinary .mod a b)
      | .band => some (applyBinary .and a b)
      | .bor => some (applyBinary .or a b)
      | .shl => some (applyBinary .leftShift a b)
      | .shr => some (applyBinary .rightShift a b)
      | .eqeq => some (applyComparison .equal a b)
      | .noteq => some (applyComparison .notEqual a b)
      | .lt => some (applyComparison .lessThan a b)
      | .lte => some (applyComparison .lessThanOrEqual a b)
      | .gt => some (applyComparison .greaterThan a b)
      | .gte => some (applyComparison .greaterThanOrEqual a b)
      | .bitxor => none
    | _, _ => none
  | .paren e => exprEval e
  | .parenNonExpr => none
  | .unsupported => none

end Sem

/-! ## Definitions supporting the claims -/

/-- The label names declared by `Label` instructions of a TAC function. -/
def labelNames (l : List Tacky.Instruction) : List String :=
  l.filterMap fun i =>
    match i with
    | .label t => some t
    | _ => none

/-- The targets named by `Jump`, `JumpIfZero` and `JumpIfNotZero`
instructions of a TAC function. -/
def jumpTargets (l : List Tacky.Instruction) : List String :=
  l.filterMap fun i =>
    match i with
    | .jump t => some t
    | .jumpIfZero _ t => some t
    | .jumpIfNotZero _ t => some t
    | _ => none

/-- The anonymous destination of a `Unary`, `Binary` or `Comparison`
instruction, if any. -/
def ubcDst : Tacky.Instruction → Option Nat
  | .unary _ _ (.var (.anonymous j)) => some j
  | .binary _ _ _ (.var (.anonymous j)) => some j
  | .comparison _ _ _ (.var (.anonymous j)) => some j
  | _ => none

/-- The anonymous destination of a `Unary`, `Binary`, `Comparison` or `Copy`
instruction, if any (the collection named by the claim on destination
uniqueness). -/
def ubccDst : Tacky.Instruction → Option Nat
  | .unary _ _ (.var (.anonymous j)) => some j
  | .binary _ _ _ (.var (.anonymous j)) => some j
  | .comparison _ _ _ (.var (.anonymous j)) => some j
  | .copy _ (.var (.anonymous j)) => some j
  | _ => none

/-- All anonymous `Unary`/`Binary`/`Comparison` destinations of a function,
in order (a multiset presented as a list). -/
def anonUbcDsts (l : List Tacky.Instruction) : List Nat :=
  l.filterMap ubcDst

/-- All anonymous `Unary`/`Binary`/`Comparison`/`Copy` destinations of a
function, in order. -/
def anonUbcCopyDsts (l : List Tacky.Instruction) : List Nat :=
  l.filterMap ubccDst

/-- The operand occurrences of one assembly instruction. -/
def asmOperands : Asm.Instruction → List Asm.Operand
  | .mov src dst => [src, dst]
  | .unary _ operand => [operand]
  | .binary _ src dst => [src, dst]
  | .idiv src => [src]
  | .cdq => []
  | .allocateStack _ => []
  | .ret => []
  | .label _ => []
  | .jump _ => []
  | .jumpIfZero condition _ => [condition]
  | .jumpIfNotZero condition _ => [condition]
  | .comparison _ left right dst => [left, right, dst]

/-- The `Stack` offsets appearing in one assembly instruction. -/
def instrStackOffsets (i : Asm.Instruction) : List Nat :=
  (asmOperands i).filterMap fun o =>
    match o with
    | .stack k => some k
    | _ => none

/-- All `Stack` offsets appearing in an assembly instruction list. -/
def stackOffsets : List Asm.Instruction → List Nat
  | [] => []
  | i :: rest => instrStackOffsets i ++ stackOffsets rest

/-- Whether an assembly instruction is an `AllocateStack`. -/
def isAllocateStack : Asm.Instruction → Bool
  | .allocateStack _ => true
  | _ => false

/-- Operand legality after fix-up: not a stack-to-stack `Mov`, not an
immediate `Idiv` source, not a `Comparison` with immediates on both sides. -/
def legalInstr : Asm.Instruction → Bool
  | .mov (.stack _) (.stack _) => false
  | .idiv (.imm _) => false
  | .comparison _ (.imm _) (.imm _) _ => false
  | _ => true

/-- Whether an instruction matches one of the five fix-up shapes rewritten by
`fix_up_instructions`. -/
def needsFixUp : Asm.Instruction → Bool
  | .mov (.stack _) (.stack _) => true
  | .idiv (.imm _) => true
  | .comparison _ (.imm _) (.imm _) _ => true
  | .comparison _ (.stack _) (.imm _) _ => true
  | .comparison _ (.imm _) (.stack _) _ => true
  | _ => false

/-- An expression every construct of which has a lowering arm and every
literal of which fits in an `i32`: lowering it cannot emit a diagnostic,
panic, or return no value. -/
def supportedExpr : Ast.Expr → Bool
  | .num v => decide (v ≤ 2147483647)
  | .unary _ e => supportedExpr e
  | .binary op l r => !(op == Ast.BinaryOp.bitxor) && supportedExpr l && supportedExpr r
  | .paren e => supportedExpr e
  | .parenNonExpr => false
  | .unsupported => false

/-- A statement whose lowering cannot leave a dangling jump: either a fully
supported `return e;` or an unsupported statement (which lowers to nothing
but a diagnostic). -/
def supportedStmt : Ast.Stmt → Bool
  | .returnStmt e => supportedExpr e
  | .returnBare => false
  | .unsupported => true

/-- A translation-unit item whose lowering cannot leave a dangling jump. -/
def supportedItem : Ast.Item → Bool
  | .funcDef _ body => body.all supportedStmt
  | .other => true

/-- An expression whose lowering cannot panic: every number literal fits in
an `i32` (unsupported constructs are fine: they only emit diagnostics). -/
def noPanicExpr : Ast.Expr → Bool
  | .num v => decide (v ≤ 2147483647)
  | .unary _ e => noPanicExpr e
  | .binary _ l r => noPanicExpr l && noPanicExpr r
  | .paren e => noPanicExpr e
  | .parenNonExpr => true
  | .unsupported => true

/-- A statement whose lowering cannot panic: no bare `return;` and no
out-of-range literal. -/
def noPanicStmt : Ast.Stmt → Bool
  | .returnStmt e => noPanicExpr e
  | .returnBare => false
  | .unsupported => true

/-- A translation-unit item whose lowering cannot panic. -/
def noPanicItem : Ast.Item → Bool
  | .funcDef _ body => body.all noPanicStmt
  | .other => true

/-- A variable untouched by writes to the anonymous range `[n, n')`:
either named, or anonymous with an index outside the range. -/
def notTouched (w : Tacky.Variable) (n n' : Nat) : Prop :=
  match w with
  | .named _ => True
  | .anonymous j => j < n ∨ n' ≤ j

/-- Shape of the value a successful expression lowering returns: a constant,
or an anonymous temporary allocated during this lowering. -/
def okVal (val : Tacky.Val) (n n' : Nat) : Prop :=
  (∃ c, val = Tacky.Val.constant c) ∨
    ∃ j, val = Tacky.Val.var (Tacky.Variable.anonymous j) ∧ n ≤ j ∧ j < n'

/-- The decimal digit list of a natural number, most significant first (the
reference shape of `Nat.toDigitsCore` at base 10). -/
def decimalDigits (n : Nat) : List Char :=
  if _h : n < 10 then [Nat.digitChar n]
  else decimalDigits (n / 10) ++ [Nat.digitChar (n % 10)]
termination_by n
decreasing_by exact Nat.div_lt_self (by omega) (by omega)

/-- Numeric value of a digit character. -/
def digitVal (c : Char) : Nat := c.toNat - 48

/-- Decode a decimal digit list back to a number. -/
def decodeDigits (l : List Char) : Nat :=
  l.foldl (fun a c => 10 * a + digitVal c) 0

/-- Structural invariant of one expression-lowering step: the counter only
grows; the anonymous `Unary`/`Binary`/`Comparison` destinations of the newly
appended instructions are pairwise distinct and drawn from the counter range
consumed by this step; and the newly declared labels are `L{i}` for a
duplicate-free set of indices from the same range. -/
def StructOK (n n' : Nat) (new : List Tacky.Instruction) : Prop :=
  n ≤ n' ∧
  (anonUbcDsts new).Nodup ∧
  (∀ j ∈ anonUbcDsts new, n ≤ j ∧ j < n') ∧
  ∃ S : List Nat, S.Nodup ∧ (∀ i ∈ S, n ≤ i ∧ i < n') ∧
    labelNames new = S.map Lowering.mkLabel

/-- Every jump target of the segment is declared by a label of the segment. -/
def TargetsOK (new : List Tacky.Instruction) : Prop :=
  ∀ t ∈ jumpTargets new, t ∈ labelNames new

/-- Simulation specification for expression lowering: lowering `e` from any
context appends a block `new` of instructions, returns a value `val` of legal
shape, consumes exactly the counter range `[n, n')`, declares only labels
from that range, and — executed in front of any continuation `k` — falls
through into `k` in a state that agrees with the initial one outside the
consumed range and evaluates `val` to `v`. -/
def SimSpec (e : Ast.Expr) (v : Int) : Prop :=
  ∀ ctx : Lowering.FunctionContext,
    ∃ (new : List Tacky.Instruction) (val : Tacky.Val) (n' : Nat),
      Lowering.lowerExpr e ctx =
        .ok (some val, ⟨ctx.instructions ++ new, n', ctx.diags⟩) ∧
      ctx.next_anonymous ≤ n' ∧
      okVal val ctx.next_anonymous n' ∧
      (∀ t ∈ labelNames new,
        ∃ i, ctx.next_anonymous ≤ i ∧ i < n' ∧ t = Lowering.mkLabel i) ∧
      (∀ (env : Sem.Env) (k : List Tacky.Instruction),
        ∃ env' : Sem.Env,
          Sem.runInstrs (new ++ k) env = Sem.runInstrs k env' ∧
          Sem.evalVal env' val = v ∧
          ∀ w, notTouched w ctx.next_anonymous n' → env' w = env w)

/-- Whether a diagnostic has `Error` severity. -/
def isErrorDiag (d : Diagnostic) : Bool :=
  d.severity == Severity.error

namespace Tacky

/-- The `Val` operands of one TAC instruction, in the order `to_assembly`
passes them to `StackAllocator::operand_for`. -/
def Instruction.operandVals : Instruction → List Val
  | .ret v => [v]
  | .unary _ src dst => [src, dst]
  | .binary _ l r dst => [l, r, dst]
  | .comparison _ l r dst => [l, r, dst]
  | .copy src dst => [src, dst]
  | .jump _ => []
  | .label _ => []
  | .jumpIfZero c _ => [c]
  | .jumpIfNotZero c _ => [c]

end Tacky

/-- The variable under a `Val`, if any. -/
def varOfVal : Tacky.Val → Option Tacky.Variable
  | .var w => some w
  | .constant _ => none

/-- The TAC variables occurring in operand positions of an instruction
list, in occurrence order (with repeats). -/
def tackyVars : List Tacky.Instruction → List Tacky.Variable
  | [] => []
  | i :: rest => i.operandVals.filterMap varOfVal ++ tackyVars rest

namespace Codegen

/-- Fold of `operand_for` over a list of values: proof helper describing
the sequence of `operand_for` calls `to_assembly` makes for one
instruction. -/
def operandsFor (a : StackAllocator) : List Tacky.Val → List Asm.Operand × StackAllocator
  | [] => ([], a)
  | v :: rest =>
    let (o, a₁) := a.operandFor v
    let (os, a₂) := operandsFor a₁ rest
    (o :: os, a₂)

end Codegen

/-- The stack offsets among a list of assembly operands. -/
def operandOffsets (ops : List Asm.Operand) : List Nat :=
  ops.filterMap fun o =>
    match o with
    | .stack k => some k
    | _ => none

/-- Append a variable to a seen-list unless it is already present: one step
of the allocator's first-occurrence bookkeeping. -/
def insertNew (acc : List Tacky.Variable) (w : Tacky.Variable) : List Tacky.Variable :=
  if w ∈ acc then acc else acc ++ [w]

/-- The distinct variables of a list in order of first occurrence, starting
from an already-seen list `acc`. -/
def firstOccAux (acc : List Tacky.Variable) : List Tacky.Variable → List Tacky.Variable
  | [] => acc
  | w :: rest => firstOccAux (insertNew acc w) rest

/-- The distinct variables of a list, in order of first occurrence. -/
def firstOcc (l : List Tacky.Variable) : List Tacky.Variable := firstOccAux [] l

/-! ## Basic lemmas: decimal rendering and label names -/

theorem toDigitsCore_eq_decimalDigits :
    ∀ (fuel n : Nat) (acc : List Char), n < fuel →
      Nat.toDigitsCore 10 fuel n acc = decimalDigits n ++ acc := by
  intro fuel
  induction fuel with
  | zero => intro n acc h; omega
  | succ fuel ih =>
    intro n acc hfuel
    show (if n / 10 = 0 then Nat.digitChar (n % 10) :: acc
      else Nat.toDigitsCore 10 fuel (n / 10) (Nat.digitChar (n % 10) :: acc)) =
      decimalDigits n ++ acc
    by_cases hn : n / 10 = 0
    · have hlt : n < 10 := by omega
      rw [if_pos hn, decimalDigits, dif_pos hlt, Nat.mod_eq_of_lt hlt]
      simp
    · have hge : 10 ≤ n := by
        by_contra hc
        exact hn (Nat.div_eq_of_lt (by omega))
      have h1 : n / 10 < n := Nat.div_lt_self (by omega) (by omega)
      have hdiv : n / 10 < fuel := lt_of_lt_of_le h1 (Nat.lt_succ_iff.mp hfuel)
      rw [if_neg hn, ih (n / 10) _ hdiv]
      conv_rhs => rw [decimalDigits, dif_neg (by omega : ¬ n < 10)]
      simp

theorem decodeDigits_append_singleton (l : List Char) (c : Char) :
    decodeDigits (l ++ [c]) = 10 * decodeDigits l + digitVal c := by
  simp [decodeDigits, List.foldl_append]

theorem digitVal_digitChar {m : Nat} (h : m < 10) :
    digitVal (Nat.digitChar m) = m := by
  interval_cases m <;> decide

theorem decodeDigits_decimalDigits (n : Nat) :
    decodeDigits (decimalDigits n) = n := by
  induction n using Nat.strong_induction_on with
  | _ n ih =>
    by_cases h : n < 10
    · rw [decimalDigits, dif_pos h]
      show 10 * 0 + digitVal (Nat.digitChar n) = n
      rw [digitVal_digitChar h]
      omega
    · rw [decimalDigits, dif_neg h, decodeDigits_append_singleton,
        ih (n / 10) (Nat.div_lt_self (by omega) (by omega)),
        digitVal_digitChar (Nat.mod_lt _ (by omega))]
      omega

theorem decimalDigits_injective : Function.Injective decimalDigits := by
  intro m n h
  have := decodeDigits_decimalDigits m
  rw [h, decodeDigits_decimalDigits] at this
  omega

theorem natRepr_injective : Function.Injective Nat.repr := by
  intro m n h
  apply decimalDigits_injective
  have hm : Nat.repr m = (decimalDigits m).asString := by
    show (Nat.toDigits 10 m).asString = _
    rw [Nat.toDigits, toDigitsCore_eq_decimalDigits (m + 1) m [] (Nat.lt_succ_self m)]
    simp
  have hn : Nat.repr n = (decimalDigits n).asString := by
    show (Nat.toDigits 10 n).asString = _
    rw [Nat.toDigits, toDigitsCore_eq_decimalDigits (n + 1) n [] (Nat.lt_succ_self n)]
    simp
  rw [hm, hn] at h
  simpa [List.asString, String.ext_iff] using h

theorem mkLabel_injective : Function.Injective Lowering.mkLabel := by
  intro m n h
  apply natRepr_injective
  have hd := congrArg String.data h
  rw [Lowering.mkLabel, Lowering.mkLabel, String.data_append, String.data_append] at hd
  have hdata : (Nat.repr m).data = (Nat.repr n).data := by simpa using hd
  exact String.ext_iff.mpr hdata

theorem labelNames_append (l₁ l₂ : List Tacky.Instruction) :
    labelNames (l₁ ++ l₂) = labelNames l₁ ++ labelNames l₂ :=
  List.filterMap_append _ _ _

theorem jumpTargets_append (l₁ l₂ : List Tacky.Instruction) :
    jumpTargets (l₁ ++ l₂) = jumpTargets l₁ ++ jumpTargets l₂ :=
  List.filterMap_append _ _ _

theorem anonUbcDsts_append (l₁ l₂ : List Tacky.Instruction) :
    anonUbcDsts (l₁ ++ l₂) = anonUbcDsts l₁ ++ anonUbcDsts l₂ :=
  List.filterMap_append _ _ _

theorem anonUbcCopyDsts_append (l₁ l₂ : List Tacky.Instruction) :
    anonUbcCopyDsts (l₁ ++ l₂) = anonUbcCopyDsts l₁ ++ anonUbcCopyDsts l₂ :=
  List.filterMap_append _ _ _

theorem skipTo_append_of_not_mem {t : String} {l : List Tacky.Instruction}
    (h : t ∉ labelNames l) (k : List Tacky.Instruction) (env : Sem.Env) :
    Sem.skipTo t (l ++ k) env = Sem.skipTo t k env := by
  induction l with
  | nil => rfl
  | cons i rest ih =>
    have hsplit : labelNames (i :: rest) = labelNames [i] ++ labelNames rest :=
      labelNames_append [i] rest
    rw [hsplit] at h
    have h₁ : t ∉ labelNames [i] := fun hm => h (List.mem_append_left _ hm)
    have h₂ : t ∉ labelNames rest := fun hm => h (List.mem_append_right _ hm)
    cases i with
    | label u =>
      have hne : ¬ u = t := by
        intro e
        exact h₁ (by simp [labelNames, List.filterMap, e])
      rw [List.cons_append]
      show (if u = t then Sem.runInstrs (rest ++ k) env else Sem.skipTo t (rest ++ k) env) = _
      rw [if_neg hne]
      exact ih h₂
    | ret v => exact ih h₂
    | unary op src dst => exact ih h₂
    | binary op l r dst => exact ih h₂
    | comparison op l r dst => exact ih h₂
    | copy src dst => exact ih h₂
    | jump tgt => exact ih h₂
    | jumpIfZero c tgt => exact ih h₂
    | jumpIfNotZero c tgt => exact ih h₂

theorem StructOK_nil (n : Nat) : StructOK n n [] := by
  refine ⟨le_refl n, ?_, ?_, [], ?_, ?_, ?_⟩ <;> simp [anonUbcDsts, labelNames]

theorem StructOK_mono {n₀ n n' n'' : Nat} {l : List Tacky.Instruction}
    (h : StructOK n n' l) (h₀ : n₀ ≤ n) (h'' : n' ≤ n'') : StructOK n₀ n'' l := by
  obtain ⟨hmono, hnd, hrange, S, hS₁, hS₂, hS₃⟩ := h
  refine ⟨by omega, hnd, ?_, S, hS₁, ?_, hS₃⟩
  · intro j hj
    have := hrange j hj
    omega
  · intro i hi
    have := hS₂ i hi
    omega

theorem StructOK_append {n n₁ n₂ : Nat} {l₁ l₂ : List Tacky.Instruction}
    (h₁ : StructOK n n₁ l₁) (h₂ : StructOK n₁ n₂ l₂) :
    StructOK n n₂ (l₁ ++ l₂) := by
  obtain ⟨ha, hnd₁, hr₁, S₁, hS₁a, hS₁b, hS₁c⟩ := h₁
  obtain ⟨hb, hnd₂, hr₂, S₂, hS₂a, hS₂b, hS₂c⟩ := h₂
  refine ⟨le_trans ha hb, ?_, ?_, S₁ ++ S₂, ?_, ?_, ?_⟩
  · rw [anonUbcDsts_append, List.nodup_append]
    refine ⟨hnd₁, hnd₂, ?_⟩
    intro j hj₁ hj₂
    have := hr₁ j hj₁
    have := hr₂ j hj₂
    omega
  · intro j hj
    rw [anonUbcDsts_append, List.mem_append] at hj
    rcases hj with hj | hj
    · have := hr₁ j hj; omega
    · have := hr₂ j hj; omega
  · rw [List.nodup_append]
    refine ⟨hS₁a, hS₂a, ?_⟩
    intro i hi₁ hi₂
    have := hS₁b i hi₁
    have := hS₂b i hi₂
    omega
  · intro i hi
    rw [List.mem_append] at hi
    rcases hi with hi | hi
    · have := hS₁b i hi; omega
    · have := hS₂b i hi; omega
  · rw [labelNames_append, hS₁c, hS₂c, List.map_append]




theorem TargetsOK_append {l₁ l₂ : List Tacky.Instruction}
    (h₁ : TargetsOK l₁) (h₂ : TargetsOK l₂) : TargetsOK (l₁ ++ l₂) := by
  intro t ht
  rw [jumpTargets_append, List.mem_append] at ht
  rw [labelNames_append, List.mem_append]
  rcases ht with ht | ht
  · exact Or.inl (h₁ t ht)
  · exact Or.inr (h₂ t ht)

theorem TargetsOK_of_no_targets {l : List Tacky.Instruction}
    (h : jumpTargets l = []) : TargetsOK l := by
  intro t ht
  rw [h] at ht
  cases ht

theorem StructOK_ubc_singleton {n : Nat} {i : Tacky.Instruction}
    (hd : ubcDst i = some n) (hlab : labelNames [i] = []) :
    StructOK n (n + 1) [i] := by
  refine ⟨Nat.le_succ _, ?_, ?_, [], by simp, by simp, by simpa using hlab⟩
  · simp [anonUbcDsts, List.filterMap_cons, hd]
  · simp [anonUbcDsts, List.filterMap_cons, hd]

theorem StructOK_none_singleton {i : Tacky.Instruction}
    (hd : ubcDst i = none) (hlab : labelNames [i] = []) (n : Nat) :
    StructOK n n [i] := by
  refine ⟨le_refl _, ?_, ?_, [], by simp, by simp, by simpa using hlab⟩
  · simp [anonUbcDsts, List.filterMap_cons, hd]
  · simp [anonUbcDsts, List.filterMap_cons, hd]

/-- Shared tail of the fifteen implemented regular binary-operator arms of
`lower_binary_expression`: compose the facts for the two operand lowerings
with a freshly-destined instruction push. -/
theorem L1_bintail
    {ctx ctx₁ ctx₂ : Lowering.FunctionContext}
    {newL newR : List Tacky.Instruction} {dsL dsR : List Diagnostic}
    (h1L : ctx₁.instructions = ctx.instructions ++ newL)
    (h2L : ctx₁.diags = ctx.diags ++ dsL)
    (h3L : StructOK ctx.next_anonymous ctx₁.next_anonymous newL)
    (h4L : TargetsOK newL)
    (h1R : ctx₂.instructions = ctx₁.instructions ++ newR)
    (h2R : ctx₂.diags = ctx₁.diags ++ dsR)
    (h3R : StructOK ctx₁.next_anonymous ctx₂.next_anonymous newR)
    (h4R : TargetsOK newR)
    {i : Tacky.Instruction}
    (hd : ubcDst i = some ctx₂.next_anonymous)
    (hlab : labelNames [i] = [])
    (htgt : jumpTargets [i] = []) :
    ∃ (new : List Tacky.Instruction) (ds : List Diagnostic),
      (Lowering.push { ctx₂ with next_anonymous := ctx₂.next_anonymous + 1 } i).instructions =
        ctx.instructions ++ new ∧
      (Lowering.push { ctx₂ with next_anonymous := ctx₂.next_anonymous + 1 } i).diags =
        ctx.diags ++ ds ∧
      StructOK ctx.next_anonymous
        (Lowering.push { ctx₂ with next_anonymous := ctx₂.next_anonymous + 1 } i).next_anonymous
        new ∧
      (Option.isSome (some (Tacky.Val.var
        (Tacky.Variable.anonymous ctx₂.next_anonymous))) = true → TargetsOK new) := by
  refine ⟨newL ++ newR ++ [i], dsL ++ dsR, ?_, ?_, ?_, fun _ => ?_⟩
  · simp [Lowering.push, h1R, h1L]
  · simp [Lowering.push, h2R, h2L]
  · simp only [Lowering.push]
    exact StructOK_append (StructOK_append h3L h3R) (StructOK_ubc_singleton hd hlab)
  · exact TargetsOK_append (TargetsOK_append h4L h4R) (TargetsOK_of_no_targets htgt)

/-- Structural invariant of expression lowering, for every expression and
every successful (non-panicking) run: instructions and diagnostics only
grow, the appended block satisfies `StructOK` over the consumed counter
range, and — whenever a value is returned — every jump target of the block
is declared by one of its labels. -/
theorem lowerExpr_struct (e : Ast.Expr) :
    ∀ (ctx : Lowering.FunctionContext) (optv : Option Tacky.Val)
      (ctxf : Lowering.FunctionContext),
      Lowering.lowerExpr e ctx = .ok (optv, ctxf) →
      ∃ (new : List Tacky.Instruction) (ds : List Diagnostic),
        ctxf.instructions = ctx.instructions ++ new ∧
        ctxf.diags = ctx.diags ++ ds ∧
        StructOK ctx.next_anonymous ctxf.next_anonymous new ∧
        (optv.isSome = true → TargetsOK new) := by
  induction e with
  | num v =>
    intro ctx optv ctxf h
    simp only [Lowering.lowerExpr] at h
    split at h
    · simp only [Except.ok.injEq, Prod.mk.injEq] at h
      obtain ⟨h5, h6⟩ := h
      subst h5; subst h6
      exact ⟨[], [], by simp, by simp, StructOK_nil _, fun _ => TargetsOK_of_no_targets rfl⟩
    · cases h
  | unary op arg ih =>
    intro ctx optv ctxf h
    simp only [Lowering.lowerExpr] at h
    split at h
    · cases h
    · next ctx' heq =>
      simp only [Except.ok.injEq, Prod.mk.injEq] at h
      obtain ⟨h5, h6⟩ := h
      subst h5; subst h6
      obtain ⟨new, ds, h1, h2, h3, _⟩ := ih _ _ _ heq
      exact ⟨new, ds, h1, h2, h3, by simp⟩
    · next src ctx' heq =>
      simp only [Lowering.temporary] at h
      obtain ⟨new, ds, h1, h2, h3, h4⟩ := ih _ _ _ heq
      cases op with
      | plus =>
        simp only [Except.ok.injEq, Prod.mk.injEq] at h
        obtain ⟨h5, h6⟩ := h
        subst h5; subst h6
        exact ⟨new, ds, h1, h2, StructOK_mono h3 (le_refl _) (Nat.le_succ _),
          fun _ => h4 rfl⟩
      | minus =>
        simp only [Except.ok.injEq, Prod.mk.injEq] at h
        obtain ⟨h5, h6⟩ := h
        subst h5; subst h6
        refine ⟨new ++ [Tacky.Instruction.unary .negate src
          (Tacky.Val.var (Tacky.Variable.anonymous ctx'.next_anonymous))], ds, ?_, ?_, ?_, ?_⟩
        · simp [Lowering.push, h1]
        · simpa [Lowering.push] using h2
        · simp only [Lowering.push]
          exact StructOK_append h3 (StructOK_ubc_singleton rfl rfl)
        · intro _
          exact TargetsOK_append (h4 rfl) (TargetsOK_of_no_targets rfl)
      | bitnot =>
        simp only [Except.ok.injEq, Prod.mk.injEq] at h
        obtain ⟨h5, h6⟩ := h
        subst h5; subst h6
        refine ⟨new ++ [Tacky.Instruction.unary .complement src
          (Tacky.Val.var (Tacky.Variable.anonymous ctx'.next_anonymous))], ds, ?_, ?_, ?_, ?_⟩
        · simp [Lowering.push, h1]
        · simpa [Lowering.push] using h2
        · simp only [Lowering.push]
          exact StructOK_append h3 (StructOK_ubc_singleton rfl rfl)
        · intro _
          exact TargetsOK_append (h4 rfl) (TargetsOK_of_no_targets rfl)
      | not =>
        simp only [Except.ok.injEq, Prod.mk.injEq] at h
        obtain ⟨h5, h6⟩ := h
        subst h5; subst h6
        refine ⟨new ++ [Tacky.Instruction.unary .not src
          (Tacky.Val.var (Tacky.Variable.anonymous ctx'.next_anonymous))], ds, ?_, ?_, ?_, ?_⟩
        · simp [Lowering.push, h1]
        · simpa [Lowering.push] using h2
        · simp only [Lowering.push]
          exact StructOK_append h3 (StructOK_ubc_singleton rfl rfl)
        · intro _
          exact TargetsOK_append (h4 rfl) (TargetsOK_of_no_targets rfl)
  | paren inner ih =>
    intro ctx optv ctxf h
    exact ih _ _ _ h
  | parenNonExpr =>
    intro ctx optv ctxf h
    simp only [Lowering.lowerExpr, Except.ok.injEq, Prod.mk.injEq] at h
    obtain ⟨h5, h6⟩ := h
    subst h5; subst h6
    exact ⟨[], [Lowering.parenUnimplementedDiag], by simp [Lowering.accumulate],
      by simp [Lowering.accumulate], StructOK_nil _, by simp⟩
  | unsupported =>
    intro ctx optv ctxf h
    simp only [Lowering.lowerExpr, Except.ok.injEq, Prod.mk.injEq] at h
    obtain ⟨h5, h6⟩ := h
    subst h5; subst h6
    exact ⟨[], [Lowering.exprUnimplementedDiag], by simp [Lowering.accumulate],
      by simp [Lowering.accumulate], StructOK_nil _, by simp⟩
  | binary bop l r ihl ihr =>
    intro ctx optv ctxf h
    cases bop
    case andand =>
      simp only [Lowering.lowerExpr] at h
      split at h
      · cases h
      · next ctx₁ heq =>
        simp only [Except.ok.injEq, Prod.mk.injEq] at h
        obtain ⟨h5, h6⟩ := h
        subst h5; subst h6
        obtain ⟨new, ds, h1, h2, h3, _⟩ := ihl _ _ _ heq
        exact ⟨new, ds, h1, h2, h3, by simp⟩
      · next leftVal ctx₁ heq =>
        simp only [Lowering.label, Lowering.temporary] at h
        obtain ⟨newL, dsL, h1L, h2L, h3L, h4L⟩ := ihl _ _ _ heq
        split at h
        · cases h
        · next ctx₆ heq₂ =>
          simp only [Except.ok.injEq, Prod.mk.injEq] at h
          obtain ⟨h5, h6⟩ := h
          subst h5; subst h6
          obtain ⟨newR, dsR, h1R, h2R, h3R, _⟩ := ihr _ _ _ heq₂
          have h1R' : ctx₆.instructions = ctx₁.instructions ++
            [Tacky.Instruction.jumpIfZero leftVal (Lowering.mkLabel ctx₁.next_anonymous)] ++
            newR := h1R
          have h2R' : ctx₆.diags = ctx₁.diags ++ dsR := h2R
          have h3R' : StructOK (ctx₁.next_anonymous + 1 + 1 + 1) ctx₆.next_anonymous newR := h3R
          refine ⟨newL ++
            [Tacky.Instruction.jumpIfZero leftVal (Lowering.mkLabel ctx₁.next_anonymous)] ++
            newR, dsL ++ dsR, ?_, ?_, ?_, by simp⟩
          · simp only [h1R', h1L]
            simp
          · simp only [h2R', h2L]
            simp
          · refine StructOK_append (StructOK_append h3L ?_) h3R'
            exact StructOK_mono
              (@StructOK_none_singleton
                (Tacky.Instruction.jumpIfZero leftVal (Lowering.mkLabel ctx₁.next_anonymous))
                rfl rfl ctx₁.next_anonymous)
              (le_refl _) (by omega)
        · next rightVal ctx₆ heq₂ =>
          obtain ⟨newR, dsR, h1R, h2R, h3R, h4R⟩ := ihr _ _ _ heq₂
          have h1R' : ctx₆.instructions = ctx₁.instructions ++
            [Tacky.Instruction.jumpIfZero leftVal (Lowering.mkLabel ctx₁.next_anonymous)] ++
            newR := h1R
          have h2R' : ctx₆.diags = ctx₁.diags ++ dsR := h2R
          have h3R' : StructOK (ctx₁.next_anonymous + 1 + 1 + 1) ctx₆.next_anonymous newR := h3R
          simp only [Lowering.temporary, Lowering.push, Except.ok.injEq, Prod.mk.injEq] at h
          obtain ⟨h5, h6⟩ := h
          subst h5
          have hI : ctxf.instructions = ctx₆.instructions ++
            [Tacky.Instruction.comparison .notEqual (Tacky.Val.constant 0) rightVal
              (Tacky.Val.var (Tacky.Variable.anonymous ctx₆.next_anonymous))] ++
            [Tacky.Instruction.copy
              (Tacky.Val.var (Tacky.Variable.anonymous ctx₆.next_anonymous))
              (Tacky.Val.var (Tacky.Variable.anonymous (ctx₁.next_anonymous + 1 + 1)))] ++
            [Tacky.Instruction.jump (Lowering.mkLabel (ctx₁.next_anonymous + 1))] ++
            [Tacky.Instruction.label (Lowering.mkLabel ctx₁.next_anonymous)] ++
            [Tacky.Instruction.copy (Tacky.Val.constant 0)
              (Tacky.Val.var (Tacky.Variable.anonymous (ctx₁.next_anonymous + 1 + 1)))] ++
            [Tacky.Instruction.label (Lowering.mkLabel (ctx₁.next_anonymous + 1))] := by
            rw [← h6]
          have hN : ctxf.next_anonymous = ctx₆.next_anonymous + 1 := by rw [← h6]
          have hD : ctxf.diags = ctx₆.diags := by rw [← h6]
          rw [hI, hN, hD]
          obtain ⟨hmonoL, hndL, hrangeL, SL, hSL1, hSL2, hSL3⟩ := h3L
          obtain ⟨hmonoR, hndR, hrangeR, SR, hSR1, hSR2, hSR3⟩ := h3R'
          have hdj : anonUbcDsts
            [Tacky.Instruction.jumpIfZero leftVal (Lowering.mkLabel ctx₁.next_anonymous)]
              = [] := rfl
          have hd6 : anonUbcDsts
            [Tacky.Instruction.comparison .notEqual (Tacky.Val.constant 0) rightVal
              (Tacky.Val.var (Tacky.Variable.anonymous ctx₆.next_anonymous)),
             Tacky.Instruction.copy
              (Tacky.Val.var (Tacky.Variable.anonymous ctx₆.next_anonymous))
              (Tacky.Val.var (Tacky.Variable.anonymous (ctx₁.next_anonymous + 1 + 1))),
             Tacky.Instruction.jump (Lowering.mkLabel (ctx₁.next_anonymous + 1)),
             Tacky.Instruction.label (Lowering.mkLabel ctx₁.next_anonymous),
             Tacky.Instruction.copy (Tacky.Val.constant 0)
              (Tacky.Val.var (Tacky.Variable.anonymous (ctx₁.next_anonymous + 1 + 1))),
             Tacky.Instruction.label (Lowering.mkLabel (ctx₁.next_anonymous + 1))]
              = [ctx₆.next_anonymous] := rfl
          have hlj : labelNames
            [Tacky.Instruction.jumpIfZero leftVal (Lowering.mkLabel ctx₁.next_anonymous)]
              = [] := rfl
          have hl6 : labelNames
            [Tacky.Instruction.comparison .notEqual (Tacky.Val.constant 0) rightVal
              (Tacky.Val.var (Tacky.Variable.anonymous ctx₆.next_anonymous)),
             Tacky.Instruction.copy
              (Tacky.Val.var (Tacky.Variable.anonymous ctx₆.next_anonymous))
              (Tacky.Val.var (Tacky.Variable.anonymous (ctx₁.next_anonymous + 1 + 1))),
             Tacky.Instruction.jump (Lowering.mkLabel (ctx₁.next_anonymous + 1)),
             Tacky.Instruction.label (Lowering.mkLabel ctx₁.next_anonymous),
             Tacky.Instruction.copy (Tacky.Val.constant 0)
              (Tacky.Val.var (Tacky.Variable.anonymous (ctx₁.next_anonymous + 1 + 1))),
             Tacky.Instruction.label (Lowering.mkLabel (ctx₁.next_anonymous + 1))]
              = [Lowering.mkLabel ctx₁.next_anonymous,
                 Lowering.mkLabel (ctx₁.next_anonymous + 1)] := rfl
          have htj : jumpTargets
            [Tacky.Instruction.jumpIfZero leftVal (Lowering.mkLabel ctx₁.next_anonymous)]
              = [Lowering.mkLabel ctx₁.next_anonymous] := rfl
          have ht6 : jumpTargets
            [Tacky.Instruction.comparison .notEqual (Tacky.Val.constant 0) rightVal
              (Tacky.Val.var (Tacky.Variable.anonymous ctx₆.next_anonymous)),
             Tacky.Instruction.copy
              (Tacky.Val.var (Tacky.Variable.anonymous ctx₆.next_anonymous))
              (Tacky.Val.var (Tacky.Variable.anonymous (ctx₁.next_anonymous + 1 + 1))),
             Tacky.Instruction.jump (Lowering.mkLabel (ctx₁.next_anonymous + 1)),
             Tacky.Instruction.label (Lowering.mkLabel ctx₁.next_anonymous),
             Tacky.Instruction.copy (Tacky.Val.constant 0)
              (Tacky.Val.var (Tacky.Variable.anonymous (ctx₁.next_anonymous + 1 + 1))),
             Tacky.Instruction.label (Lowering.mkLabel (ctx₁.next_anonymous + 1))]
              = [Lowering.mkLabel (ctx₁.next_anonymous + 1)] := rfl
          refine ⟨newL ++
            [Tacky.Instruction.jumpIfZero leftVal (Lowering.mkLabel ctx₁.next_anonymous)] ++
            newR ++
            [Tacky.Instruction.comparison .notEqual (Tacky.Val.constant 0) rightVal
              (Tacky.Val.var (Tacky.Variable.anonymous ctx₆.next_anonymous)),
             Tacky.Instruction.copy
              (Tacky.Val.var (Tacky.Variable.anonymous ctx₆.next_anonymous))
              (Tacky.Val.var (Tacky.Variable.anonymous (ctx₁.next_anonymous + 1 + 1))),
             Tacky.Instruction.jump (Lowering.mkLabel (ctx₁.next_anonymous + 1)),
             Tacky.Instruction.label (Lowering.mkLabel ctx₁.next_anonymous),
             Tacky.Instruction.copy (Tacky.Val.constant 0)
              (Tacky.Val.var (Tacky.Variable.anonymous (ctx₁.next_anonymous + 1 + 1))),
             Tacky.Instruction.label (Lowering.mkLabel (ctx₁.next_anonymous + 1))],
            dsL ++ dsR, ?_, ?_, ?_, ?_⟩
          · simp only [h1R', h1L]
            simp
          · simp only [h2R', h2L]
            simp
          · refine ⟨by omega, ?_, ?_,
              SL ++ SR ++ [ctx₁.next_anonymous, ctx₁.next_anonymous + 1], ?_, ?_, ?_⟩
            · simp only [anonUbcDsts_append, hdj, hd6, List.append_nil]
              simp only [List.nodup_append]
              refine ⟨⟨hndL, hndR, ?_⟩, by simp, ?_⟩
              · intro j hj hj2
                have := hrangeL j hj
                have := hrangeR j hj2
                omega
              · intro j hj hj2
                simp only [List.mem_singleton] at hj2
                subst hj2
                rcases List.mem_append.mp hj with hj | hj
                · have := hrangeL _ hj
                  omega
                · have := hrangeR _ hj
                  omega
            · intro j hj
              simp only [anonUbcDsts_append, hdj, hd6, List.append_nil,
                List.mem_append, List.mem_singleton] at hj
              rcases hj with (hj | hj) | hj
              · have := hrangeL j hj
                omega
              · have := hrangeR j hj
                omega
              · omega
            · simp only [List.nodup_append]
              refine ⟨⟨hSL1, hSR1, ?_⟩, by simp, ?_⟩
              · intro i hi hi2
                have := hSL2 i hi
                have := hSR2 i hi2
                omega
              · intro i hi hi2
                simp only [List.mem_cons, List.mem_singleton] at hi2
                have hi2' : i = ctx₁.next_anonymous ∨ i = ctx₁.next_anonymous + 1 := by
                  rcases hi2 with h | h | h
                  · exact Or.inl h
                  · exact Or.inr h
                  · cases h
                rcases hi2' with rfl | rfl <;>
                  rcases List.mem_append.mp hi with hi | hi <;>
                  first
                  | (have h99 := hSL2 _ hi; omega)
                  | (have h99 := hSR2 _ hi; omega)
            · intro i hi
              simp only [List.mem_append, List.mem_cons, List.mem_singleton] at hi
              rcases hi with (hi | hi) | hi | hi | hi
              · have := hSL2 i hi
                omega
              · have := hSR2 i hi
                omega
              · omega
              · omega
              · cases hi
            · simp only [labelNames_append, hlj, hl6, List.append_nil, hSL3, hSR3,
                List.map_append]
              simp
          · intro _
            intro t ht
            simp only [jumpTargets_append, htj, ht6, List.append_nil, List.mem_append,
              List.mem_singleton] at ht
            simp only [labelNames_append, hlj, hl6, List.append_nil, List.mem_append,
              List.mem_singleton]
            rcases ht with ((ht | ht) | ht) | ht
            · exact Or.inl (Or.inl (h4L rfl t ht))
            · subst ht
              simp
            · exact Or.inl (Or.inr (h4R rfl t ht))
            · subst ht
              simp
    case oror =>
      simp only [Lowering.lowerExpr] at h
      split at h
      · cases h
      · next ctx₁ heq =>
        simp only [Except.ok.injEq, Prod.mk.injEq] at h
        obtain ⟨h5, h6⟩ := h
        subst h5; subst h6
        obtain ⟨new, ds, h1, h2, h3, _⟩ := ihl _ _ _ heq
        exact ⟨new, ds, h1, h2, h3, by simp⟩
      · next leftVal ctx₁ heq =>
        simp only [Lowering.label, Lowering.temporary] at h
        obtain ⟨newL, dsL, h1L, h2L, h3L, h4L⟩ := ihl _ _ _ heq
        split at h
        · cases h
        · next ctx₆ heq₂ =>
          simp only [Except.ok.injEq, Prod.mk.injEq] at h
          obtain ⟨h5, h6⟩ := h
          subst h5; subst h6
          obtain ⟨newR, dsR, h1R, h2R, h3R, _⟩ := ihr _ _ _ heq₂
          have h1R' : ctx₆.instructions = ctx₁.instructions ++
            [Tacky.Instruction.jumpIfNotZero leftVal (Lowering.mkLabel ctx₁.next_anonymous)] ++
            newR := h1R
          have h2R' : ctx₆.diags = ctx₁.diags ++ dsR := h2R
          have h3R' : StructOK (ctx₁.next_anonymous + 1 + 1 + 1) ctx₆.next_anonymous newR := h3R
          refine ⟨newL ++
            [Tacky.Instruction.jumpIfNotZero leftVal (Lowering.mkLabel ctx₁.next_anonymous)] ++
            newR, dsL ++ dsR, ?_, ?_, ?_, by simp⟩
          · simp only [h1R', h1L]
            simp
          · simp only [h2R', h2L]
            simp
          · refine StructOK_append (StructOK_append h3L ?_) h3R'
            exact StructOK_mono
              (@StructOK_none_singleton
                (Tacky.Instruction.jumpIfNotZero leftVal (Lowering.mkLabel ctx₁.next_anonymous))
                rfl rfl ctx₁.next_anonymous)
              (le_refl _) (by omega)
        · next rightVal ctx₆ heq₂ =>
          obtain ⟨newR, dsR, h1R, h2R, h3R, h4R⟩ := ihr _ _ _ heq₂
          have h1R' : ctx₆.instructions = ctx₁.instructions ++
            [Tacky.Instruction.jumpIfNotZero leftVal (Lowering.mkLabel ctx₁.next_anonymous)] ++
            newR := h1R
          have h2R' : ctx₆.diags = ctx₁.diags ++ dsR := h2R
          have h3R' : StructOK (ctx₁.next_anonymous + 1 + 1 + 1) ctx₆.next_anonymous newR := h3R
          simp only [Lowering.temporary, Lowering.push, Except.ok.injEq, Prod.mk.injEq] at h
          obtain ⟨h5, h6⟩ := h
          subst h5
          have hI : ctxf.instructions = ctx₆.instructions ++
            [Tacky.Instruction.comparison .notEqual (Tacky.Val.constant 0) rightVal
              (Tacky.Val.var (Tacky.Variable.anonymous ctx₆.next_anonymous))] ++
            [Tacky.Instruction.copy
              (Tacky.Val.var (Tacky.Variable.anonymous ctx₆.next_anonymous))
              (Tacky.Val.var (Tacky.Variable.anonymous (ctx₁.next_anonymous + 1 + 1)))] ++
            [Tacky.Instruction.jump (Lowering.mkLabel (ctx₁.next_anonymous + 1))] ++
            [Tacky.Instruction.label (Lowering.mkLabel ctx₁.next_anonymous)] ++
            [Tacky.Instruction.copy (Tacky.Val.constant 1)
              (Tacky.Val.var (Tacky.Variable.anonymous (ctx₁.next_anonymous + 1 + 1)))] ++
            [Tacky.Instruction.label (Lowering.mkLabel (ctx₁.next_anonymous + 1))] := by
            rw [← h6]
          have hN : ctxf.next_anonymous = ctx₆.next_anonymous + 1 := by rw [← h6]
          have hD : ctxf.diags = ctx₆.diags := by rw [← h6]
          rw [hI, hN, hD]
          obtain ⟨hmonoL, hndL, hrangeL, SL, hSL1, hSL2, hSL3⟩ := h3L
          obtain ⟨hmonoR, hndR, hrangeR, SR, hSR1, hSR2, hSR3⟩ := h3R'
          have hdj : anonUbcDsts
            [Tacky.Instruction.jumpIfNotZero leftVal (Lowering.mkLabel ctx₁.next_anonymous)]
              = [] := rfl
          have hd6 : anonUbcDsts
            [Tacky.Instruction.comparison .notEqual (Tacky.Val.constant 0) rightVal
              (Tacky.Val.var (Tacky.Variable.anonymous ctx₆.next_anonymous)),
             Tacky.Instruction.copy
              (Tacky.Val.var (Tacky.Variable.anonymous ctx₆.next_anonymous))
              (Tacky.Val.var (Tacky.Variable.anonymous (ctx₁.next_anonymous + 1 + 1))),
             Tacky.Instruction.jump (Lowering.mkLabel (ctx₁.next_anonymous + 1)),
             Tacky.Instruction.label (Lowering.mkLabel ctx₁.next_anonymous),
             Tacky.Instruction.copy (Tacky.Val.constant 1)
              (Tacky.Val.var (Tacky.Variable.anonymous (ctx₁.next_anonymous + 1 + 1))),
             Tacky.Instruction.label (Lowering.mkLabel (ctx₁.next_anonymous + 1))]
              = [ctx₆.next_anonymous] := rfl
          have hlj : labelNames
            [Tacky.Instruction.jumpIfNotZero leftVal (Lowering.mkLabel ctx₁.next_anonymous)]
              = [] := rfl
          have hl6 : labelNames
            [Tacky.Instruction.comparison .notEqual (Tacky.Val.constant 0) rightVal
              (Tacky.Val.var (Tacky.Variable.anonymous ctx₆.next_anonymous)),
             Tacky.Instruction.copy
              (Tacky.Val.var (Tacky.Variable.anonymous ctx₆.next_anonymous))
              (Tacky.Val.var (Tacky.Variable.anonymous (ctx₁.next_anonymous + 1 + 1))),
             Tacky.Instruction.jump (Lowering.mkLabel (ctx₁.next_anonymous + 1)),
             Tacky.Instruction.label (Lowering.mkLabel ctx₁.next_anonymous),
             Tacky.Instruction.copy (Tacky.Val.constant 1)
              (Tacky.Val.var (Tacky.Variable.anonymous (ctx₁.next_anonymous + 1 + 1))),
             Tacky.Instruction.label (Lowering.mkLabel (ctx₁.next_anonymous + 1))]
              = [Lowering.mkLabel ctx₁.next_anonymous,
                 Lowering.mkLabel (ctx₁.next_anonymous + 1)] := rfl
          have htj : jumpTargets
            [Tacky.Instruction.jumpIfNotZero leftVal (Lowering.mkLabel ctx₁.next_anonymous)]
              = [Lowering.mkLabel ctx₁.next_anonymous] := rfl
          have ht6 : jumpTargets
            [Tacky.Instruction.comparison .notEqual (Tacky.Val.constant 0) rightVal
              (Tacky.Val.var (Tacky.Variable.anonymous ctx₆.next_anonymous)),
             Tacky.Instruction.copy
              (Tacky.Val.var (Tacky.Variable.anonymous ctx₆.next_anonymous))
              (Tacky.Val.var (Tacky.Variable.anonymous (ctx₁.next_anonymous + 1 + 1))),
             Tacky.Instruction.jump (Lowering.mkLabel (ctx₁.next_anonymous + 1)),
             Tacky.Instruction.label (Lowering.mkLabel ctx₁.next_anonymous),
             Tacky.Instruction.copy (Tacky.Val.constant 1)
              (Tacky.Val.var (Tacky.Variable.anonymous (ctx₁.next_anonymous + 1 + 1))),
             Tacky.Instruction.label (Lowering.mkLabel (ctx₁.next_anonymous + 1))]
              = [Lowering.mkLabel (ctx₁.next_anonymous + 1)] := rfl
          refine ⟨newL ++
            [Tacky.Instruction.jumpIfNotZero leftVal (Lowering.mkLabel ctx₁.next_anonymous)] ++
            newR ++
            [Tacky.Instruction.comparison .notEqual (Tacky.Val.constant 0) rightVal
              (Tacky.Val.var (Tacky.Variable.anonymous ctx₆.next_anonymous)),
             Tacky.Instruction.copy
              (Tacky.Val.var (Tacky.Variable.anonymous ctx₆.next_anonymous))
              (Tacky.Val.var (Tacky.Variable.anonymous (ctx₁.next_anonymous + 1 + 1))),
             Tacky.Instruction.jump (Lowering.mkLabel (ctx₁.next_anonymous + 1)),
             Tacky.Instruction.label (Lowering.mkLabel ctx₁.next_anonymous),
             Tacky.Instruction.copy (Tacky.Val.constant 1)
              (Tacky.Val.var (Tacky.Variable.anonymous (ctx₁.next_anonymous + 1 + 1))),
             Tacky.Instruction.label (Lowering.mkLabel (ctx₁.next_anonymous + 1))],
            dsL ++ dsR, ?_, ?_, ?_, ?_⟩
          · simp only [h1R', h1L]
            simp
          · simp only [h2R', h2L]
            simp
          · refine ⟨by omega, ?_, ?_,
              SL ++ SR ++ [ctx₁.next_anonymous, ctx₁.next_anonymous + 1], ?_, ?_, ?_⟩
            · simp only [anonUbcDsts_append, hdj, hd6, List.append_nil]
              simp only [List.nodup_append]
              refine ⟨⟨hndL, hndR, ?_⟩, by simp, ?_⟩
              · intro j hj hj2
                have := hrangeL j hj
                have := hrangeR j hj2
                omega
              · intro j hj hj2
                simp only [List.mem_singleton] at hj2
                subst hj2
                rcases List.mem_append.mp hj with hj | hj
                · have := hrangeL _ hj
                  omega
                · have := hrangeR _ hj
                  omega
            · intro j hj
              simp only [anonUbcDsts_append, hdj, hd6, List.append_nil,
                List.mem_append, List.mem_singleton] at hj
              rcases hj with (hj | hj) | hj
              · have := hrangeL j hj
                omega
              · have := hrangeR j hj
                omega
              · omega
            · simp only [List.nodup_append]
              refine ⟨⟨hSL1, hSR1, ?_⟩, by simp, ?_⟩
              · intro i hi hi2
                have := hSL2 i hi
                have := hSR2 i hi2
                omega
              · intro i hi hi2
                simp only [List.mem_cons, List.mem_singleton] at hi2
                have hi2' : i = ctx₁.next_anonymous ∨ i = ctx₁.next_anonymous + 1 := by
                  rcases hi2 with h | h | h
                  · exact Or.inl h
                  · exact Or.inr h
                  · cases h
                rcases hi2' with rfl | rfl <;>
                  rcases List.mem_append.mp hi with hi | hi <;>
                  first
                  | (have h99 := hSL2 _ hi; omega)
                  | (have h99 := hSR2 _ hi; omega)
            · intro i hi
              simp only [List.mem_append, List.mem_cons, List.mem_singleton] at hi
              rcases hi with (hi | hi) | hi | hi | hi
              · have := hSL2 i hi
                omega
              · have := hSR2 i hi
                omega
              · omega
              · omega
              · cases hi
            · simp only [labelNames_append, hlj, hl6, List.append_nil, hSL3, hSR3,
                List.map_append]
              simp
          · intro _
            intro t ht
            simp only [jumpTargets_append, htj, ht6, List.append_nil, List.mem_append,
              List.mem_singleton] at ht
            simp only [labelNames_append, hlj, hl6, List.append_nil, List.mem_append,
              List.mem_singleton]
            rcases ht with ((ht | ht) | ht) | ht
            · exact Or.inl (Or.inl (h4L rfl t ht))
            · subst ht
              simp
            · exact Or.inl (Or.inr (h4R rfl t ht))
            · subst ht
              simp
    all_goals (
      simp only [Lowering.lowerExpr] at h
      split at h
      · cases h
      · next ctx₁ heq =>
        simp only [Except.ok.injEq, Prod.mk.injEq] at h
        obtain ⟨h5, h6⟩ := h
        subst h5; subst h6
        obtain ⟨new, ds, h1, h2, h3, _⟩ := ihl _ _ _ heq
        exact ⟨new, ds, h1, h2, h3, by simp⟩
      · next leftVal ctx₁ heq =>
        obtain ⟨newL, dsL, h1L, h2L, h3L, h4L⟩ := ihl _ _ _ heq
        split at h
        · cases h
        · next ctx₂ heq₂ =>
          simp only [Except.ok.injEq, Prod.mk.injEq] at h
          obtain ⟨h5, h6⟩ := h
          subst h5; subst h6
          obtain ⟨newR, dsR, h1R, h2R, h3R, _⟩ := ihr _ _ _ heq₂
          refine ⟨newL ++ newR, dsL ++ dsR, ?_, ?_, ?_, by simp⟩
          · simp [h1R, h1L]
          · simp [h2R, h2L]
          · exact StructOK_append h3L h3R
        · next rightVal ctx₂ heq₂ =>
          obtain ⟨newR, dsR, h1R, h2R, h3R, h4R⟩ := ihr _ _ _ heq₂
          first
          | (simp only [Lowering.lowerBinaryOperator, Lowering.lowerComparison,
              Lowering.temporary, Except.ok.injEq, Prod.mk.injEq] at h
             obtain ⟨h5, h6⟩ := h
             subst h5; subst h6
             exact L1_bintail h1L h2L h3L (h4L rfl) h1R h2R h3R (h4R rfl) rfl rfl rfl)
          | (simp only [Except.ok.injEq, Prod.mk.injEq] at h
             obtain ⟨h5, h6⟩ := h
             subst h5; subst h6
             refine ⟨newL ++ newR, dsL ++ dsR ++ [Lowering.binOpUnimplementedDiag],
               ?_, ?_, ?_, by simp⟩
             · simp [Lowering.accumulate, h1R, h1L]
             · simp [Lowering.accumulate, h2R, h2L]
             · simp only [Lowering.accumulate]
               exact StructOK_append h3L h3R))

/-- A fully supported expression always lowers to a value, with no panic and
no diagnostic path taken. -/
theorem lowerExpr_supported (e : Ast.Expr) :
    supportedExpr e = true →
    ∀ ctx : Lowering.FunctionContext,
      ∃ (v : Tacky.Val) (ctxf : Lowering.FunctionContext),
        Lowering.lowerExpr e ctx = .ok (some v, ctxf) := by
  induction e with
  | num v =>
    intro hs ctx
    simp only [supportedExpr, decide_eq_true_eq] at hs
    refine ⟨Tacky.Val.constant (Int.ofNat v), ctx, ?_⟩
    simp [Lowering.lowerExpr, Lowering.parseI32, hs]
  | unary op arg ih =>
    intro hs ctx
    simp only [supportedExpr] at hs
    obtain ⟨v, ctx', heq⟩ := ih hs ctx
    cases op <;>
      (simp only [Lowering.lowerExpr, heq, Lowering.temporary, Lowering.push]
       exact ⟨_, _, rfl⟩)
  | paren inner ih =>
    intro hs ctx
    simp only [supportedExpr] at hs
    obtain ⟨v, ctx', heq⟩ := ih hs ctx
    exact ⟨v, ctx', heq⟩
  | parenNonExpr => intro hs; cases hs
  | unsupported => intro hs; cases hs
  | binary bop l r ihl ihr =>
    intro hs ctx
    simp only [supportedExpr, Bool.and_eq_true, Bool.not_eq_true', beq_eq_false_iff_ne,
      ne_eq] at hs
    obtain ⟨⟨hbop, hsl⟩, hsr⟩ := hs
    obtain ⟨lv, ctx₁, heql⟩ := ihl hsl ctx
    cases bop
    case bitxor => exact absurd rfl hbop
    case andand =>
      simp only [Lowering.lowerExpr, heql, Lowering.label, Lowering.temporary,
        Lowering.push]
      obtain ⟨rv, ctx₂, heqr⟩ := ihr hsr
        ⟨ctx₁.instructions ++
          [Tacky.Instruction.jumpIfZero lv (Lowering.mkLabel ctx₁.next_anonymous)],
         ctx₁.next_anonymous + 1 + 1 + 1, ctx₁.diags⟩
      simp only [heqr]
      exact ⟨_, _, rfl⟩
    case oror =>
      simp only [Lowering.lowerExpr, heql, Lowering.label, Lowering.temporary,
        Lowering.push]
      obtain ⟨rv, ctx₂, heqr⟩ := ihr hsr
        ⟨ctx₁.instructions ++
          [Tacky.Instruction.jumpIfNotZero lv (Lowering.mkLabel ctx₁.next_anonymous)],
         ctx₁.next_anonymous + 1 + 1 + 1, ctx₁.diags⟩
      simp only [heqr]
      exact ⟨_, _, rfl⟩
    all_goals (
      obtain ⟨rv, ctx₂, heqr⟩ := ihr hsr ctx₁
      simp only [Lowering.lowerExpr, heql, heqr, Lowering.lowerBinaryOperator,
        Lowering.lowerComparison, Lowering.temporary, Lowering.push]
      exact ⟨_, _, rfl⟩)

/-- An expression with all literals in `i32` range never panics: lowering
always returns a result (possibly `none` with diagnostics). -/
theorem lowerExpr_noPanic (e : Ast.Expr) :
    noPanicExpr e = true →
    ∀ ctx : Lowering.FunctionContext,
      ∃ res, Lowering.lowerExpr e ctx = .ok res := by
  induction e with
  | num v =>
    intro hs ctx
    simp only [noPanicExpr, decide_eq_true_eq] at hs
    refine ⟨(some (Tacky.Val.constant (Int.ofNat v)), ctx), ?_⟩
    simp [Lowering.lowerExpr, Lowering.parseI32, hs]
  | unary op arg ih =>
    intro hs ctx
    simp only [noPanicExpr] at hs
    obtain ⟨⟨optv, ctx'⟩, heq⟩ := ih hs ctx
    cases optv with
    | none => exact ⟨(none, ctx'), by simp [Lowering.lowerExpr, heq]⟩
    | some v =>
      cases op <;>
        (simp only [Lowering.lowerExpr, heq, Lowering.temporary, Lowering.push]
         exact ⟨_, rfl⟩)
  | paren inner ih =>
    intro hs ctx
    exact ih hs ctx
  | parenNonExpr =>
    intro _ ctx
    exact ⟨_, rfl⟩
  | unsupported =>
    intro _ ctx
    exact ⟨_, rfl⟩
  | binary bop l r ihl ihr =>
    intro hs ctx
    simp only [noPanicExpr, Bool.and_eq_true] at hs
    obtain ⟨hsl, hsr⟩ := hs
    obtain ⟨⟨optL, ctx₁⟩, heql⟩ := ihl hsl ctx
    cases bop <;>
      (cases optL with
       | none => exact ⟨(none, ctx₁), by simp [Lowering.lowerExpr, heql]⟩
       | some lv =>
         first
         | (simp only [Lowering.lowerExpr, heql, Lowering.label, Lowering.temporary,
              Lowering.push]
            obtain ⟨⟨optR, ctx₂⟩, heqr⟩ := ihr hsr
              ⟨ctx₁.instructions ++
                [Tacky.Instruction.jumpIfZero lv (Lowering.mkLabel ctx₁.next_anonymous)],
               ctx₁.next_anonymous + 1 + 1 + 1, ctx₁.diags⟩
            simp only [heqr]
            cases optR with
            | none => exact ⟨_, rfl⟩
            | some rv => exact ⟨_, rfl⟩)
         | (simp only [Lowering.lowerExpr, heql, Lowering.label, Lowering.temporary,
              Lowering.push]
            obtain ⟨⟨optR, ctx₂⟩, heqr⟩ := ihr hsr
              ⟨ctx₁.instructions ++
                [Tacky.Instruction.jumpIfNotZero lv (Lowering.mkLabel ctx₁.next_anonymous)],
               ctx₁.next_anonymous + 1 + 1 + 1, ctx₁.diags⟩
            simp only [heqr]
            cases optR with
            | none => exact ⟨_, rfl⟩
            | some rv => exact ⟨_, rfl⟩)
         | (obtain ⟨⟨optR, ctx₂⟩, heqr⟩ := ihr hsr ctx₁
            simp only [Lowering.lowerExpr, heql, heqr, Lowering.lowerBinaryOperator,
              Lowering.lowerComparison, Lowering.temporary, Lowering.push,
              Lowering.accumulate]
            cases optR with
            | none => exact ⟨_, rfl⟩
            | some rv => exact ⟨_, rfl⟩))

/-- Structural invariant of statement lowering. -/
theorem lowerStatement_struct (s : Ast.Stmt) (ctx ctxf : Lowering.FunctionContext)
    (h : Lowering.lowerStatement s ctx = .ok ctxf) :
    ∃ (new : List Tacky.Instruction) (ds : List Diagnostic),
      ctxf.instructions = ctx.instructions ++ new ∧
      ctxf.diags = ctx.diags ++ ds ∧
      StructOK ctx.next_anonymous ctxf.next_anonymous new ∧
      (supportedStmt s = true → TargetsOK new) := by
  cases s with
  | returnStmt e =>
    simp only [Lowering.lowerStatement, Lowering.lowerReturnStatement] at h
    split at h
    · cases h
    · next ctx' heq =>
      injection h with h'
      subst h'
      obtain ⟨new, ds, h1, h2, h3, _⟩ := lowerExpr_struct e _ _ _ heq
      refine ⟨new, ds, h1, h2, h3, ?_⟩
      intro hs
      obtain ⟨v, ctxf', heq'⟩ := lowerExpr_supported e hs ctx
      rw [heq] at heq'
      cases heq'
    · next v ctx' heq =>
      injection h with h'
      subst h'
      obtain ⟨new, ds, h1, h2, h3, h4⟩ := lowerExpr_struct e _ _ _ heq
      refine ⟨new ++ [Tacky.Instruction.ret v], ds, ?_, ?_, ?_, ?_⟩
      · simp [Lowering.push, h1]
      · simpa [Lowering.push] using h2
      · simp only [Lowering.push]
        exact StructOK_append h3 (@StructOK_none_singleton (Tacky.Instruction.ret v)
          rfl rfl _)
      · intro _
        exact TargetsOK_append (h4 rfl) (TargetsOK_of_no_targets rfl)
  | returnBare =>
    simp only [Lowering.lowerStatement, Lowering.lowerReturnStatement] at h
    cases h
  | unsupported =>
    simp only [Lowering.lowerStatement] at h
    injection h with h'
    subst h'
    exact ⟨[], [Lowering.stmtUnimplementedDiag], by simp [Lowering.accumulate],
      by simp [Lowering.accumulate], StructOK_nil _, fun _ => TargetsOK_of_no_targets rfl⟩

/-- Structural invariant of body lowering (statements in sequence). -/
theorem lowerBody_struct (stmts : List Ast.Stmt) :
    ∀ (ctx ctxf : Lowering.FunctionContext),
      Lowering.lowerBody stmts ctx = .ok ctxf →
      ∃ (new : List Tacky.Instruction) (ds : List Diagnostic),
        ctxf.instructions = ctx.instructions ++ new ∧
        ctxf.diags = ctx.diags ++ ds ∧
        StructOK ctx.next_anonymous ctxf.next_anonymous new ∧
        ((∀ s ∈ stmts, supportedStmt s = true) → TargetsOK new) := by
  induction stmts with
  | nil =>
    intro ctx ctxf h
    simp only [Lowering.lowerBody] at h
    injection h with h'
    subst h'
    exact ⟨[], [], by simp, by simp, StructOK_nil _, fun _ => TargetsOK_of_no_targets rfl⟩
  | cons s rest ih =>
    intro ctx ctxf h
    simp only [Lowering.lowerBody] at h
    split at h
    · cases h
    · next ctx' heq =>
      obtain ⟨new₁, ds₁, h1a, h2a, h3a, h4a⟩ := lowerStatement_struct s _ _ heq
      obtain ⟨new₂, ds₂, h1b, h2b, h3b, h4b⟩ := ih _ _ h
      refine ⟨new₁ ++ new₂, ds₁ ++ ds₂, ?_, ?_, ?_, ?_⟩
      · simp [h1b, h1a]
      · simp [h2b, h2a]
      · exact StructOK_append h3a h3b
      · intro hall
        refine TargetsOK_append (h4a (hall s (by simp))) (h4b ?_)
        intro s' hs'
        exact hall s' (by simp [hs'])

/-- Structural invariant of a lowered function: its instruction list
satisfies `StructOK` from counter `0`, and a fully supported body leaves no
dangling jump target. -/
theorem lowerFunction_struct (name : String) (body : List Ast.Stmt)
    (f : Tacky.FunctionDefinition) (ds : List Diagnostic)
    (h : Lowering.lowerFunction name body = .ok (f, ds)) :
    f.name = name ∧
    ∃ n', StructOK 0 n' f.instructions ∧
      ((∀ s ∈ body, supportedStmt s = true) → TargetsOK f.instructions) := by
  simp only [Lowering.lowerFunction] at h
  split at h
  · cases h
  · next ctx heq =>
    simp only [Except.ok.injEq, Prod.mk.injEq] at h
    obtain ⟨h5, h6⟩ := h
    subst h6
    obtain ⟨new, ds', h1, h2, h3, h4⟩ := lowerBody_struct body _ _ heq
    simp only [List.nil_append] at h1
    refine ⟨by rw [← h5], ctx.next_anonymous, ?_, ?_⟩
    · rw [← h5]
      simpa [h1] using h3
    · intro hall
      rw [← h5]
      simp only
      rw [h1]
      exact h4 hall

/-- Every function in the output of the item loop comes from lowering some
`funcDef` item of the translation unit. -/
theorem lowerItems_mem (items : List Ast.Item) :
    ∀ (fs : List Tacky.FunctionDefinition) (ds : List Diagnostic),
      Lowering.lowerItems items = .ok (fs, ds) →
      ∀ f ∈ fs, ∃ (name : String) (body : List Ast.Stmt) (dsf : List Diagnostic),
        Ast.Item.funcDef name body ∈ items ∧
        Lowering.lowerFunction name body = .ok (f, dsf) := by
  induction items with
  | nil =>
    intro fs ds h f hf
    simp only [Lowering.lowerItems] at h
    simp only [Except.ok.injEq, Prod.mk.injEq] at h
    obtain ⟨h5, _⟩ := h
    subst h5
    cases hf
  | cons item rest ih =>
    intro fs ds h f hf
    cases item with
    | funcDef name body =>
      simp only [Lowering.lowerItems] at h
      split at h
      · cases h
      · next f₁ ds₁ heq₁ =>
        split at h
        · cases h
        · next fs₂ ds₂ heq₂ =>
          simp only [Except.ok.injEq, Prod.mk.injEq] at h
          obtain ⟨h5, _⟩ := h
          subst h5
          rcases List.mem_cons.mp hf with hf | hf
          · subst hf
            exact ⟨name, body, ds₁, by simp, heq₁⟩
          · obtain ⟨n', b', d', hmem, hlow⟩ := ih _ _ heq₂ f hf
            exact ⟨n', b', d', by simp [hmem], hlow⟩
    | other =>
      simp only [Lowering.lowerItems] at h
      split at h
      · cases h
      · next fs₂ ds₂ heq₂ =>
        simp only [Except.ok.injEq, Prod.mk.injEq] at h
        obtain ⟨h5, _⟩ := h
        subst h5
        obtain ⟨n', b', d', hmem, hlow⟩ := ih _ _ heq₂ f hf
        exact ⟨n', b', d', by simp [hmem], hlow⟩

/-- The `lower` query is the item loop followed by the `main` validation. -/
theorem lower_split (items : List Ast.Item)
    (fs : List Tacky.FunctionDefinition) (ds : List Diagnostic)
    (h : Lowering.lower items = .ok (fs, ds)) :
    ∃ ds₀, Lowering.lowerItems items = .ok (fs, ds₀) ∧
      ds = ds₀ ++ Lowering.validationDiags fs := by
  simp only [Lowering.lower] at h
  split at h
  · cases h
  · next fs₁ ds₁ heq =>
    simp only [Except.ok.injEq, Prod.mk.injEq] at h
    obtain ⟨h5, h6⟩ := h
    subst h5
    exact ⟨ds₁, heq, h6.symm⟩

theorem countP_extraFunctionDiags (fs : List Tacky.FunctionDefinition) :
    (Lowering.extraFunctionDiags fs).countP isErrorDiag =
      fs.countP (fun f => !(f.name == "main")) := by
  induction fs with
  | nil => rfl
  | cons f rest ih =>
    have ih' := ih
    simp only [Lowering.extraFunctionDiags] at ih'
    simp only [Lowering.extraFunctionDiags, List.filterMap_cons]
    by_cases hn : f.name = "main"
    · simp [hn, List.countP_cons, ih']
    · simp [hn, List.countP_cons, ih',
        show isErrorDiag Lowering.onlyMainDiag = true from rfl]

theorem countP_validationDiags (fs : List Tacky.FunctionDefinition) :
    (Lowering.validationDiags fs).countP isErrorDiag =
      (if fs.isEmpty then 1 else fs.countP (fun f => !(f.name == "main"))) := by
  match fs with
  | [] => rfl
  | [f] =>
    simp only [Lowering.validationDiags]
    by_cases hn : f.name = "main"
    · simp [hn, List.countP_cons]
    · simp only [if_neg hn, countP_extraFunctionDiags]
      simp [hn, List.countP_cons]
  | f :: g :: rest =>
    simp only [Lowering.validationDiags, countP_extraFunctionDiags]
    rfl

theorem lowerStatement_noPanic (s : Ast.Stmt) (hs : noPanicStmt s = true)
    (ctx : Lowering.FunctionContext) :
    ∃ ctxf, Lowering.lowerStatement s ctx = .ok ctxf := by
  cases s with
  | returnStmt e =>
    obtain ⟨⟨optv, ctx'⟩, heq⟩ := lowerExpr_noPanic e (by simpa [noPanicStmt] using hs) ctx
    cases optv with
    | none =>
      exact ⟨ctx', by simp [Lowering.lowerStatement, Lowering.lowerReturnStatement, heq]⟩
    | some v =>
      exact ⟨Lowering.push ctx' (Tacky.Instruction.ret v),
        by simp [Lowering.lowerStatement, Lowering.lowerReturnStatement, heq]⟩
  | returnBare => cases hs
  | unsupported => exact ⟨_, rfl⟩

theorem lowerBody_noPanic (stmts : List Ast.Stmt) :
    (∀ s ∈ stmts, noPanicStmt s = true) →
    ∀ ctx, ∃ ctxf, Lowering.lowerBody stmts ctx = .ok ctxf := by
  induction stmts with
  | nil => intro _ ctx; exact ⟨ctx, rfl⟩
  | cons s rest ih =>
    intro hall ctx
    obtain ⟨ctx', heq⟩ := lowerStatement_noPanic s (hall s (by simp)) ctx
    obtain ⟨ctxf, heq₂⟩ := ih (fun s' hs' => hall s' (by simp [hs'])) ctx'
    exact ⟨ctxf, by simp [Lowering.lowerBody, heq, heq₂]⟩

theorem lowerItems_noPanic (items : List Ast.Item) :
    (∀ item ∈ items, noPanicItem item = true) →
    ∃ r, Lowering.lowerItems items = .ok r := by
  induction items with
  | nil => intro _; exact ⟨_, rfl⟩
  | cons item rest ih =>
    intro hall
    obtain ⟨⟨fs, ds⟩, heq₂⟩ := ih (fun i hi => hall i (by simp [hi]))
    cases item with
    | funcDef name body =>
      have hb : ∀ s ∈ body, noPanicStmt s = true := by
        have := hall _ (List.mem_cons_self _ _)
        simpa [noPanicItem, List.all_eq_true] using this
      obtain ⟨ctxf, heq⟩ := lowerBody_noPanic body hb ⟨[], 0, []⟩
      exact ⟨(⟨name, ctxf.instructions⟩ :: fs, ctxf.diags ++ ds),
        by simp [Lowering.lowerItems, Lowering.lowerFunction, heq, heq₂]⟩
    | other =>
      exact ⟨(fs, Lowering.itemUnimplementedDiag :: ds),
        by simp [Lowering.lowerItems, heq₂]⟩

/-- Claim C3 counterexample: a translation unit with two functions both
named `main` is not "exactly one `main`", yet `lower` emits zero
Error-severity diagnostics, because the per-extra-function loop skips every
function named `main`. -/
theorem lower_duplicate_main_no_error :
    (Lowering.lower
        [Ast.Item.funcDef "main" [Ast.Stmt.returnStmt (Ast.Expr.num 0)],
         Ast.Item.funcDef "main" [Ast.Stmt.returnStmt (Ast.Expr.num 1)]]).map
      (fun r => (r.1.map Tacky.FunctionDefinition.name, r.2.countP isErrorDiag))
      = Except.ok (["main", "main"], 0) := rfl

/-- Claim C3 (amended): when `lower` returns, an empty function list
accumulates the "must contain `main`" Error diagnostic, and each lowered
function *not named `main`* (when the list is not a single `main`)
contributes its own Error diagnostic; functions named `main` beyond the
first contribute none, so a unit of two `main`s yields no error. -/
theorem lower_main_validation_errors (items : List Ast.Item)
    (fs : List Tacky.FunctionDefinition) (ds : List Diagnostic)
    (h : Lowering.lower items = .ok (fs, ds)) :
    (fs = [] → Lowering.mustContainMainDiag ∈ ds) ∧
    (if fs.isEmpty then 1 else fs.countP (fun f => !(f.name == "main"))) ≤
      ds.countP isErrorDiag := by
  obtain ⟨ds₀, _, hsplit⟩ := lower_split items fs ds h
  constructor
  · intro hempty
    subst hempty
    rw [hsplit]
    simp [Lowering.validationDiags]
  · rw [hsplit, List.countP_append, countP_validationDiags]
    omega

theorem lower_main_validation_errors_witness :
    ((([] : List Tacky.FunctionDefinition) = [] →
        Lowering.mustContainMainDiag ∈ [Lowering.mustContainMainDiag]) ∧
      (if ([] : List Tacky.FunctionDefinition).isEmpty then 1
        else ([] : List Tacky.FunctionDefinition).countP (fun f => !(f.name == "main"))) ≤
        ([Lowering.mustContainMainDiag]).countP isErrorDiag) :=
  lower_main_validation_errors [] [] [Lowering.mustContainMainDiag] rfl

/-- Claim C4 counterexample: lowering a translation unit whose `main` has a
bare `return;` does not accumulate an `unimplemented` diagnostic — it
aborts with the `todo!()` panic of `lower_return_statement`. -/
theorem lower_bare_return_panics :
    Lowering.lower [Ast.Item.funcDef "main" [Ast.Stmt.returnBare]]
      = .error Lowering.Panic.todoBareReturn := rfl

/-- Claim C4 (amended): `lower` reports unsupported constructs through
accumulated diagnostics and returns a TAC program — except for its two panic
sites: a bare `return;` aborts with the `todo!()` panic, and a number
literal that does not fit in an `i32` aborts with the `.parse().unwrap()`
panic.  For every translation unit avoiding those two shapes, `lower` never
fails by exception. -/
theorem lower_failure_model (items : List Ast.Item)
    (hnp : ∀ item ∈ items, noPanicItem item = true) :
    (∃ r, Lowering.lower items = .ok r) ∧
    (∀ ctx, Lowering.lowerStatement Ast.Stmt.returnBare ctx
      = .error Lowering.Panic.todoBareReturn) ∧
    (∀ (ctx : Lowering.FunctionContext) (v : Nat), 2147483647 < v →
      Lowering.lowerExpr (Ast.Expr.num v) ctx = .error Lowering.Panic.parseIntUnwrap) := by
  refine ⟨?_, fun ctx => rfl, ?_⟩
  · obtain ⟨⟨fs, ds⟩, heq⟩ := lowerItems_noPanic items hnp
    exact ⟨(fs, ds ++ Lowering.validationDiags fs), by simp [Lowering.lower, heq]⟩
  · intro ctx v hv
    have hne : ¬ v ≤ 2147483647 := by omega
    simp [Lowering.lowerExpr, Lowering.parseI32, hne]

theorem lower_failure_model_witness :
    (∃ r, Lowering.lower [Ast.Item.funcDef "main"
      [Ast.Stmt.returnStmt (Ast.Expr.unsupported)]] = .ok r) ∧
    (∀ ctx, Lowering.lowerStatement Ast.Stmt.returnBare ctx
      = .error Lowering.Panic.todoBareReturn) ∧
    (∀ (ctx : Lowering.FunctionContext) (v : Nat), 2147483647 < v →
      Lowering.lowerExpr (Ast.Expr.num v) ctx = .error Lowering.Panic.parseIntUnwrap) :=
  lower_failure_model [Ast.Item.funcDef "main" [Ast.Stmt.returnStmt (Ast.Expr.unsupported)]]
    (by decide)

/-- Claim C5 counterexample: lowering `int main(void) { return 1 && 2; }`
produces two `Copy` instructions with the same `Anonymous(2)` result
destination, so the multiset of `Unary`/`Binary`/`Comparison`/`Copy`
destinations restricted to anonymous variables has a repeat. -/
theorem lower_copy_dsts_repeat :
    (Lowering.lower [Ast.Item.funcDef "main"
        [Ast.Stmt.returnStmt (Ast.Expr.binary .andand (Ast.Expr.num 1) (Ast.Expr.num 2))]]).map
      (fun r => r.1.map fun f => decide (anonUbcCopyDsts f.instructions).Nodup)
      = Except.ok [false] := rfl

/-- Claim C5 (amended): in every TAC function produced by `lower`, the
multiset of destinations of `Unary`, `Binary` and `Comparison` instructions
(the fresh-temporary destinations), restricted to anonymous variables, has
no repeats.  `Copy` destinations must be excluded: the short-circuit
lowering targets its `result` temporary with one `Copy` in each branch. -/
theorem lower_ubc_dsts_nodup (items : List Ast.Item)
    (fs : List Tacky.FunctionDefinition) (ds : List Diagnostic)
    (h : Lowering.lower items = .ok (fs, ds)) :
    ∀ f ∈ fs, (anonUbcDsts f.instructions).Nodup := by
  intro f hf
  obtain ⟨ds₀, hitems, _⟩ := lower_split items fs ds h
  obtain ⟨name, body, dsf, _, hlow⟩ := lowerItems_mem items fs ds₀ hitems f hf
  obtain ⟨_, n', ⟨_, hnd, _, _⟩, _⟩ := lowerFunction_struct name body f dsf hlow
  exact hnd

theorem lower_ubc_dsts_nodup_witness :
    (anonUbcDsts [Tacky.Instruction.ret (Tacky.Val.constant 0)]).Nodup :=
  lower_ubc_dsts_nodup [Ast.Item.funcDef "main" [Ast.Stmt.returnStmt (Ast.Expr.num 0)]]
    [⟨"main", [Tacky.Instruction.ret (Tacky.Val.constant 0)]⟩] [] rfl
    ⟨"main", [Tacky.Instruction.ret (Tacky.Val.constant 0)]⟩ (by simp)

/-- Claim C8: for every well-formed (fully supported) translation unit, in
every TAC function produced by `lower`, each target named by a `Jump`,
`JumpIfZero` or `JumpIfNotZero` instruction appears as a `Label` instruction
exactly once within the same function. -/
theorem lower_labels_resolvable (items : List Ast.Item)
    (fs : List Tacky.FunctionDefinition) (ds : List Diagnostic)
    (hsup : ∀ item ∈ items, supportedItem item = true)
    (h : Lowering.lower items = .ok (fs, ds)) :
    ∀ f ∈ fs, ∀ t ∈ jumpTargets f.instructions,
      (labelNames f.instructions).count t = 1 := by
  intro f hf t ht
  obtain ⟨ds₀, hitems, _⟩ := lower_split items fs ds h
  obtain ⟨name, body, dsf, hmem, hlow⟩ := lowerItems_mem items fs ds₀ hitems f hf
  obtain ⟨_, n', ⟨_, _, _, S, hS1, hS2, hS3⟩, htok⟩ := lowerFunction_struct name body f dsf hlow
  have hbody : ∀ s ∈ body, supportedStmt s = true := by
    have := hsup _ hmem
    simpa [supportedItem, List.all_eq_true] using this
  have htl : t ∈ labelNames f.instructions := htok hbody t ht
  rw [hS3] at htl ⊢
  obtain ⟨i, hiS, hit⟩ := List.mem_map.mp htl
  rw [← hit, List.count_map_of_injective _ _ mkLabel_injective]
  exact List.count_eq_one_of_mem hS1 hiS

theorem lower_labels_resolvable_witness :
    (labelNames
      [Tacky.Instruction.jumpIfZero (Tacky.Val.constant 1) "L0",
       Tacky.Instruction.comparison .notEqual (Tacky.Val.constant 0) (Tacky.Val.constant 2)
         (Tacky.Val.var (Tacky.Variable.anonymous 3)),
       Tacky.Instruction.copy (Tacky.Val.var (Tacky.Variable.anonymous 3))
         (Tacky.Val.var (Tacky.Variable.anonymous 2)),
       Tacky.Instruction.jump "L1",
       Tacky.Instruction.label "L0",
       Tacky.Instruction.copy (Tacky.Val.constant 0)
         (Tacky.Val.var (Tacky.Variable.anonymous 2)),
       Tacky.Instruction.label "L1",
       Tacky.Instruction.ret (Tacky.Val.var (Tacky.Variable.anonymous 2))]).count "L0" = 1 :=
  lower_labels_resolvable
    [Ast.Item.funcDef "main"
      [Ast.Stmt.returnStmt (Ast.Expr.binary .andand (Ast.Expr.num 1) (Ast.Expr.num 2))]]
    [⟨"main",
      [Tacky.Instruction.jumpIfZero (Tacky.Val.constant 1) "L0",
       Tacky.Instruction.comparison .notEqual (Tacky.Val.constant 0) (Tacky.Val.constant 2)
         (Tacky.Val.var (Tacky.Variable.anonymous 3)),
       Tacky.Instruction.copy (Tacky.Val.var (Tacky.Variable.anonymous 3))
         (Tacky.Val.var (Tacky.Variable.anonymous 2)),
       Tacky.Instruction.jump "L1",
       Tacky.Instruction.label "L0",
       Tacky.Instruction.copy (Tacky.Val.constant 0)
         (Tacky.Val.var (Tacky.Variable.anonymous 2)),
       Tacky.Instruction.label "L1",
       Tacky.Instruction.ret (Tacky.Val.var (Tacky.Variable.anonymous 2))]⟩]
    [] (by decide) rfl
    ⟨"main",
      [Tacky.Instruction.jumpIfZero (Tacky.Val.constant 1) "L0",
       Tacky.Instruction.comparison .notEqual (Tacky.Val.constant 0) (Tacky.Val.constant 2)
         (Tacky.Val.var (Tacky.Variable.anonymous 3)),
       Tacky.Instruction.copy (Tacky.Val.var (Tacky.Variable.anonymous 3))
         (Tacky.Val.var (Tacky.Variable.anonymous 2)),
       Tacky.Instruction.jump "L1",
       Tacky.Instruction.label "L0",
       Tacky.Instruction.copy (Tacky.Val.constant 0)
         (Tacky.Val.var (Tacky.Variable.anonymous 2)),
       Tacky.Instruction.label "L1",
       Tacky.Instruction.ret (Tacky.Val.var (Tacky.Variable.anonymous 2))]⟩
    (by simp) "L0" (by decide)

theorem fixUp_cons_legal (x : Asm.Instruction) (rest : List Asm.Instruction) :
    ∃ pre, Codegen.fixUpInstructions (x :: rest) =
      pre ++ Codegen.fixUpInstructions rest ∧ ∀ i ∈ pre, legalInstr i = true := by
  cases x with
  | mov src dst =>
    cases src <;> cases dst <;>
      first
      | exact ⟨[_, _], rfl, by intro i hi; simp at hi; rcases hi with rfl | rfl <;> rfl⟩
      | exact ⟨[_], rfl, by intro i hi; simp at hi; subst hi; rfl⟩
  | idiv src =>
    cases src <;>
      first
      | exact ⟨[_, _], rfl, by intro i hi; simp at hi; rcases hi with rfl | rfl <;> rfl⟩
      | exact ⟨[_], rfl, by intro i hi; simp at hi; subst hi; rfl⟩
  | comparison op left right dst =>
    cases left <;> cases right <;>
      first
      | exact ⟨[_, _], rfl, by intro i hi; simp at hi; rcases hi with rfl | rfl <;> rfl⟩
      | exact ⟨[_], rfl, by intro i hi; simp at hi; subst hi; rfl⟩
  | unary op operand => exact ⟨[_], rfl, by intro i hi; simp at hi; subst hi; rfl⟩
  | binary op src dst => exact ⟨[_], rfl, by intro i hi; simp at hi; subst hi; rfl⟩
  | cdq => exact ⟨[_], rfl, by intro i hi; simp at hi; subst hi; rfl⟩
  | allocateStack n => exact ⟨[_], rfl, by intro i hi; simp at hi; subst hi; rfl⟩
  | ret => exact ⟨[_], rfl, by intro i hi; simp at hi; subst hi; rfl⟩
  | label t => exact ⟨[_], rfl, by intro i hi; simp at hi; subst hi; rfl⟩
  | jump t => exact ⟨[_], rfl, by intro i hi; simp at hi; subst hi; rfl⟩
  | jumpIfZero c t => exact ⟨[_], rfl, by intro i hi; simp at hi; subst hi; rfl⟩
  | jumpIfNotZero c t => exact ⟨[_], rfl, by intro i hi; simp at hi; subst hi; rfl⟩

theorem fixUp_legal : ∀ (l : List Asm.Instruction),
    ∀ i ∈ Codegen.fixUpInstructions l, legalInstr i = true := by
  intro l
  induction l with
  | nil => intro i hi; cases hi
  | cons x rest ih =>
    intro i hi
    obtain ⟨pre, heq, hpre⟩ := fixUp_cons_legal x rest
    rw [heq] at hi
    rcases List.mem_append.mp hi with hi | hi
    · exact hpre i hi
    · exact ih i hi

/-- Claim C2: in every assembly function produced by the code generator
(selection then fix-up), no `Mov` has `Stack` operands on both sides, no
`Idiv` has an `Imm` source, and no `Comparison` has `Imm` in both operand
positions. -/
theorem codegen_operand_legality (f : Tacky.FunctionDefinition) :
    ∀ i ∈ (Codegen.lowerFunction f).instructions, legalInstr i = true := by
  intro i hi
  exact fixUp_legal _ i hi

theorem codegen_operand_legality_witness :
    legalInstr (Asm.Instruction.mov (Asm.Operand.stack 0)
      (Asm.Operand.register .ax)) = true :=
  codegen_operand_legality ⟨"main", [Tacky.Instruction.ret
    (Tacky.Val.var (Tacky.Variable.anonymous 0))]⟩
    (Asm.Instruction.mov (Asm.Operand.stack 0) (Asm.Operand.register .ax)) (by decide)

/-- Claim C6: the fix-up of `Comparison{op, Imm, Stack, dst}` is
`Mov Stack→R10` followed by `Comparison{op, R10, Imm, dst}` — the original
`Imm` left operand becomes the new right operand (the operands are swapped
while `op` is unchanged) — and every instruction not matching one of the
five listed fix-up shapes passes through unchanged. -/
theorem fixup_comparison_swap :
    (∀ (op : Asm.ComparisonOperator) (c : Int) (s : Nat) (d : Asm.Operand)
        (rest : List Asm.Instruction),
      Codegen.fixUpInstructions
          (Asm.Instruction.comparison op (Asm.Operand.imm c) (Asm.Operand.stack s) d
            :: rest) =
        Asm.Instruction.mov (Asm.Operand.stack s) (Asm.Operand.register .r10) ::
        Asm.Instruction.comparison op (Asm.Operand.register .r10) (Asm.Operand.imm c) d ::
        Codegen.fixUpInstructions rest) ∧
    (∀ (i : Asm.Instruction) (rest : List Asm.Instruction), needsFixUp i = false →
      Codegen.fixUpInstructions (i :: rest) = i :: Codegen.fixUpInstructions rest) := by
  constructor
  · intro op c s d rest
    rfl
  · intro i rest hn
    cases i with
    | mov src dst => cases src <;> cases dst <;> first | rfl | simp [needsFixUp] at hn
    | idiv src => cases src <;> first | rfl | simp [needsFixUp] at hn
    | comparison op left right dst =>
      cases left <;> cases right <;> first | rfl | simp [needsFixUp] at hn
    | unary op operand => rfl
    | binary op src dst => rfl
    | cdq => rfl
    | allocateStack n => rfl
    | ret => rfl
    | label t => rfl
    | jump t => rfl
    | jumpIfZero c t => rfl
    | jumpIfNotZero c t => rfl

theorem fixup_comparison_swap_witness :
    Codegen.fixUpInstructions
        [Asm.Instruction.comparison .lessThan (Asm.Operand.imm 5) (Asm.Operand.stack 0)
          (Asm.Operand.stack 4)] =
      [Asm.Instruction.mov (Asm.Operand.stack 0) (Asm.Operand.register .r10),
       Asm.Instruction.comparison .lessThan (Asm.Operand.register .r10) (Asm.Operand.imm 5)
        (Asm.Operand.stack 4)] ∧
    Codegen.fixUpInstructions [Asm.Instruction.ret] = [Asm.Instruction.ret] :=
  ⟨fixup_comparison_swap.1 .lessThan 5 0 (Asm.Operand.stack 4) [],
   fixup_comparison_swap.2 Asm.Instruction.ret [] rfl⟩

/-- Claim C10: lowering a unary `+` appends no instruction beyond those of
its operand and returns the operand's value unchanged, but still consumes
one value of the shared fresh-name counter (the temporary is allocated
before the operator is inspected), so every temporary or label allocated
afterwards is numbered one higher than if the `+` were absent. -/
theorem lower_unary_plus_noop (e : Ast.Expr) (ctx ctx₀ : Lowering.FunctionContext)
    (v : Tacky.Val) (h : Lowering.lowerExpr e ctx = .ok (some v, ctx₀)) :
    Lowering.lowerExpr (Ast.Expr.unary .plus e) ctx =
      .ok (some v, { ctx₀ with next_anonymous := ctx₀.next_anonymous + 1 }) := by
  simp [Lowering.lowerExpr, h, Lowering.temporary]

theorem lower_unary_plus_noop_witness :
    Lowering.lowerExpr (Ast.Expr.unary .plus (Ast.Expr.num 5)) ⟨[], 0, []⟩ =
      .ok (some (Tacky.Val.constant 5), ⟨[], 1, []⟩) :=
  lower_unary_plus_noop (Ast.Expr.num 5) ⟨[], 0, []⟩ ⟨[], 0, []⟩
    (Tacky.Val.constant 5) rfl

theorem positionOf_eq_some (v : Tacky.Variable) (l : List Tacky.Variable) :
    ∀ (j : Nat), l.get? j = some v → (∀ i, i < j → l.get? i ≠ some v) →
    Codegen.positionOf v l = some j := by
  induction l with
  | nil => intro j hj _; simp at hj
  | cons w rest ih =>
    intro j hj hfirst
    by_cases hw : w = v
    · have hj0 : j = 0 := by
        by_contra hne
        exact hfirst 0 (by omega) (by simp [hw])
      subst hj0
      simp [Codegen.positionOf, hw]
    · cases j with
      | zero =>
        simp only [List.get?_cons_zero, Option.some.injEq] at hj
        exact absurd hj hw
      | succ j' =>
        have hrec := ih j' (by simpa using hj)
          (fun i hi => by simpa using hfirst (i + 1) (by omega))
        simp [Codegen.positionOf, hw, hrec]

/-- Claim C9: the renderer emits exactly `-(k+4)(%rbp)` for a `Stack(k)`
operand; combined with the allocator's `4·j` slot assignment, the `j`-th
distinct variable (0-based, first-occurrence order) is addressed at
`-(4·(j+1))(%rbp)`. -/
theorem render_stack_operand (k : Nat) (a : Codegen.StackAllocator)
    (v : Tacky.Variable) (j : Nat)
    (hj : a.vars.get? j = some v)
    (hfirst : ∀ i, i < j → a.vars.get? i ≠ some v) :
    Render.operandText (Asm.Operand.stack k) = "-" ++ Nat.repr (k + 4) ++ "(%rbp)" ∧
    (Codegen.StackAllocator.operandFor a (Tacky.Val.var v)).1 =
      Asm.Operand.stack (4 * j) ∧
    Render.operandText (Codegen.StackAllocator.operandFor a (Tacky.Val.var v)).1 =
      "-" ++ Nat.repr (4 * (j + 1)) ++ "(%rbp)" := by
  have hp := positionOf_eq_some v a.vars j hj hfirst
  have hop : (Codegen.StackAllocator.operandFor a (Tacky.Val.var v)).1 =
      Asm.Operand.stack (j * 4) := by
    simp [Codegen.StackAllocator.operandFor, Codegen.StackAllocator.offsetFor,
      Codegen.StackAllocator.indexOf, hp]
  refine ⟨rfl, ?_, ?_⟩
  · rw [hop, Nat.mul_comm]
  · rw [hop]
    show "-" ++ Nat.repr (j * 4 + 4) ++ "(%rbp)" = _
    have : j * 4 + 4 = 4 * (j + 1) := by ring
    rw [this]

theorem render_stack_operand_witness :
    Render.operandText (Asm.Operand.stack 0) = "-" ++ Nat.repr 4 ++ "(%rbp)" ∧
    (Codegen.StackAllocator.operandFor
      ⟨[Tacky.Variable.anonymous 0, Tacky.Variable.anonymous 1]⟩
      (Tacky.Val.var (Tacky.Variable.anonymous 1))).1 = Asm.Operand.stack 4 ∧
    Render.operandText (Codegen.StackAllocator.operandFor
      ⟨[Tacky.Variable.anonymous 0, Tacky.Variable.anonymous 1]⟩
      (Tacky.Val.var (Tacky.Variable.anonymous 1))).1 = "-" ++ Nat.repr 8 ++ "(%rbp)" :=
  render_stack_operand 0 ⟨[Tacky.Variable.anonymous 0, Tacky.Variable.anonymous 1]⟩
    (Tacky.Variable.anonymous 1) 1 rfl
    (by intro i hi; interval_cases i; decide)

theorem positionOf_some_lt {v : Tacky.Variable} :
    ∀ {l : List Tacky.Variable} {i : Nat},
      Codegen.positionOf v l = some i → i < l.length := by
  intro l
  induction l with
  | nil => intro i h; cases h
  | cons w rest ih =>
    intro i h
    simp only [Codegen.positionOf] at h
    simp only [List.length_cons]
    split at h
    · injection h with h'
      omega
    · cases hp : Codegen.positionOf v rest with
      | none => rw [hp] at h; cases h
      | some i' =>
        rw [hp] at h
        simp only [Option.map_some'] at h
        injection h with h'
        have := ih hp
        omega

theorem positionOf_none_iff {v : Tacky.Variable} :
    ∀ {l : List Tacky.Variable}, Codegen.positionOf v l = none ↔ v ∉ l := by
  intro l
  induction l with
  | nil => simp [Codegen.positionOf]
  | cons w rest ih =>
    simp only [Codegen.positionOf]
    by_cases hw : w = v
    · simp [hw]
    · simp only [if_neg hw, Option.map_eq_none', ih, List.mem_cons]
      constructor
      · intro hnm hor
        rcases hor with hor | hor
        · exact hw hor.symm
        · exact hnm hor
      · intro hnm hmem
        exact hnm (Or.inr hmem)

theorem operandFor_spec (a : Codegen.StackAllocator) (v : Tacky.Val)
    (hnd : a.vars.Nodup) :
    ∃ suffix,
      (a.operandFor v).2.vars = a.vars ++ suffix ∧
      (a.operandFor v).2.vars.Nodup ∧
      (∀ k, (a.operandFor v).1 = Asm.Operand.stack k →
        ∃ i, i < (a.operandFor v).2.vars.length ∧ k = 4 * i) ∧
      (∀ i, a.vars.length ≤ i → i < (a.operandFor v).2.vars.length →
        (a.operandFor v).1 = Asm.Operand.stack (4 * i)) ∧
      (∀ u, u ∈ (a.operandFor v).2.vars ↔ u ∈ a.vars ∨ varOfVal v = some u) := by
  cases v with
  | constant c =>
    refine ⟨[], by simp [Codegen.StackAllocator.operandFor], ?_, ?_, ?_, ?_⟩
    · simpa [Codegen.StackAllocator.operandFor] using hnd
    · intro k h
      simp [Codegen.StackAllocator.operandFor] at h
    · intro i h1 h2
      simp [Codegen.StackAllocator.operandFor] at h1 h2
      omega
    · intro u
      simp [Codegen.StackAllocator.operandFor, varOfVal]
  | var w =>
    cases hp : Codegen.positionOf w a.vars with
    | some i =>
      have hlt := positionOf_some_lt hp
      have hmem : w ∈ a.vars := by
        by_contra hc
        rw [← positionOf_none_iff] at hc
        rw [hc] at hp
        cases hp
      refine ⟨[], ?_, ?_, ?_, ?_, ?_⟩ <;>
        simp only [Codegen.StackAllocator.operandFor, Codegen.StackAllocator.offsetFor,
          Codegen.StackAllocator.indexOf, hp]
      · simp
      · exact hnd
      · intro k h
        simp only [Asm.Operand.stack.injEq] at h
        exact ⟨i, hlt, by omega⟩
      · intro i' h1 h2
        omega
      · intro u
        simp only [varOfVal, Option.some.injEq]
        constructor
        · intro hu
          exact Or.inl hu
        · intro hu
          rcases hu with hu | hu
          · exact hu
          · rw [← hu]
            exact hmem
    | none =>
      have hnm : w ∉ a.vars := positionOf_none_iff.mp hp
      have hop1 : (a.operandFor (Tacky.Val.var w)).1 =
          Asm.Operand.stack (a.vars.length * 4) := by
        simp [Codegen.StackAllocator.operandFor, Codegen.StackAllocator.offsetFor,
          Codegen.StackAllocator.indexOf, hp]
      have hop2 : (a.operandFor (Tacky.Val.var w)).2.vars = a.vars ++ [w] := by
        simp [Codegen.StackAllocator.operandFor, Codegen.StackAllocator.offsetFor,
          Codegen.StackAllocator.indexOf, hp]
      refine ⟨[w], hop2, ?_, ?_, ?_, ?_⟩
      · rw [hop2]
        simp [List.nodup_append, hnd, hnm]
      · intro k h
        rw [hop1] at h
        simp only [Asm.Operand.stack.injEq] at h
        rw [hop2]
        exact ⟨a.vars.length, by simp, by omega⟩
      · intro i' h1 h2
        rw [hop2] at h2
        simp only [List.length_append, List.length_singleton] at h2
        have hieq : i' = a.vars.length := by omega
        rw [hop1, hieq, Nat.mul_comm]
      · intro u
        rw [hop2]
        simp [varOfVal, List.mem_append, eq_comm]

theorem operandOffsets_mem {k : Nat} {ops : List Asm.Operand} :
    k ∈ operandOffsets ops ↔ Asm.Operand.stack k ∈ ops := by
  simp only [operandOffsets, List.mem_filterMap]
  constructor
  · rintro ⟨x, hx, hgx⟩
    cases x with
    | stack k' =>
      simp only [Option.some.injEq] at hgx
      exact hgx ▸ hx
    | imm c => cases hgx
    | register r => cases hgx
  · intro hk
    exact ⟨Asm.Operand.stack k, hk, rfl⟩

theorem operandsFor_spec (vals : List Tacky.Val) :
    ∀ (a : Codegen.StackAllocator), a.vars.Nodup →
    ∃ suffix,
      (Codegen.operandsFor a vals).2.vars = a.vars ++ suffix ∧
      (Codegen.operandsFor a vals).2.vars.Nodup ∧
      (∀ k ∈ operandOffsets (Codegen.operandsFor a vals).1,
        ∃ i, i < (Codegen.operandsFor a vals).2.vars.length ∧ k = 4 * i) ∧
      (∀ i, a.vars.length ≤ i → i < (Codegen.operandsFor a vals).2.vars.length →
        (4 * i) ∈ operandOffsets (Codegen.operandsFor a vals).1) ∧
      (∀ u, u ∈ (Codegen.operandsFor a vals).2.vars ↔
        u ∈ a.vars ∨ u ∈ vals.filterMap varOfVal) := by
  induction vals with
  | nil =>
    intro a hnd
    exact ⟨[], by simp [Codegen.operandsFor], by simpa [Codegen.operandsFor] using hnd,
      by simp [Codegen.operandsFor, operandOffsets],
      by intro i h1 h2; exact absurd h2 (by simp [Codegen.operandsFor]; omega),
      by simp [Codegen.operandsFor]⟩
  | cons v rest ih =>
    intro a hnd
    obtain ⟨suf₁, he₁x, hnd₁x, hb₁x, hc₁x, hm₁x⟩ := operandFor_spec a v hnd
    rcases ho : a.operandFor v with ⟨o, a₁⟩
    rw [ho] at he₁x hnd₁x hb₁x hc₁x hm₁x
    have he₁ : a₁.vars = a.vars ++ suf₁ := he₁x
    have hnd₁ : a₁.vars.Nodup := hnd₁x
    have hb₁ : ∀ k, o = Asm.Operand.stack k →
        ∃ i, i < a₁.vars.length ∧ k = 4 * i := hb₁x
    have hc₁ : ∀ i, a.vars.length ≤ i → i < a₁.vars.length →
        o = Asm.Operand.stack (4 * i) := hc₁x
    have hm₁ : ∀ u, u ∈ a₁.vars ↔ u ∈ a.vars ∨ varOfVal v = some u := hm₁x
    obtain ⟨suf₂, he₂x, hnd₂x, hb₂x, hc₂x, hm₂x⟩ := ih a₁ hnd₁
    rcases hos : Codegen.operandsFor a₁ rest with ⟨os, a₂⟩
    rw [hos] at he₂x hnd₂x hb₂x hc₂x hm₂x
    have he₂ : a₂.vars = a₁.vars ++ suf₂ := he₂x
    have hnd₂ : a₂.vars.Nodup := hnd₂x
    have hb₂ : ∀ k ∈ operandOffsets os,
        ∃ i, i < a₂.vars.length ∧ k = 4 * i := hb₂x
    have hc₂ : ∀ i, a₁.vars.length ≤ i → i < a₂.vars.length →
        (4 * i) ∈ operandOffsets os := hc₂x
    have hm₂ : ∀ u, u ∈ a₂.vars ↔ u ∈ a₁.vars ∨ u ∈ rest.filterMap varOfVal := hm₂x
    have hred : Codegen.operandsFor a (v :: rest) = (o :: os, a₂) := by
      simp [Codegen.operandsFor, ho, hos]
    rw [hred]
    have hlen₁ : a.vars.length ≤ a₁.vars.length := by
      rw [he₁]; simp
    have hlen₂ : a₁.vars.length ≤ a₂.vars.length := by
      rw [he₂]; simp
    refine ⟨suf₁ ++ suf₂, ?_, hnd₂, ?_, ?_, ?_⟩
    · simp only [he₂, he₁, List.append_assoc]
    · intro k hk
      rw [operandOffsets_mem, List.mem_cons] at hk
      rcases hk with hk | hk
      · obtain ⟨i, hi, hki⟩ := hb₁ k hk.symm
        exact ⟨i, lt_of_lt_of_le hi hlen₂, hki⟩
      · exact hb₂ k (operandOffsets_mem.mpr hk)
    · intro i h1 h2
      rw [operandOffsets_mem, List.mem_cons]
      by_cases hi₁ : i < a₁.vars.length
      · exact Or.inl (hc₁ i h1 hi₁).symm
      · exact Or.inr (operandOffsets_mem.mp (hc₂ i (by omega) h2))
    · intro u
      rw [hm₂, hm₁]
      simp [List.filterMap_cons]
      cases hvo : varOfVal v <;> simp [hvo] <;> tauto

theorem stackOffsets_append (l₁ l₂ : List Asm.Instruction) :
    stackOffsets (l₁ ++ l₂) = stackOffsets l₁ ++ stackOffsets l₂ := by
  induction l₁ with
  | nil => rfl
  | cons i rest ih => simp [stackOffsets, ih]

theorem operandFor_vars (a : Codegen.StackAllocator) (v : Tacky.Val) :
    (a.operandFor v).2.vars = (match varOfVal v with
      | some w => insertNew a.vars w
      | none => a.vars) := by
  cases v with
  | constant c => simp [Codegen.StackAllocator.operandFor, varOfVal]
  | var w =>
    simp only [varOfVal]
    cases hp : Codegen.positionOf w a.vars with
    | some i =>
      have hmem : w ∈ a.vars := by
        by_contra hc
        rw [← positionOf_none_iff] at hc
        rw [hc] at hp
        cases hp
      simp [Codegen.StackAllocator.operandFor, Codegen.StackAllocator.offsetFor,
        Codegen.StackAllocator.indexOf, hp, insertNew, hmem]
    | none =>
      have hnm : w ∉ a.vars := positionOf_none_iff.mp hp
      simp [Codegen.StackAllocator.operandFor, Codegen.StackAllocator.offsetFor,
        Codegen.StackAllocator.indexOf, hp, insertNew, hnm]

theorem operandsFor_vars (vals : List Tacky.Val) :
    ∀ a : Codegen.StackAllocator,
      (Codegen.operandsFor a vals).2.vars =
        firstOccAux a.vars (vals.filterMap varOfVal) := by
  induction vals with
  | nil => intro a; simp [Codegen.operandsFor, firstOccAux]
  | cons v rest ih =>
    intro a
    rcases ho : a.operandFor v with ⟨o, a₁⟩
    have hvx := operandFor_vars a v
    rw [ho] at hvx
    have hred : (Codegen.operandsFor a (v :: rest)).2 = (Codegen.operandsFor a₁ rest).2 := by
      rcases hos : Codegen.operandsFor a₁ rest with ⟨os, a₂⟩
      simp [Codegen.operandsFor, ho, hos]
    rw [hred, ih a₁]
    simp only [List.filterMap_cons]
    cases hvo : varOfVal v with
    | none =>
      have hv' : a₁.vars = a.vars := by
        have := hvx
        rw [hvo] at this
        exact this
      rw [hv']
    | some w =>
      have hv' : a₁.vars = insertNew a.vars w := by
        have := hvx
        rw [hvo] at this
        exact this
      simp only [firstOccAux]
      rw [hv']

theorem firstOccAux_append (l₁ l₂ : List Tacky.Variable) :
    ∀ acc, firstOccAux acc (l₁ ++ l₂) = firstOccAux (firstOccAux acc l₁) l₂ := by
  induction l₁ with
  | nil => intro acc; rfl
  | cons w rest ih =>
    intro acc
    simp only [List.cons_append, firstOccAux]
    exact ih _


theorem toAssemblyInstr_link (a : Codegen.StackAllocator) (i : Tacky.Instruction) :
    (Codegen.toAssemblyInstr a i).2 = (Codegen.operandsFor a i.operandVals).2 ∧
    (∀ k, k ∈ stackOffsets (Codegen.toAssemblyInstr a i).1 ↔
      k ∈ operandOffsets (Codegen.operandsFor a i.operandVals).1) ∧
    (∀ ins ∈ (Codegen.toAssemblyInstr a i).1, isAllocateStack ins = false) := by
  cases i with
  | ret v =>
    rcases h1 : a.operandFor v with ⟨o1, a1⟩
    have hval : Tacky.Instruction.operandVals (Tacky.Instruction.ret v) = [v] := rfl
    have hops : Codegen.operandsFor a [v] = ([o1], a1) := by
      simp [Codegen.operandsFor, h1]
    have hasm : Codegen.toAssemblyInstr a (Tacky.Instruction.ret v) =
        ([Asm.Instruction.mov o1 (Asm.Operand.register Asm.Register.ax),
          Asm.Instruction.ret], a1) := by
      simp [Codegen.toAssemblyInstr, h1]
    refine ⟨by rw [hasm, hval, hops], ?_, ?_⟩
    · intro k
      rw [hasm, hval, hops]
      cases o1 <;> simp [stackOffsets, instrStackOffsets, asmOperands, operandOffsets]
    · intro ins hins
      rw [hasm] at hins
      simp at hins
      rcases hins with rfl | rfl <;> rfl
  | unary op src dst =>
    rcases h1 : a.operandFor src with ⟨o1, a1⟩
    rcases h2 : a1.operandFor dst with ⟨o2, a2⟩
    have hval : Tacky.Instruction.operandVals (Tacky.Instruction.unary op src dst) =
      [src, dst] := rfl
    have hops : Codegen.operandsFor a [src, dst] = ([o1, o2], a2) := by
      simp [Codegen.operandsFor, h1, h2]
    have hasm : Codegen.toAssemblyInstr a (Tacky.Instruction.unary op src dst) =
        ([Asm.Instruction.mov o1 o2,
          Asm.Instruction.unary (Codegen.unaryOperatorToAsm op) o2], a2) := by
      simp [Codegen.toAssemblyInstr, h1, h2]
    refine ⟨by rw [hasm, hval, hops], ?_, ?_⟩
    · intro k
      rw [hasm, hval, hops]
      cases o1 <;> cases o2 <;>
        simp [stackOffsets, instrStackOffsets, asmOperands, operandOffsets]
    · intro ins hins
      rw [hasm] at hins
      simp at hins
      rcases hins with rfl | rfl <;> rfl
  | binary op l r dst =>
    rcases h1 : a.operandFor l with ⟨o1, a1⟩
    rcases h2 : a1.operandFor r with ⟨o2, a2⟩
    rcases h3 : a2.operandFor dst with ⟨o3, a3⟩
    have hval : Tacky.Instruction.operandVals (Tacky.Instruction.binary op l r dst) =
      [l, r, dst] := rfl
    have hops : Codegen.operandsFor a [l, r, dst] = ([o1, o2, o3], a3) := by
      simp [Codegen.operandsFor, h1, h2, h3]
    cases hbk : Codegen.binOpKind op with
    | bin b =>
      have hasm : Codegen.toAssemblyInstr a (Tacky.Instruction.binary op l r dst) =
          ([Asm.Instruction.mov o1 (Asm.Operand.register Asm.Register.r10),
            Asm.Instruction.binary b o2 (Asm.Operand.register Asm.Register.r10),
            Asm.Instruction.mov (Asm.Operand.register Asm.Register.r10) o3], a3) := by
        simp [Codegen.toAssemblyInstr, h1, h2, h3, hbk]
      refine ⟨by rw [hasm, hval, hops], ?_, ?_⟩
      · intro k
        rw [hasm, hval, hops]
        cases o1 <;> cases o2 <;> cases o3 <;>
          simp [stackOffsets, instrStackOffsets, asmOperands, operandOffsets]
      · intro ins hins
        rw [hasm] at hins
        simp at hins
        rcases hins with rfl | rfl | rfl <;> rfl
    | div =>
      have hasm : Codegen.toAssemblyInstr a (Tacky.Instruction.binary op l r dst) =
          ([Asm.Instruction.mov o1 (Asm.Operand.register Asm.Register.ax),
            Asm.Instruction.cdq,
            Asm.Instruction.idiv o2,
            Asm.Instruction.mov (Asm.Operand.register Asm.Register.ax) o3], a3) := by
        simp [Codegen.toAssemblyInstr, h1, h2, h3, hbk]
      refine ⟨by rw [hasm, hval, hops], ?_, ?_⟩
      · intro k
        rw [hasm, hval, hops]
        cases o1 <;> cases o2 <;> cases o3 <;>
          simp [stackOffsets, instrStackOffsets, asmOperands, operandOffsets]
      · intro ins hins
        rw [hasm] at hins
        simp at hins
        rcases hins with rfl | rfl | rfl | rfl <;> rfl
    | mod =>
      have hasm : Codegen.toAssemblyInstr a (Tacky.Instruction.binary op l r dst) =
          ([Asm.Instruction.mov o1 (Asm.Operand.register Asm.Register.ax),
            Asm.Instruction.cdq,
            Asm.Instruction.idiv o2,
            Asm.Instruction.mov (Asm.Operand.register Asm.Register.dx) o3], a3) := by
        simp [Codegen.toAssemblyInstr, h1, h2, h3, hbk]
      refine ⟨by rw [hasm, hval, hops], ?_, ?_⟩
      · intro k
        rw [hasm, hval, hops]
        cases o1 <;> cases o2 <;> cases o3 <;>
          simp [stackOffsets, instrStackOffsets, asmOperands, operandOffsets]
      · intro ins hins
        rw [hasm] at hins
        simp at hins
        rcases hins with rfl | rfl | rfl | rfl <;> rfl
  | comparison op l r dst =>
    rcases h1 : a.operandFor l with ⟨o1, a1⟩
    rcases h2 : a1.operandFor r with ⟨o2, a2⟩
    rcases h3 : a2.operandFor dst with ⟨o3, a3⟩
    have hval : Tacky.Instruction.operandVals (Tacky.Instruction.comparison op l r dst) =
      [l, r, dst] := rfl
    have hops : Codegen.operandsFor a [l, r, dst] = ([o1, o2, o3], a3) := by
      simp [Codegen.operandsFor, h1, h2, h3]
    have hasm : Codegen.toAssemblyInstr a (Tacky.Instruction.comparison op l r dst) =
        ([Asm.Instruction.comparison (Codegen.comparisonOperatorToAsm op) o1 o2 o3],
          a3) := by
      simp [Codegen.toAssemblyInstr, h1, h2, h3]
    refine ⟨by rw [hasm, hval, hops], ?_, ?_⟩
    · intro k
      rw [hasm, hval, hops]
      cases o1 <;> cases o2 <;> cases o3 <;>
        simp [stackOffsets, instrStackOffsets, asmOperands, operandOffsets]
    · intro ins hins
      rw [hasm] at hins
      simp at hins
      subst hins
      rfl
  | copy src dst =>
    rcases h1 : a.operandFor src with ⟨o1, a1⟩
    rcases h2 : a1.operandFor dst with ⟨o2, a2⟩
    have hval : Tacky.Instruction.operandVals (Tacky.Instruction.copy src dst) =
      [src, dst] := rfl
    have hops : Codegen.operandsFor a [src, dst] = ([o1, o2], a2) := by
      simp [Codegen.operandsFor, h1, h2]
    have hasm : Codegen.toAssemblyInstr a (Tacky.Instruction.copy src dst) =
        ([Asm.Instruction.mov o1 o2], a2) := by
      simp [Codegen.toAssemblyInstr, h1, h2]
    refine ⟨by rw [hasm, hval, hops], ?_, ?_⟩
    · intro k
      rw [hasm, hval, hops]
      cases o1 <;> cases o2 <;>
        simp [stackOffsets, instrStackOffsets, asmOperands, operandOffsets]
    · intro ins hins
      rw [hasm] at hins
      simp at hins
      subst hins
      rfl
  | jump t =>
    refine ⟨rfl, ?_, ?_⟩
    · intro k
      simp [Codegen.toAssemblyInstr, Codegen.operandsFor, Tacky.Instruction.operandVals,
        stackOffsets, instrStackOffsets, asmOperands, operandOffsets]
    · intro ins hins
      simp [Codegen.toAssemblyInstr] at hins
      subst hins
      rfl
  | label t =>
    refine ⟨rfl, ?_, ?_⟩
    · intro k
      simp [Codegen.toAssemblyInstr, Codegen.operandsFor, Tacky.Instruction.operandVals,
        stackOffsets, instrStackOffsets, asmOperands, operandOffsets]
    · intro ins hins
      simp [Codegen.toAssemblyInstr] at hins
      subst hins
      rfl
  | jumpIfZero c t =>
    rcases h1 : a.operandFor c with ⟨o1, a1⟩
    have hval : Tacky.Instruction.operandVals (Tacky.Instruction.jumpIfZero c t) =
      [c] := rfl
    have hops : Codegen.operandsFor a [c] = ([o1], a1) := by
      simp [Codegen.operandsFor, h1]
    have hasm : Codegen.toAssemblyInstr a (Tacky.Instruction.jumpIfZero c t) =
        ([Asm.Instruction.jumpIfZero o1 t], a1) := by
      simp [Codegen.toAssemblyInstr, h1]
    refine ⟨by rw [hasm, hval, hops], ?_, ?_⟩
    · intro k
      rw [hasm, hval, hops]
      cases o1 <;> simp [stackOffsets, instrStackOffsets, asmOperands, operandOffsets]
    · intro ins hins
      rw [hasm] at hins
      simp at hins
      subst hins
      rfl
  | jumpIfNotZero c t =>
    rcases h1 : a.operandFor c with ⟨o1, a1⟩
    have hval : Tacky.Instruction.operandVals (Tacky.Instruction.jumpIfNotZero c t) =
      [c] := rfl
    have hops : Codegen.operandsFor a [c] = ([o1], a1) := by
      simp [Codegen.operandsFor, h1]
    have hasm : Codegen.toAssemblyInstr a (Tacky.Instruction.jumpIfNotZero c t) =
        ([Asm.Instruction.jumpIfNotZero o1 t], a1) := by
      simp [Codegen.toAssemblyInstr, h1]
    refine ⟨by rw [hasm, hval, hops], ?_, ?_⟩
    · intro k
      rw [hasm, hval, hops]
      cases o1 <;> simp [stackOffsets, instrStackOffsets, asmOperands, operandOffsets]
    · intro ins hins
      rw [hasm] at hins
      simp at hins
      subst hins
      rfl

theorem toAssemblyGo_spec (instrs : List Tacky.Instruction) :
    ∀ a : Codegen.StackAllocator, a.vars.Nodup →
    ∃ suffix,
      (Codegen.toAssemblyGo a instrs).2.vars = a.vars ++ suffix ∧
      (Codegen.toAssemblyGo a instrs).2.vars.Nodup ∧
      (∀ k ∈ stackOffsets (Codegen.toAssemblyGo a instrs).1,
        ∃ i, i < (Codegen.toAssemblyGo a instrs).2.vars.length ∧ k = 4 * i) ∧
      (∀ i, a.vars.length ≤ i → i < (Codegen.toAssemblyGo a instrs).2.vars.length →
        (4 * i) ∈ stackOffsets (Codegen.toAssemblyGo a instrs).1) ∧
      (∀ u, u ∈ (Codegen.toAssemblyGo a instrs).2.vars ↔
        u ∈ a.vars ∨ u ∈ tackyVars instrs) ∧
      (∀ ins ∈ (Codegen.toAssemblyGo a instrs).1, isAllocateStack ins = false) := by
  induction instrs with
  | nil =>
    intro a hnd
    exact ⟨[], by simp [Codegen.toAssemblyGo],
      by simpa [Codegen.toAssemblyGo] using hnd,
      by simp [Codegen.toAssemblyGo, stackOffsets],
      by intro i h1 h2; exact absurd h2 (by simp [Codegen.toAssemblyGo]; omega),
      by simp [Codegen.toAssemblyGo, tackyVars],
      by simp [Codegen.toAssemblyGo]⟩
  | cons i rest ih =>
    intro a hnd
    obtain ⟨hlA, hlM, hlN⟩ := toAssemblyInstr_link a i
    obtain ⟨suf₁, he₁x, hnd₁x, hb₁x, hc₁x, hm₁x⟩ := operandsFor_spec i.operandVals a hnd
    rcases hI : Codegen.toAssemblyInstr a i with ⟨new, a₁⟩
    rw [hI] at hlA hlM hlN
    have ha₁ : (Codegen.operandsFor a i.operandVals).2 = a₁ := hlA.symm
    rw [ha₁] at he₁x hnd₁x hb₁x hc₁x hm₁x
    have he₁ : a₁.vars = a.vars ++ suf₁ := he₁x
    have hnd₁ : a₁.vars.Nodup := hnd₁x
    have hb₁ : ∀ k ∈ operandOffsets (Codegen.operandsFor a i.operandVals).1,
        ∃ j, j < a₁.vars.length ∧ k = 4 * j := hb₁x
    have hc₁ : ∀ j, a.vars.length ≤ j → j < a₁.vars.length →
        (4 * j) ∈ operandOffsets (Codegen.operandsFor a i.operandVals).1 := hc₁x
    have hm₁ : ∀ u, u ∈ a₁.vars ↔
        u ∈ a.vars ∨ u ∈ i.operandVals.filterMap varOfVal := hm₁x
    have hlM' : ∀ k, k ∈ stackOffsets new ↔
        k ∈ operandOffsets (Codegen.operandsFor a i.operandVals).1 := hlM
    have hlN' : ∀ ins ∈ new, isAllocateStack ins = false := hlN
    have hb₁' : ∀ k ∈ stackOffsets new, ∃ j, j < a₁.vars.length ∧ k = 4 * j :=
      fun k hk => hb₁ k ((hlM' k).mp hk)
    have hc₁' : ∀ j, a.vars.length ≤ j → j < a₁.vars.length →
        (4 * j) ∈ stackOffsets new :=
      fun j h1 h2 => (hlM' (4 * j)).mpr (hc₁ j h1 h2)
    obtain ⟨suf₂, he₂x, hnd₂x, hb₂x, hc₂x, hm₂x, hA₂x⟩ := ih a₁ hnd₁
    rcases hG : Codegen.toAssemblyGo a₁ rest with ⟨tail, a₂⟩
    rw [hG] at he₂x hnd₂x hb₂x hc₂x hm₂x hA₂x
    have he₂ : a₂.vars = a₁.vars ++ suf₂ := he₂x
    have hnd₂ : a₂.vars.Nodup := hnd₂x
    have hb₂ : ∀ k ∈ stackOffsets tail,
        ∃ j, j < a₂.vars.length ∧ k = 4 * j := hb₂x
    have hc₂ : ∀ j, a₁.vars.length ≤ j → j < a₂.vars.length →
        (4 * j) ∈ stackOffsets tail := hc₂x
    have hm₂ : ∀ u, u ∈ a₂.vars ↔ u ∈ a₁.vars ∨ u ∈ tackyVars rest := hm₂x
    have hA₂ : ∀ ins ∈ tail, isAllocateStack ins = false := hA₂x
    have hred : Codegen.toAssemblyGo a (i :: rest) = (new ++ tail, a₂) := by
      simp [Codegen.toAssemblyGo, hI, hG]
    rw [hred]
    have hlen₁ : a.vars.length ≤ a₁.vars.length := by
      rw [he₁]; simp
    have hlen₂ : a₁.vars.length ≤ a₂.vars.length := by
      rw [he₂]; simp
    refine ⟨suf₁ ++ suf₂, ?_, hnd₂, ?_, ?_, ?_, ?_⟩
    · show a₂.vars = a.vars ++ (suf₁ ++ suf₂)
      rw [he₂, he₁, List.append_assoc]
    · show ∀ k ∈ stackOffsets (new ++ tail), ∃ j, j < a₂.vars.length ∧ k = 4 * j
      intro k hk
      rw [stackOffsets_append, List.mem_append] at hk
      rcases hk with hk | hk
      · obtain ⟨j, hj, hkj⟩ := hb₁' k hk
        exact ⟨j, lt_of_lt_of_le hj hlen₂, hkj⟩
      · exact hb₂ k hk
    · show ∀ j, a.vars.length ≤ j → j < a₂.vars.length →
        (4 * j) ∈ stackOffsets (new ++ tail)
      intro j h1 h2
      rw [stackOffsets_append, List.mem_append]
      by_cases hj₁ : j < a₁.vars.length
      · exact Or.inl (hc₁' j h1 hj₁)
      · exact Or.inr (hc₂ j (by omega) h2)
    · show ∀ u, u ∈ a₂.vars ↔ u ∈ a.vars ∨ u ∈ tackyVars (i :: rest)
      intro u
      rw [hm₂ u, hm₁ u]
      simp only [tackyVars, List.mem_append]
      tauto
    · show ∀ ins ∈ new ++ tail, isAllocateStack ins = false
      intro ins hins
      rw [List.mem_append] at hins
      rcases hins with hins | hins
      · exact hlN' ins hins
      · exact hA₂ ins hins

theorem toAssemblyGo_vars (instrs : List Tacky.Instruction) :
    ∀ a : Codegen.StackAllocator,
      (Codegen.toAssemblyGo a instrs).2.vars = firstOccAux a.vars (tackyVars instrs) := by
  induction instrs with
  | nil => intro a; simp [Codegen.toAssemblyGo, tackyVars, firstOccAux]
  | cons i rest ih =>
    intro a
    obtain ⟨hlA, hlM, hlN⟩ := toAssemblyInstr_link a i
    rcases hI : Codegen.toAssemblyInstr a i with ⟨new, a₁⟩
    rw [hI] at hlA
    have ha₁ : a₁ = (Codegen.operandsFor a i.operandVals).2 := hlA
    rcases hG : Codegen.toAssemblyGo a₁ rest with ⟨tail, a₂⟩
    have hred : (Codegen.toAssemblyGo a (i :: rest)).2 = a₂ := by
      simp [Codegen.toAssemblyGo, hI, hG]
    rw [hred]
    have h2 := ih a₁
    rw [hG] at h2
    have h2' : a₂.vars = firstOccAux a₁.vars (tackyVars rest) := h2
    have hv : a₁.vars = firstOccAux a.vars (i.operandVals.filterMap varOfVal) := by
      rw [ha₁]
      exact operandsFor_vars i.operandVals a
    rw [h2', hv]
    simp only [tackyVars]
    rw [firstOccAux_append]

/-- **C7.** For every TAC function, `to_assembly`'s stack allocator records
the distinct TAC variables in order of first occurrence and assigns the
`k`-th of them byte offset `4 * k`: the final allocator's variable list is
exactly the first-occurrence list of the variables in operand positions, it
has no duplicates, and the set of `Stack` offsets in the generated assembly
function is exactly `{4 * i | i < n}` where `n` is the number of distinct
TAC variables; when `n > 0` the function starts with `AllocateStack (4 * n)`
and when `n = 0` no `AllocateStack` instruction is emitted. -/
theorem codegen_stack_slots (f : Tacky.FunctionDefinition) :
    (Codegen.toAssemblyGo ⟨[]⟩ f.instructions).2.vars =
      firstOcc (tackyVars f.instructions) ∧
    (firstOcc (tackyVars f.instructions)).Nodup ∧
    (∀ u, u ∈ firstOcc (tackyVars f.instructions) ↔ u ∈ tackyVars f.instructions) ∧
    (∀ k, k ∈ stackOffsets (Codegen.toAssembly f).instructions ↔
      ∃ i, i < (firstOcc (tackyVars f.instructions)).length ∧ k = 4 * i) ∧
    (0 < (firstOcc (tackyVars f.instructions)).length →
      (Codegen.toAssembly f).instructions.head? =
        some (Asm.Instruction.allocateStack
          (4 * (firstOcc (tackyVars f.instructions)).length))) ∧
    ((firstOcc (tackyVars f.instructions)).length = 0 →
      ∀ ins ∈ (Codegen.toAssembly f).instructions, isAllocateStack ins = false) := by
  obtain ⟨suf, heX, hndX, hbX, hcX, hmX, haX⟩ :=
    toAssemblyGo_spec f.instructions ⟨[]⟩ (by simp)
  have hvX := toAssemblyGo_vars f.instructions ⟨[]⟩
  rcases hG : Codegen.toAssemblyGo ⟨[]⟩ f.instructions with ⟨instrs, alloc⟩
  rw [hG] at heX hndX hbX hcX hmX haX hvX
  have hvars : alloc.vars = firstOcc (tackyVars f.instructions) := hvX
  have hnd : alloc.vars.Nodup := hndX
  have hb : ∀ k ∈ stackOffsets instrs, ∃ j, j < alloc.vars.length ∧ k = 4 * j := hbX
  have hc : ∀ j, j < alloc.vars.length → (4 * j) ∈ stackOffsets instrs :=
    fun j hj => hcX j (Nat.zero_le j) hj
  have hm : ∀ u, u ∈ alloc.vars ↔ u ∈ tackyVars f.instructions := by
    intro u
    have h0 : u ∈ alloc.vars ↔
        u ∈ ([] : List Tacky.Variable) ∨ u ∈ tackyVars f.instructions := hmX u
    simpa using h0
  have hA : ∀ ins ∈ instrs, isAllocateStack ins = false := haX
  have hlen : alloc.vars.length = (firstOcc (tackyVars f.instructions)).length := by
    rw [hvars]
  have hasm : Codegen.toAssembly f = ⟨f.name,
      if alloc.vars.length * 4 > 0 then
        Asm.Instruction.allocateStack (alloc.vars.length * 4) :: instrs
      else instrs⟩ := by
    simp [Codegen.toAssembly, hG]
  refine ⟨?_, ?_, ?_, ?_, ?_, ?_⟩
  · exact hvars
  · rw [← hvars]
    exact hnd
  · intro u
    rw [← hvars]
    exact hm u
  · intro k
    rw [hasm]
    show k ∈ stackOffsets (if alloc.vars.length * 4 > 0 then
        Asm.Instruction.allocateStack (alloc.vars.length * 4) :: instrs else instrs) ↔
      ∃ i, i < (firstOcc (tackyVars f.instructions)).length ∧ k = 4 * i
    have hoffs : stackOffsets (if alloc.vars.length * 4 > 0 then
        Asm.Instruction.allocateStack (alloc.vars.length * 4) :: instrs else instrs) =
        stackOffsets instrs := by
      by_cases h0 : alloc.vars.length * 4 > 0
      · rw [if_pos h0]
        simp [stackOffsets, instrStackOffsets, asmOperands]
      · rw [if_neg h0]
    rw [hoffs]
    constructor
    · intro hk
      obtain ⟨j, hj, hkj⟩ := hb k hk
      exact ⟨j, by omega, hkj⟩
    · rintro ⟨j, hj, rfl⟩
      exact hc j (by omega)
  · intro hpos
    rw [hasm]
    show List.head? (if alloc.vars.length * 4 > 0 then
        Asm.Instruction.allocateStack (alloc.vars.length * 4) :: instrs else instrs) =
      some (Asm.Instruction.allocateStack
        (4 * (firstOcc (tackyVars f.instructions)).length))
    rw [if_pos (by omega)]
    simp only [List.head?_cons, Option.some.injEq]
    rw [hlen, Nat.mul_comm]
  · intro h0 ins hins
    rw [hasm] at hins
    have hins' : ins ∈ (if alloc.vars.length * 4 > 0 then
        Asm.Instruction.allocateStack (alloc.vars.length * 4) :: instrs else instrs) := hins
    rw [if_neg (by omega)] at hins'
    exact hA ins hins'

theorem codegen_stack_slots_witness :
    0 < (firstOcc (tackyVars [Tacky.Instruction.copy (Tacky.Val.constant 1)
          (Tacky.Val.var (Tacky.Variable.anonymous 0)),
        Tacky.Instruction.ret (Tacky.Val.var (Tacky.Variable.anonymous 0))])).length ∧
    (Codegen.toAssembly ⟨"main",
        [Tacky.Instruction.copy (Tacky.Val.constant 1)
          (Tacky.Val.var (Tacky.Variable.anonymous 0)),
        Tacky.Instruction.ret
          (Tacky.Val.var (Tacky.Variable.anonymous 0))]⟩).instructions.head? =
      some (Asm.Instruction.allocateStack 4) := by
  refine ⟨by decide, ?_⟩
  have h := (codegen_stack_slots ⟨"main",
      [Tacky.Instruction.copy (Tacky.Val.constant 1)
        (Tacky.Val.var (Tacky.Variable.anonymous 0)),
      Tacky.Instruction.ret
        (Tacky.Val.var (Tacky.Variable.anonymous 0))]⟩).2.2.2.2.1 (by decide)
  simpa using h

theorem notTouched_mono {w : Tacky.Variable} {n n' m m' : Nat}
    (h1 : n ≤ m) (h2 : m' ≤ n') : notTouched w n n' → notTouched w m m' := by
  cases w <;> simp [notTouched] <;> omega

theorem notTouched_ne_anon {w : Tacky.Variable} {n n' j : Nat}
    (hw : notTouched w n n') (h1 : n ≤ j) (h2 : j < n') :
    w ≠ Tacky.Variable.anonymous j := by
  cases w with
  | named s => simp
  | anonymous i =>
    simp only [notTouched] at hw
    intro hc
    injection hc with hc'
    omega

theorem setVar_ne {env : Sem.Env} {d w : Tacky.Variable} {x : Int}
    (h : w ≠ d) : Sem.setVar env d x w = env w := by
  simp [Sem.setVar, h]

theorem setVar_same (env : Sem.Env) (d : Tacky.Variable) (x : Int) :
    Sem.setVar env d x d = x := by
  simp [Sem.setVar]

theorem evalVal_of_agree {env env' : Sem.Env} {val : Tacky.Val} {n n' m m' : Nat}
    (hok : okVal val n n') (hle : n' ≤ m)
    (hag : ∀ w, notTouched w m m' → env' w = env w) :
    Sem.evalVal env' val = Sem.evalVal env val := by
  rcases hok with ⟨c, rfl⟩ | ⟨j, rfl, hj1, hj2⟩
  · rfl
  · exact hag _ (Or.inl (by omega))

theorem run_cc_tail (fL eL : String) (hne : fL ≠ eL) (rv : Tacky.Val)
    (rb res : Tacky.Variable) (k : List Tacky.Instruction) (env : Sem.Env) (c : Int) :
    Sem.runInstrs
      (Tacky.Instruction.comparison .notEqual (Tacky.Val.constant 0) rv (Tacky.Val.var rb)
        :: Tacky.Instruction.copy (Tacky.Val.var rb) (Tacky.Val.var res)
        :: Tacky.Instruction.jump eL
        :: Tacky.Instruction.label fL
        :: Tacky.Instruction.copy (Tacky.Val.constant c) (Tacky.Val.var res)
        :: Tacky.Instruction.label eL :: k) env =
      Sem.runInstrs k
        (Sem.setVar
          (Sem.setVar env rb (Sem.applyComparison .notEqual 0 (Sem.evalVal env rv)))
          res (Sem.applyComparison .notEqual 0 (Sem.evalVal env rv))) := by
  simp [Sem.runInstrs, Sem.skipTo, Sem.evalVal, Sem.setVar, hne]

theorem skipTo_cc_tail (fL eL : String) (rv : Tacky.Val)
    (rb res : Tacky.Variable) (k : List Tacky.Instruction) (env : Sem.Env) (c : Int) :
    Sem.skipTo fL
      (Tacky.Instruction.comparison .notEqual (Tacky.Val.constant 0) rv (Tacky.Val.var rb)
        :: Tacky.Instruction.copy (Tacky.Val.var rb) (Tacky.Val.var res)
        :: Tacky.Instruction.jump eL
        :: Tacky.Instruction.label fL
        :: Tacky.Instruction.copy (Tacky.Val.constant c) (Tacky.Val.var res)
        :: Tacky.Instruction.label eL :: k) env =
      Sem.runInstrs k (Sem.setVar env res c) := by
  simp [Sem.runInstrs, Sem.skipTo, Sem.evalVal, Sem.setVar]

theorem simSpec_chain {l r : Ast.Expr} {a b : Int}
    (hl : SimSpec l a) (hr : SimSpec r b) (ctx : Lowering.FunctionContext) :
    ∃ (newL : List Tacky.Instruction) (lv : Tacky.Val) (nL : Nat)
      (newR : List Tacky.Instruction) (rv : Tacky.Val) (nR : Nat),
      Lowering.lowerExpr l ctx =
        .ok (some lv, ⟨ctx.instructions ++ newL, nL, ctx.diags⟩) ∧
      Lowering.lowerExpr r ⟨ctx.instructions ++ newL, nL, ctx.diags⟩ =
        .ok (some rv, ⟨(ctx.instructions ++ newL) ++ newR, nR, ctx.diags⟩) ∧
      ctx.next_anonymous ≤ nL ∧ nL ≤ nR ∧
      okVal lv ctx.next_anonymous nL ∧ okVal rv nL nR ∧
      (∀ t ∈ labelNames (newL ++ newR),
        ∃ i, ctx.next_anonymous ≤ i ∧ i < nR ∧ t = Lowering.mkLabel i) ∧
      (∀ (env : Sem.Env) (k : List Tacky.Instruction),
        ∃ env', Sem.runInstrs ((newL ++ newR) ++ k) env = Sem.runInstrs k env' ∧
          Sem.evalVal env' lv = a ∧ Sem.evalVal env' rv = b ∧
          ∀ w, notTouched w ctx.next_anonymous nR → env' w = env w) := by
  obtain ⟨newL, lv, nL, hLeq, hLle, hLok, hLlab, hLrun⟩ := hl ctx
  obtain ⟨newR, rv, nR, hReqx, hRlex, hRokx, hRlabx, hRrunx⟩ :=
    hr ⟨ctx.instructions ++ newL, nL, ctx.diags⟩
  have hReq : Lowering.lowerExpr r ⟨ctx.instructions ++ newL, nL, ctx.diags⟩ =
      .ok (some rv, ⟨(ctx.instructions ++ newL) ++ newR, nR, ctx.diags⟩) := hReqx
  have hRle : nL ≤ nR := hRlex
  have hRok : okVal rv nL nR := hRokx
  have hRlab : ∀ t ∈ labelNames newR,
      ∃ i, nL ≤ i ∧ i < nR ∧ t = Lowering.mkLabel i := hRlabx
  have hRrun : ∀ (env : Sem.Env) (k : List Tacky.Instruction),
      ∃ env', Sem.runInstrs (newR ++ k) env = Sem.runInstrs k env' ∧
        Sem.evalVal env' rv = b ∧
        ∀ w, notTouched w nL nR → env' w = env w := hRrunx
  refine ⟨newL, lv, nL, newR, rv, nR, hLeq, hReq, hLle, hRle, hLok, hRok, ?_, ?_⟩
  · intro t ht
    rw [labelNames_append, List.mem_append] at ht
    rcases ht with ht | ht
    · obtain ⟨i, hi1, hi2, hi3⟩ := hLlab t ht
      exact ⟨i, hi1, by omega, hi3⟩
    · obtain ⟨i, hi1, hi2, hi3⟩ := hRlab t ht
      exact ⟨i, by omega, hi2, hi3⟩
  · intro env k
    obtain ⟨envL, hL1, hL2, hL3⟩ := hLrun env (newR ++ k)
    obtain ⟨envR, hR1, hR2, hR3⟩ := hRrun envL k
    refine ⟨envR, ?_, ?_, hR2, ?_⟩
    · rw [List.append_assoc, hL1, hR1]
    · rw [evalVal_of_agree hLok (le_refl nL) hR3]
      exact hL2
    · intro w hw
      rw [hR3 w (notTouched_mono hLle (le_refl nR) hw),
        hL3 w (notTouched_mono (le_refl _) hRle hw)]

theorem simSpec_binary_step {bop : Ast.BinaryOp} {l r : Ast.Expr} {a b v : Int}
    (hl : SimSpec l a) (hr : SimSpec r b) (tacop : Tacky.BinaryOperator)
    (heq : ∀ (ctx ctx₁ ctx₂ : Lowering.FunctionContext) (lv rv : Tacky.Val),
      Lowering.lowerExpr l ctx = .ok (some lv, ctx₁) →
      Lowering.lowerExpr r ctx₁ = .ok (some rv, ctx₂) →
      Lowering.lowerExpr (Ast.Expr.binary bop l r) ctx =
        .ok (Lowering.lowerBinaryOperator lv rv tacop ctx₂))
    (hv : Sem.applyBinary tacop a b = v)
    (hfault : (tacop = Tacky.BinaryOperator.div ∨ tacop = Tacky.BinaryOperator.mod) →
      Sem.divFault a b = false) :
    SimSpec (Ast.Expr.binary bop l r) v := by
  intro ctx
  obtain ⟨newL, lv, nL, newR, rv, nR, h1, h2, hle1, hle2, hokL, hokR, hlab, hrun⟩ :=
    simSpec_chain hl hr ctx
  refine ⟨(newL ++ newR) ++ [Tacky.Instruction.binary tacop lv rv
      (Tacky.Val.var (Tacky.Variable.anonymous nR))],
    Tacky.Val.var (Tacky.Variable.anonymous nR), nR + 1, ?_, by omega, ?_, ?_, ?_⟩
  · rw [heq ctx _ _ lv rv h1 h2]
    simp [Lowering.lowerBinaryOperator, Lowering.temporary, Lowering.push]
  · exact Or.inr ⟨nR, rfl, by omega, by omega⟩
  · intro t ht
    rw [labelNames_append, List.mem_append] at ht
    rcases ht with ht | ht
    · obtain ⟨i, hi1, hi2, hi3⟩ := hlab t ht
      exact ⟨i, hi1, by omega, hi3⟩
    · cases ht
  · intro env k
    obtain ⟨env', hr1, hr2, hr3, hr4⟩ := hrun env
      (Tacky.Instruction.binary tacop lv rv
        (Tacky.Val.var (Tacky.Variable.anonymous nR)) :: k)
    have hassoc : ((newL ++ newR) ++ [Tacky.Instruction.binary tacop lv rv
        (Tacky.Val.var (Tacky.Variable.anonymous nR))]) ++ k =
        (newL ++ newR) ++ (Tacky.Instruction.binary tacop lv rv
          (Tacky.Val.var (Tacky.Variable.anonymous nR)) :: k) := by simp
    rw [hassoc, hr1]
    have hnf : ¬((tacop = Tacky.BinaryOperator.div ∨ tacop = Tacky.BinaryOperator.mod) ∧
        Sem.divFault (Sem.evalVal env' lv) (Sem.evalVal env' rv) = true) := by
      rintro ⟨ho, hf⟩
      rw [hr2, hr3] at hf
      rw [hfault ho] at hf
      cases hf
    refine ⟨Sem.setVar env' (Tacky.Variable.anonymous nR)
      (Sem.applyBinary tacop (Sem.evalVal env' lv) (Sem.evalVal env' rv)), ?_, ?_, ?_⟩
    · simp only [Sem.runInstrs]
      rw [if_neg hnf]
    · rw [hr2, hr3]
      simp [Sem.evalVal, Sem.setVar, hv]
    · intro w hw
      rw [setVar_ne (notTouched_ne_anon hw (by omega) (by omega))]
      exact hr4 w (notTouched_mono (le_refl _) (by omega) hw)

theorem simSpec_comparison_step {bop : Ast.BinaryOp} {l r : Ast.Expr} {a b v : Int}
    (hl : SimSpec l a) (hr : SimSpec r b) (tacop : Tacky.ComparisonOperator)
    (heq : ∀ (ctx ctx₁ ctx₂ : Lowering.FunctionContext) (lv rv : Tacky.Val),
      Lowering.lowerExpr l ctx = .ok (some lv, ctx₁) →
      Lowering.lowerExpr r ctx₁ = .ok (some rv, ctx₂) →
      Lowering.lowerExpr (Ast.Expr.binary bop l r) ctx =
        .ok (Lowering.lowerComparison lv rv tacop ctx₂))
    (hv : Sem.applyComparison tacop a b = v) :
    SimSpec (Ast.Expr.binary bop l r) v := by
  intro ctx
  obtain ⟨newL, lv, nL, newR, rv, nR, h1, h2, hle1, hle2, hokL, hokR, hlab, hrun⟩ :=
    simSpec_chain hl hr ctx
  refine ⟨(newL ++ newR) ++ [Tacky.Instruction.comparison tacop lv rv
      (Tacky.Val.var (Tacky.Variable.anonymous nR))],
    Tacky.Val.var (Tacky.Variable.anonymous nR), nR + 1, ?_, by omega, ?_, ?_, ?_⟩
  · rw [heq ctx _ _ lv rv h1 h2]
    simp [Lowering.lowerComparison, Lowering.temporary, Lowering.push]
  · exact Or.inr ⟨nR, rfl, by omega, by omega⟩
  · intro t ht
    rw [labelNames_append, List.mem_append] at ht
    rcases ht with ht | ht
    · obtain ⟨i, hi1, hi2, hi3⟩ := hlab t ht
      exact ⟨i, hi1, by omega, hi3⟩
    · cases ht
  · intro env k
    obtain ⟨env', hr1, hr2, hr3, hr4⟩ := hrun env
      (Tacky.Instruction.comparison tacop lv rv
        (Tacky.Val.var (Tacky.Variable.anonymous nR)) :: k)
    have hassoc : ((newL ++ newR) ++ [Tacky.Instruction.comparison tacop lv rv
        (Tacky.Val.var (Tacky.Variable.anonymous nR))]) ++ k =
        (newL ++ newR) ++ (Tacky.Instruction.comparison tacop lv rv
          (Tacky.Val.var (Tacky.Variable.anonymous nR)) :: k) := by simp
    rw [hassoc, hr1]
    refine ⟨Sem.setVar env' (Tacky.Variable.anonymous nR)
      (Sem.applyComparison tacop (Sem.evalVal env' lv) (Sem.evalVal env' rv)), rfl, ?_, ?_⟩
    · rw [hr2, hr3]
      simp [Sem.evalVal, Sem.setVar, hv]
    · intro w hw
      rw [setVar_ne (notTouched_ne_anon hw (by omega) (by omega))]
      exact hr4 w (notTouched_mono (le_refl _) (by omega) hw)

theorem simSpec_andand {l r : Ast.Expr} {a b : Int}
    (hl : SimSpec l a) (hr : SimSpec r b) (ctx : Lowering.FunctionContext) :
    ∃ (newL newR : List Tacky.Instruction) (lv rv : Tacky.Val) (nSplit nR : Nat),
      Lowering.lowerExpr l ctx =
        .ok (some lv, ⟨ctx.instructions ++ newL, nSplit, ctx.diags⟩) ∧
      Lowering.lowerExpr r ⟨(ctx.instructions ++ newL) ++
          [Tacky.Instruction.jumpIfZero lv (Lowering.mkLabel nSplit)],
          nSplit + 1 + 1 + 1, ctx.diags⟩ =
        .ok (some rv, ⟨((ctx.instructions ++ newL) ++
          [Tacky.Instruction.jumpIfZero lv (Lowering.mkLabel nSplit)]) ++ newR,
          nR, ctx.diags⟩) ∧
      Lowering.lowerExpr (Ast.Expr.binary Ast.BinaryOp.andand l r) ctx =
        .ok (some (Tacky.Val.var (Tacky.Variable.anonymous (nSplit + 1 + 1))),
          ⟨ctx.instructions ++ (newL ++
            (Tacky.Instruction.jumpIfZero lv (Lowering.mkLabel nSplit) :: (newR ++
      [Tacky.Instruction.comparison .notEqual (Tacky.Val.constant 0) rv
        (Tacky.Val.var (Tacky.Variable.anonymous nR)),
       Tacky.Instruction.copy (Tacky.Val.var (Tacky.Variable.anonymous nR))
        (Tacky.Val.var (Tacky.Variable.anonymous (nSplit + 1 + 1))),
       Tacky.Instruction.jump (Lowering.mkLabel (nSplit + 1)),
       Tacky.Instruction.label (Lowering.mkLabel nSplit),
       Tacky.Instruction.copy (Tacky.Val.constant 0)
        (Tacky.Val.var (Tacky.Variable.anonymous (nSplit + 1 + 1))),
       Tacky.Instruction.label (Lowering.mkLabel (nSplit + 1))]))), nR + 1, ctx.diags⟩) ∧
      ctx.next_anonymous ≤ nSplit ∧
      nSplit + 1 + 1 + 1 ≤ nR ∧
      StructOK (nSplit + 1 + 1 + 1) nR newR ∧
      (∀ t ∈ labelNames (newL ++
          (Tacky.Instruction.jumpIfZero lv (Lowering.mkLabel nSplit) :: (newR ++
      [Tacky.Instruction.comparison .notEqual (Tacky.Val.constant 0) rv
        (Tacky.Val.var (Tacky.Variable.anonymous nR)),
       Tacky.Instruction.copy (Tacky.Val.var (Tacky.Variable.anonymous nR))
        (Tacky.Val.var (Tacky.Variable.anonymous (nSplit + 1 + 1))),
       Tacky.Instruction.jump (Lowering.mkLabel (nSplit + 1)),
       Tacky.Instruction.label (Lowering.mkLabel nSplit),
       Tacky.Instruction.copy (Tacky.Val.constant 0)
        (Tacky.Val.var (Tacky.Variable.anonymous (nSplit + 1 + 1))),
       Tacky.Instruction.label (Lowering.mkLabel (nSplit + 1))]))),
        ∃ i, ctx.next_anonymous ≤ i ∧ i < nR + 1 ∧ t = Lowering.mkLabel i) ∧
      (∀ (env : Sem.Env) (k : List Tacky.Instruction),
        ∃ env', Sem.runInstrs ((newL ++
            (Tacky.Instruction.jumpIfZero lv (Lowering.mkLabel nSplit) :: (newR ++
      [Tacky.Instruction.comparison .notEqual (Tacky.Val.constant 0) rv
        (Tacky.Val.var (Tacky.Variable.anonymous nR)),
       Tacky.Instruction.copy (Tacky.Val.var (Tacky.Variable.anonymous nR))
        (Tacky.Val.var (Tacky.Variable.anonymous (nSplit + 1 + 1))),
       Tacky.Instruction.jump (Lowering.mkLabel (nSplit + 1)),
       Tacky.Instruction.label (Lowering.mkLabel nSplit),
       Tacky.Instruction.copy (Tacky.Val.constant 0)
        (Tacky.Val.var (Tacky.Variable.anonymous (nSplit + 1 + 1))),
       Tacky.Instruction.label (Lowering.mkLabel (nSplit + 1))]))) ++ k) env = Sem.runInstrs k env' ∧
          env' (Tacky.Variable.anonymous (nSplit + 1 + 1)) =
            (if a ≠ 0 ∧ b ≠ 0 then 1 else 0) ∧
          (∀ w, notTouched w ctx.next_anonymous (nR + 1) → env' w = env w) ∧
          (a = 0 → ∀ j, nSplit + 1 + 1 + 1 ≤ j →
            env' (Tacky.Variable.anonymous j) = env (Tacky.Variable.anonymous j))) := by
  obtain ⟨newL, lv, nL, hLeq, hLle, hLok, hLlab, hLrun⟩ := hl ctx
  obtain ⟨newR, rv, nR, hReqx, hRlex, hRokx, hRlabx, hRrunx⟩ :=
    hr ⟨(ctx.instructions ++ newL) ++
      [Tacky.Instruction.jumpIfZero lv (Lowering.mkLabel nL)], nL + 1 + 1 + 1, ctx.diags⟩
  have hReq : Lowering.lowerExpr r ⟨(ctx.instructions ++ newL) ++
      [Tacky.Instruction.jumpIfZero lv (Lowering.mkLabel nL)], nL + 1 + 1 + 1, ctx.diags⟩ =
      .ok (some rv, ⟨((ctx.instructions ++ newL) ++
        [Tacky.Instruction.jumpIfZero lv (Lowering.mkLabel nL)]) ++ newR,
        nR, ctx.diags⟩) := hReqx
  have hRle : nL + 1 + 1 + 1 ≤ nR := hRlex
  have hRok : okVal rv (nL + 1 + 1 + 1) nR := hRokx
  have hRlab : ∀ t ∈ labelNames newR,
      ∃ i, nL + 1 + 1 + 1 ≤ i ∧ i < nR ∧ t = Lowering.mkLabel i := hRlabx
  have hRrun : ∀ (env : Sem.Env) (k : List Tacky.Instruction),
      ∃ env', Sem.runInstrs (newR ++ k) env = Sem.runInstrs k env' ∧
        Sem.evalVal env' rv = b ∧
        ∀ w, notTouched w (nL + 1 + 1 + 1) nR → env' w = env w := hRrunx
  have hne : Lowering.mkLabel nL ≠ Lowering.mkLabel (nL + 1) := by
    intro hc
    have := mkLabel_injective hc
    omega
  obtain ⟨nw, dsw, hIw, hDw, hSw, hTw⟩ := lowerExpr_struct r _ _ _ hReqx
  have hIw' : ((ctx.instructions ++ newL) ++
      [Tacky.Instruction.jumpIfZero lv (Lowering.mkLabel nL)]) ++ newR =
      ((ctx.instructions ++ newL) ++
      [Tacky.Instruction.jumpIfZero lv (Lowering.mkLabel nL)]) ++ nw := hIw
  have hnw : newR = nw := List.append_cancel_left hIw'
  have hSOK : StructOK (nL + 1 + 1 + 1) nR newR := by
    have hSw' : StructOK (nL + 1 + 1 + 1) nR nw := hSw
    rw [← hnw] at hSw'
    exact hSw'
  refine ⟨newL, newR, lv, rv, nL, nR, hLeq, hReq, ?_, hLle, hRle, hSOK, ?_, ?_⟩
  · simp only [Lowering.lowerExpr, hLeq, Lowering.label, Lowering.temporary, Lowering.push,
      hReq]
    simp
  · intro t ht
    have hsplit : labelNames (newL ++ (Tacky.Instruction.jumpIfZero lv
        (Lowering.mkLabel nL) :: (newR ++
        [Tacky.Instruction.comparison .notEqual (Tacky.Val.constant 0) rv
          (Tacky.Val.var (Tacky.Variable.anonymous nR)),
         Tacky.Instruction.copy (Tacky.Val.var (Tacky.Variable.anonymous nR))
          (Tacky.Val.var (Tacky.Variable.anonymous (nL + 1 + 1))),
         Tacky.Instruction.jump (Lowering.mkLabel (nL + 1)),
         Tacky.Instruction.label (Lowering.mkLabel nL),
         Tacky.Instruction.copy (Tacky.Val.constant 0)
          (Tacky.Val.var (Tacky.Variable.anonymous (nL + 1 + 1))),
         Tacky.Instruction.label (Lowering.mkLabel (nL + 1))]))) =
        labelNames newL ++ (labelNames newR ++
          [Lowering.mkLabel nL, Lowering.mkLabel (nL + 1)]) := by
      simp [labelNames, List.filterMap_append]
    rw [hsplit, List.mem_append, List.mem_append] at ht
    rcases ht with ht | ht | ht
    · obtain ⟨i, hi1, hi2, hi3⟩ := hLlab t ht
      exact ⟨i, hi1, by omega, hi3⟩
    · obtain ⟨i, hi1, hi2, hi3⟩ := hRlab t ht
      exact ⟨i, by omega, by omega, hi3⟩
    · simp only [List.mem_cons] at ht
      rcases ht with ht | ht | ht
      · exact ⟨nL, by omega, by omega, ht⟩
      · exact ⟨nL + 1, by omega, by omega, ht⟩
      · cases ht
  · intro env k
    obtain ⟨envL, hL1, hL2, hL3⟩ := hLrun env
      (Tacky.Instruction.jumpIfZero lv (Lowering.mkLabel nL) :: (newR ++
        [Tacky.Instruction.comparison .notEqual (Tacky.Val.constant 0) rv
          (Tacky.Val.var (Tacky.Variable.anonymous nR)),
         Tacky.Instruction.copy (Tacky.Val.var (Tacky.Variable.anonymous nR))
          (Tacky.Val.var (Tacky.Variable.anonymous (nL + 1 + 1))),
         Tacky.Instruction.jump (Lowering.mkLabel (nL + 1)),
         Tacky.Instruction.label (Lowering.mkLabel nL),
         Tacky.Instruction.copy (Tacky.Val.constant 0)
          (Tacky.Val.var (Tacky.Variable.anonymous (nL + 1 + 1))),
         Tacky.Instruction.label (Lowering.mkLabel (nL + 1))] ++ k))
    have hfn : Lowering.mkLabel nL ∉ labelNames newR := by
      intro hmem
      obtain ⟨i, hi1, hi2, hi3⟩ := hRlab _ hmem
      have := mkLabel_injective hi3
      omega
    by_cases ha0 : a = 0
    · refine ⟨Sem.setVar envL (Tacky.Variable.anonymous (nL + 1 + 1)) 0, ?_, ?_, ?_, ?_⟩
      · have hsh : (newL ++ (Tacky.Instruction.jumpIfZero lv (Lowering.mkLabel nL) ::
            (newR ++
            [Tacky.Instruction.comparison .notEqual (Tacky.Val.constant 0) rv
              (Tacky.Val.var (Tacky.Variable.anonymous nR)),
             Tacky.Instruction.copy (Tacky.Val.var (Tacky.Variable.anonymous nR))
              (Tacky.Val.var (Tacky.Variable.anonymous (nL + 1 + 1))),
             Tacky.Instruction.jump (Lowering.mkLabel (nL + 1)),
             Tacky.Instruction.label (Lowering.mkLabel nL),
             Tacky.Instruction.copy (Tacky.Val.constant 0)
              (Tacky.Val.var (Tacky.Variable.anonymous (nL + 1 + 1))),
             Tacky.Instruction.label (Lowering.mkLabel (nL + 1))]))) ++ k =
            newL ++ (Tacky.Instruction.jumpIfZero lv (Lowering.mkLabel nL) :: (newR ++
            [Tacky.Instruction.comparison .notEqual (Tacky.Val.constant 0) rv
              (Tacky.Val.var (Tacky.Variable.anonymous nR)),
             Tacky.Instruction.copy (Tacky.Val.var (Tacky.Variable.anonymous nR))
              (Tacky.Val.var (Tacky.Variable.anonymous (nL + 1 + 1))),
             Tacky.Instruction.jump (Lowering.mkLabel (nL + 1)),
             Tacky.Instruction.label (Lowering.mkLabel nL),
             Tacky.Instruction.copy (Tacky.Val.constant 0)
              (Tacky.Val.var (Tacky.Variable.anonymous (nL + 1 + 1))),
             Tacky.Instruction.label (Lowering.mkLabel (nL + 1))] ++ k)) := by
          simp
        rw [hsh, hL1]
        have hcond : Sem.evalVal envL lv = 0 := by rw [hL2]; exact ha0
        have hjz : Sem.runInstrs (Tacky.Instruction.jumpIfZero lv (Lowering.mkLabel nL) ::
            (newR ++
            [Tacky.Instruction.comparison .notEqual (Tacky.Val.constant 0) rv
              (Tacky.Val.var (Tacky.Variable.anonymous nR)),
             Tacky.Instruction.copy (Tacky.Val.var (Tacky.Variable.anonymous nR))
              (Tacky.Val.var (Tacky.Variable.anonymous (nL + 1 + 1))),
             Tacky.Instruction.jump (Lowering.mkLabel (nL + 1)),
             Tacky.Instruction.label (Lowering.mkLabel nL),
             Tacky.Instruction.copy (Tacky.Val.constant 0)
              (Tacky.Val.var (Tacky.Variable.anonymous (nL + 1 + 1))),
             Tacky.Instruction.label (Lowering.mkLabel (nL + 1))] ++ k)) envL =
            Sem.skipTo (Lowering.mkLabel nL) (newR ++
            ([Tacky.Instruction.comparison .notEqual (Tacky.Val.constant 0) rv
              (Tacky.Val.var (Tacky.Variable.anonymous nR)),
             Tacky.Instruction.copy (Tacky.Val.var (Tacky.Variable.anonymous nR))
              (Tacky.Val.var (Tacky.Variable.anonymous (nL + 1 + 1))),
             Tacky.Instruction.jump (Lowering.mkLabel (nL + 1)),
             Tacky.Instruction.label (Lowering.mkLabel nL),
             Tacky.Instruction.copy (Tacky.Val.constant 0)
              (Tacky.Val.var (Tacky.Variable.anonymous (nL + 1 + 1))),
             Tacky.Instruction.label (Lowering.mkLabel (nL + 1))] ++ k)) envL := by
          simp [Sem.runInstrs, hcond]
        rw [hjz, skipTo_append_of_not_mem hfn]
        exact skipTo_cc_tail (Lowering.mkLabel nL) (Lowering.mkLabel (nL + 1)) rv
          (Tacky.Variable.anonymous nR) (Tacky.Variable.anonymous (nL + 1 + 1)) k envL 0
      · simp [Sem.evalVal, Sem.setVar, ha0]
      · intro w hw
        rw [setVar_ne (notTouched_ne_anon hw (by omega) (by omega))]
        exact hL3 w (notTouched_mono (le_refl _) (by omega) hw)
      · intro _ j hj
        rw [setVar_ne (by intro hc; injection hc with hc'; omega)]
        exact hL3 _ (Or.inr (by omega))
    · obtain ⟨envR, hR1, hR2, hR3⟩ := hRrun envL
        ([Tacky.Instruction.comparison .notEqual (Tacky.Val.constant 0) rv
          (Tacky.Val.var (Tacky.Variable.anonymous nR)),
         Tacky.Instruction.copy (Tacky.Val.var (Tacky.Variable.anonymous nR))
          (Tacky.Val.var (Tacky.Variable.anonymous (nL + 1 + 1))),
         Tacky.Instruction.jump (Lowering.mkLabel (nL + 1)),
         Tacky.Instruction.label (Lowering.mkLabel nL),
         Tacky.Instruction.copy (Tacky.Val.constant 0)
          (Tacky.Val.var (Tacky.Variable.anonymous (nL + 1 + 1))),
         Tacky.Instruction.label (Lowering.mkLabel (nL + 1))] ++ k)
      refine ⟨Sem.setVar
          (Sem.setVar envR (Tacky.Variable.anonymous nR)
            (Sem.applyComparison .notEqual 0 (Sem.evalVal envR rv)))
          (Tacky.Variable.anonymous (nL + 1 + 1))
          (Sem.applyComparison .notEqual 0 (Sem.evalVal envR rv)), ?_, ?_, ?_, ?_⟩
      · have hsh : (newL ++ (Tacky.Instruction.jumpIfZero lv (Lowering.mkLabel nL) ::
            (newR ++
            [Tacky.Instruction.comparison .notEqual (Tacky.Val.constant 0) rv
              (Tacky.Val.var (Tacky.Variable.anonymous nR)),
             Tacky.Instruction.copy (Tacky.Val.var (Tacky.Variable.anonymous nR))
              (Tacky.Val.var (Tacky.Variable.anonymous (nL + 1 + 1))),
             Tacky.Instruction.jump (Lowering.mkLabel (nL + 1)),
             Tacky.Instruction.label (Lowering.mkLabel nL),
             Tacky.Instruction.copy (Tacky.Val.constant 0)
              (Tacky.Val.var (Tacky.Variable.anonymous (nL + 1 + 1))),
             Tacky.Instruction.label (Lowering.mkLabel (nL + 1))]))) ++ k =
            newL ++ (Tacky.Instruction.jumpIfZero lv (Lowering.mkLabel nL) :: (newR ++
            [Tacky.Instruction.comparison .notEqual (Tacky.Val.constant 0) rv
              (Tacky.Val.var (Tacky.Variable.anonymous nR)),
             Tacky.Instruction.copy (Tacky.Val.var (Tacky.Variable.anonymous nR))
              (Tacky.Val.var (Tacky.Variable.anonymous (nL + 1 + 1))),
             Tacky.Instruction.jump (Lowering.mkLabel (nL + 1)),
             Tacky.Instruction.label (Lowering.mkLabel nL),
             Tacky.Instruction.copy (Tacky.Val.constant 0)
              (Tacky.Val.var (Tacky.Variable.anonymous (nL + 1 + 1))),
             Tacky.Instruction.label (Lowering.mkLabel (nL + 1))] ++ k)) := by
          simp
        rw [hsh, hL1]
        have hcond : Sem.evalVal envL lv = a := hL2
        have hjz : Sem.runInstrs (Tacky.Instruction.jumpIfZero lv (Lowering.mkLabel nL) ::
            (newR ++
            [Tacky.Instruction.comparison .notEqual (Tacky.Val.constant 0) rv
              (Tacky.Val.var (Tacky.Variable.anonymous nR)),
             Tacky.Instruction.copy (Tacky.Val.var (Tacky.Variable.anonymous nR))
              (Tacky.Val.var (Tacky.Variable.anonymous (nL + 1 + 1))),
             Tacky.Instruction.jump (Lowering.mkLabel (nL + 1)),
             Tacky.Instruction.label (Lowering.mkLabel nL),
             Tacky.Instruction.copy (Tacky.Val.constant 0)
              (Tacky.Val.var (Tacky.Variable.anonymous (nL + 1 + 1))),
             Tacky.Instruction.label (Lowering.mkLabel (nL + 1))] ++ k)) envL =
            Sem.runInstrs (newR ++
            ([Tacky.Instruction.comparison .notEqual (Tacky.Val.constant 0) rv
              (Tacky.Val.var (Tacky.Variable.anonymous nR)),
             Tacky.Instruction.copy (Tacky.Val.var (Tacky.Variable.anonymous nR))
              (Tacky.Val.var (Tacky.Variable.anonymous (nL + 1 + 1))),
             Tacky.Instruction.jump (Lowering.mkLabel (nL + 1)),
             Tacky.Instruction.label (Lowering.mkLabel nL),
             Tacky.Instruction.copy (Tacky.Val.constant 0)
              (Tacky.Val.var (Tacky.Variable.anonymous (nL + 1 + 1))),
             Tacky.Instruction.label (Lowering.mkLabel (nL + 1))] ++ k)) envL := by
          simp [Sem.runInstrs, hcond, ha0]
        rw [hjz, hR1]
        exact run_cc_tail (Lowering.mkLabel nL) (Lowering.mkLabel (nL + 1)) hne rv
          (Tacky.Variable.anonymous nR) (Tacky.Variable.anonymous (nL + 1 + 1)) k envR 0
      · rw [hR2]
        by_cases hb0 : b = 0
        · simp [Sem.evalVal, Sem.setVar, Sem.applyComparison, ha0, hb0]
        · have hb0' : (0 : Int) ≠ b := fun hc => hb0 hc.symm
          simp [Sem.evalVal, Sem.setVar, Sem.applyComparison, ha0, hb0, hb0']
      · intro w hw
        rw [setVar_ne (notTouched_ne_anon hw (by omega) (by omega)),
          setVar_ne (notTouched_ne_anon hw (by omega) (by omega))]
        rw [hR3 w (notTouched_mono (by omega) (by omega) hw)]
        exact hL3 w (notTouched_mono (le_refl _) (by omega) hw)
      · intro haz
        exact absurd haz ha0

theorem simSpec_oror {l r : Ast.Expr} {a b : Int}
    (hl : SimSpec l a) (hr : SimSpec r b) (ctx : Lowering.FunctionContext) :
    ∃ (newL newR : List Tacky.Instruction) (lv rv : Tacky.Val) (nSplit nR : Nat),
      Lowering.lowerExpr l ctx =
        .ok (some lv, ⟨ctx.instructions ++ newL, nSplit, ctx.diags⟩) ∧
      Lowering.lowerExpr r ⟨(ctx.instructions ++ newL) ++
          [Tacky.Instruction.jumpIfNotZero lv (Lowering.mkLabel nSplit)],
          nSplit + 1 + 1 + 1, ctx.diags⟩ =
        .ok (some rv, ⟨((ctx.instructions ++ newL) ++
          [Tacky.Instruction.jumpIfNotZero lv (Lowering.mkLabel nSplit)]) ++ newR,
          nR, ctx.diags⟩) ∧
      Lowering.lowerExpr (Ast.Expr.binary Ast.BinaryOp.oror l r) ctx =
        .ok (some (Tacky.Val.var (Tacky.Variable.anonymous (nSplit + 1 + 1))),
          ⟨ctx.instructions ++ (newL ++
            (Tacky.Instruction.jumpIfNotZero lv (Lowering.mkLabel nSplit) :: (newR ++
      [Tacky.Instruction.comparison .notEqual (Tacky.Val.constant 0) rv
        (Tacky.Val.var (Tacky.Variable.anonymous nR)),
       Tacky.Instruction.copy (Tacky.Val.var (Tacky.Variable.anonymous nR))
        (Tacky.Val.var (Tacky.Variable.anonymous (nSplit + 1 + 1))),
       Tacky.Instruction.jump (Lowering.mkLabel (nSplit + 1)),
       Tacky.Instruction.label (Lowering.mkLabel nSplit),
       Tacky.Instruction.copy (Tacky.Val.constant 1)
        (Tacky.Val.var (Tacky.Variable.anonymous (nSplit + 1 + 1))),
       Tacky.Instruction.label (Lowering.mkLabel (nSplit + 1))]))), nR + 1, ctx.diags⟩) ∧
      ctx.next_anonymous ≤ nSplit ∧
      nSplit + 1 + 1 + 1 ≤ nR ∧
      StructOK (nSplit + 1 + 1 + 1) nR newR ∧
      (∀ t ∈ labelNames (newL ++
          (Tacky.Instruction.jumpIfNotZero lv (Lowering.mkLabel nSplit) :: (newR ++
      [Tacky.Instruction.comparison .notEqual (Tacky.Val.constant 0) rv
        (Tacky.Val.var (Tacky.Variable.anonymous nR)),
       Tacky.Instruction.copy (Tacky.Val.var (Tacky.Variable.anonymous nR))
        (Tacky.Val.var (Tacky.Variable.anonymous (nSplit + 1 + 1))),
       Tacky.Instruction.jump (Lowering.mkLabel (nSplit + 1)),
       Tacky.Instruction.label (Lowering.mkLabel nSplit),
       Tacky.Instruction.copy (Tacky.Val.constant 1)
        (Tacky.Val.var (Tacky.Variable.anonymous (nSplit + 1 + 1))),
       Tacky.Instruction.label (Lowering.mkLabel (nSplit + 1))]))),
        ∃ i, ctx.next_anonymous ≤ i ∧ i < nR + 1 ∧ t = Lowering.mkLabel i) ∧
      (∀ (env : Sem.Env) (k : List Tacky.Instruction),
        ∃ env', Sem.runInstrs ((newL ++
            (Tacky.Instruction.jumpIfNotZero lv (Lowering.mkLabel nSplit) :: (newR ++
      [Tacky.Instruction.comparison .notEqual (Tacky.Val.constant 0) rv
        (Tacky.Val.var (Tacky.Variable.anonymous nR)),
       Tacky.Instruction.copy (Tacky.Val.var (Tacky.Variable.anonymous nR))
        (Tacky.Val.var (Tacky.Variable.anonymous (nSplit + 1 + 1))),
       Tacky.Instruction.jump (Lowering.mkLabel (nSplit + 1)),
       Tacky.Instruction.label (Lowering.mkLabel nSplit),
       Tacky.Instruction.copy (Tacky.Val.constant 1)
        (Tacky.Val.var (Tacky.Variable.anonymous (nSplit + 1 + 1))),
       Tacky.Instruction.label (Lowering.mkLabel (nSplit + 1))]))) ++ k) env = Sem.runInstrs k env' ∧
          env' (Tacky.Variable.anonymous (nSplit + 1 + 1)) =
            (if a ≠ 0 ∨ b ≠ 0 then 1 else 0) ∧
          (∀ w, notTouched w ctx.next_anonymous (nR + 1) → env' w = env w) ∧
          (a ≠ 0 → ∀ j, nSplit + 1 + 1 + 1 ≤ j →
            env' (Tacky.Variable.anonymous j) = env (Tacky.Variable.anonymous j))) := by
  obtain ⟨newL, lv, nL, hLeq, hLle, hLok, hLlab, hLrun⟩ := hl ctx
  obtain ⟨newR, rv, nR, hReqx, hRlex, hRokx, hRlabx, hRrunx⟩ :=
    hr ⟨(ctx.instructions ++ newL) ++
      [Tacky.Instruction.jumpIfNotZero lv (Lowering.mkLabel nL)], nL + 1 + 1 + 1, ctx.diags⟩
  have hReq : Lowering.lowerExpr r ⟨(ctx.instructions ++ newL) ++
      [Tacky.Instruction.jumpIfNotZero lv (Lowering.mkLabel nL)],
      nL + 1 + 1 + 1, ctx.diags⟩ =
      .ok (some rv, ⟨((ctx.instructions ++ newL) ++
        [Tacky.Instruction.jumpIfNotZero lv (Lowering.mkLabel nL)]) ++ newR,
        nR, ctx.diags⟩) := hReqx
  have hRle : nL + 1 + 1 + 1 ≤ nR := hRlex
  have hRlab : ∀ t ∈ labelNames newR,
      ∃ i, nL + 1 + 1 + 1 ≤ i ∧ i < nR ∧ t = Lowering.mkLabel i := hRlabx
  have hRrun : ∀ (env : Sem.Env) (k : List Tacky.Instruction),
      ∃ env', Sem.runInstrs (newR ++ k) env = Sem.runInstrs k env' ∧
        Sem.evalVal env' rv = b ∧
        ∀ w, notTouched w (nL + 1 + 1 + 1) nR → env' w = env w := hRrunx
  have hne : Lowering.mkLabel nL ≠ Lowering.mkLabel (nL + 1) := by
    intro hc
    have := mkLabel_injective hc
    omega
  obtain ⟨nw, dsw, hIw, hDw, hSw, hTw⟩ := lowerExpr_struct r _ _ _ hReqx
  have hIw' : ((ctx.instructions ++ newL) ++
      [Tacky.Instruction.jumpIfNotZero lv (Lowering.mkLabel nL)]) ++ newR =
      ((ctx.instructions ++ newL) ++
      [Tacky.Instruction.jumpIfNotZero lv (Lowering.mkLabel nL)]) ++ nw := hIw
  have hnw : newR = nw := List.append_cancel_left hIw'
  have hSOK : StructOK (nL + 1 + 1 + 1) nR newR := by
    have hSw' : StructOK (nL + 1 + 1 + 1) nR nw := hSw
    rw [← hnw] at hSw'
    exact hSw'
  refine ⟨newL, newR, lv, rv, nL, nR, hLeq, hReq, ?_, hLle, hRle, hSOK, ?_, ?_⟩
  · simp only [Lowering.lowerExpr, hLeq, Lowering.label, Lowering.temporary, Lowering.push,
      hReq]
    simp
  · intro t ht
    have hsplit : labelNames (newL ++ (Tacky.Instruction.jumpIfNotZero lv
        (Lowering.mkLabel nL) :: (newR ++
        [Tacky.Instruction.comparison .notEqual (Tacky.Val.constant 0) rv
          (Tacky.Val.var (Tacky.Variable.anonymous nR)),
         Tacky.Instruction.copy (Tacky.Val.var (Tacky.Variable.anonymous nR))
          (Tacky.Val.var (Tacky.Variable.anonymous (nL + 1 + 1))),
         Tacky.Instruction.jump (Lowering.mkLabel (nL + 1)),
         Tacky.Instruction.label (Lowering.mkLabel nL),
         Tacky.Instruction.copy (Tacky.Val.constant 1)
          (Tacky.Val.var (Tacky.Variable.anonymous (nL + 1 + 1))),
         Tacky.Instruction.label (Lowering.mkLabel (nL + 1))]))) =
        labelNames newL ++ (labelNames newR ++
          [Lowering.mkLabel nL, Lowering.mkLabel (nL + 1)]) := by
      simp [labelNames, List.filterMap_append]
    rw [hsplit, List.mem_append, List.mem_append] at ht
    rcases ht with ht | ht | ht
    · obtain ⟨i, hi1, hi2, hi3⟩ := hLlab t ht
      exact ⟨i, hi1, by omega, hi3⟩
    · obtain ⟨i, hi1, hi2, hi3⟩ := hRlab t ht
      exact ⟨i, by omega, by omega, hi3⟩
    · simp only [List.mem_cons] at ht
      rcases ht with ht | ht | ht
      · exact ⟨nL, by omega, by omega, ht⟩
      · exact ⟨nL + 1, by omega, by omega, ht⟩
      · cases ht
  · intro env k
    obtain ⟨envL, hL1, hL2, hL3⟩ := hLrun env
      (Tacky.Instruction.jumpIfNotZero lv (Lowering.mkLabel nL) :: (newR ++
        [Tacky.Instruction.comparison .notEqual (Tacky.Val.constant 0) rv
          (Tacky.Val.var (Tacky.Variable.anonymous nR)),
         Tacky.Instruction.copy (Tacky.Val.var (Tacky.Variable.anonymous nR))
          (Tacky.Val.var (Tacky.Variable.anonymous (nL + 1 + 1))),
         Tacky.Instruction.jump (Lowering.mkLabel (nL + 1)),
         Tacky.Instruction.label (Lowering.mkLabel nL),
         Tacky.Instruction.copy (Tacky.Val.constant 1)
          (Tacky.Val.var (Tacky.Variable.anonymous (nL + 1 + 1))),
         Tacky.Instruction.label (Lowering.mkLabel (nL + 1))] ++ k))
    have hfn : Lowering.mkLabel nL ∉ labelNames newR := by
      intro hmem
      obtain ⟨i, hi1, hi2, hi3⟩ := hRlab _ hmem
      have := mkLabel_injective hi3
      omega
    have hsh : (newL ++ (Tacky.Instruction.jumpIfNotZero lv (Lowering.mkLabel nL) ::
        (newR ++
        [Tacky.Instruction.comparison .notEqual (Tacky.Val.constant 0) rv
          (Tacky.Val.var (Tacky.Variable.anonymous nR)),
         Tacky.Instruction.copy (Tacky.Val.var (Tacky.Variable.anonymous nR))
          (Tacky.Val.var (Tacky.Variable.anonymous (nL + 1 + 1))),
         Tacky.Instruction.jump (Lowering.mkLabel (nL + 1)),
         Tacky.Instruction.label (Lowering.mkLabel nL),
         Tacky.Instruction.copy (Tacky.Val.constant 1)
          (Tacky.Val.var (Tacky.Variable.anonymous (nL + 1 + 1))),
         Tacky.Instruction.label (Lowering.mkLabel (nL + 1))]))) ++ k =
        newL ++ (Tacky.Instruction.jumpIfNotZero lv (Lowering.mkLabel nL) :: (newR ++
        [Tacky.Instruction.comparison .notEqual (Tacky.Val.constant 0) rv
          (Tacky.Val.var (Tacky.Variable.anonymous nR)),
         Tacky.Instruction.copy (Tacky.Val.var (Tacky.Variable.anonymous nR))
          (Tacky.Val.var (Tacky.Variable.anonymous (nL + 1 + 1))),
         Tacky.Instruction.jump (Lowering.mkLabel (nL + 1)),
         Tacky.Instruction.label (Lowering.mkLabel nL),
         Tacky.Instruction.copy (Tacky.Val.constant 1)
          (Tacky.Val.var (Tacky.Variable.anonymous (nL + 1 + 1))),
         Tacky.Instruction.label (Lowering.mkLabel (nL + 1))] ++ k)) := by
      simp
    by_cases ha0 : a = 0
    · obtain ⟨envR, hR1, hR2, hR3⟩ := hRrun envL
        ([Tacky.Instruction.comparison .notEqual (Tacky.Val.constant 0) rv
          (Tacky.Val.var (Tacky.Variable.anonymous nR)),
         Tacky.Instruction.copy (Tacky.Val.var (Tacky.Variable.anonymous nR))
          (Tacky.Val.var (Tacky.Variable.anonymous (nL + 1 + 1))),
         Tacky.Instruction.jump (Lowering.mkLabel (nL + 1)),
         Tacky.Instruction.label (Lowering.mkLabel nL),
         Tacky.Instruction.copy (Tacky.Val.constant 1)
          (Tacky.Val.var (Tacky.Variable.anonymous (nL + 1 + 1))),
         Tacky.Instruction.label (Lowering.mkLabel (nL + 1))] ++ k)
      refine ⟨Sem.setVar
          (Sem.setVar envR (Tacky.Variable.anonymous nR)
            (Sem.applyComparison .notEqual 0 (Sem.evalVal envR rv)))
          (Tacky.Variable.anonymous (nL + 1 + 1))
          (Sem.applyComparison .notEqual 0 (Sem.evalVal envR rv)), ?_, ?_, ?_, ?_⟩
      · rw [hsh, hL1]
        have hcond : Sem.evalVal envL lv = 0 := by rw [hL2]; exact ha0
        have hjz : Sem.runInstrs (Tacky.Instruction.jumpIfNotZero lv
            (Lowering.mkLabel nL) :: (newR ++
            [Tacky.Instruction.comparison .notEqual (Tacky.Val.constant 0) rv
              (Tacky.Val.var (Tacky.Variable.anonymous nR)),
             Tacky.Instruction.copy (Tacky.Val.var (Tacky.Variable.anonymous nR))
              (Tacky.Val.var (Tacky.Variable.anonymous (nL + 1 + 1))),
             Tacky.Instruction.jump (Lowering.mkLabel (nL + 1)),
             Tacky.Instruction.label (Lowering.mkLabel nL),
             Tacky.Instruction.copy (Tacky.Val.constant 1)
              (Tacky.Val.var (Tacky.Variable.anonymous (nL + 1 + 1))),
             Tacky.Instruction.label (Lowering.mkLabel (nL + 1))] ++ k)) envL =
            Sem.runInstrs (newR ++
            ([Tacky.Instruction.comparison .notEqual (Tacky.Val.constant 0) rv
              (Tacky.Val.var (Tacky.Variable.anonymous nR)),
             Tacky.Instruction.copy (Tacky.Val.var (Tacky.Variable.anonymous nR))
              (Tacky.Val.var (Tacky.Variable.anonymous (nL + 1 + 1))),
             Tacky.Instruction.jump (Lowering.mkLabel (nL + 1)),
             Tacky.Instruction.label (Lowering.mkLabel nL),
             Tacky.Instruction.copy (Tacky.Val.constant 1)
              (Tacky.Val.var (Tacky.Variable.anonymous (nL + 1 + 1))),
             Tacky.Instruction.label (Lowering.mkLabel (nL + 1))] ++ k)) envL := by
          simp [Sem.runInstrs, hcond]
        rw [hjz, hR1]
        exact run_cc_tail (Lowering.mkLabel nL) (Lowering.mkLabel (nL + 1)) hne rv
          (Tacky.Variable.anonymous nR) (Tacky.Variable.anonymous (nL + 1 + 1)) k envR 1
      · rw [hR2]
        by_cases hb0 : b = 0
        · simp [Sem.evalVal, Sem.setVar, Sem.applyComparison, ha0, hb0]
        · have hb0' : (0 : Int) ≠ b := fun hc => hb0 hc.symm
          simp [Sem.evalVal, Sem.setVar, Sem.applyComparison, ha0, hb0, hb0']
      · intro w hw
        rw [setVar_ne (notTouched_ne_anon hw (by omega) (by omega)),
          setVar_ne (notTouched_ne_anon hw (by omega) (by omega))]
        rw [hR3 w (notTouched_mono (by omega) (by omega) hw)]
        exact hL3 w (notTouched_mono (le_refl _) (by omega) hw)
      · intro haz
        exact absurd ha0 haz
    · refine ⟨Sem.setVar envL (Tacky.Variable.anonymous (nL + 1 + 1)) 1, ?_, ?_, ?_, ?_⟩
      · rw [hsh, hL1]
        have hcond : Sem.evalVal envL lv = a := hL2
        have hjz : Sem.runInstrs (Tacky.Instruction.jumpIfNotZero lv
            (Lowering.mkLabel nL) :: (newR ++
            [Tacky.Instruction.comparison .notEqual (Tacky.Val.constant 0) rv
              (Tacky.Val.var (Tacky.Variable.anonymous nR)),
             Tacky.Instruction.copy (Tacky.Val.var (Tacky.Variable.anonymous nR))
              (Tacky.Val.var (Tacky.Variable.anonymous (nL + 1 + 1))),
             Tacky.Instruction.jump (Lowering.mkLabel (nL + 1)),
             Tacky.Instruction.label (Lowering.mkLabel nL),
             Tacky.Instruction.copy (Tacky.Val.constant 1)
              (Tacky.Val.var (Tacky.Variable.anonymous (nL + 1 + 1))),
             Tacky.Instruction.label (Lowering.mkLabel (nL + 1))] ++ k)) envL =
            Sem.skipTo (Lowering.mkLabel nL) (newR ++
            ([Tacky.Instruction.comparison .notEqual (Tacky.Val.constant 0) rv
              (Tacky.Val.var (Tacky.Variable.anonymous nR)),
             Tacky.Instruction.copy (Tacky.Val.var (Tacky.Variable.anonymous nR))
              (Tacky.Val.var (Tacky.Variable.anonymous (nL + 1 + 1))),
             Tacky.Instruction.jump (Lowering.mkLabel (nL + 1)),
             Tacky.Instruction.label (Lowering.mkLabel nL),
             Tacky.Instruction.copy (Tacky.Val.constant 1)
              (Tacky.Val.var (Tacky.Variable.anonymous (nL + 1 + 1))),
             Tacky.Instruction.label (Lowering.mkLabel (nL + 1))] ++ k)) envL := by
          simp [Sem.runInstrs, hcond, ha0]
        rw [hjz, skipTo_append_of_not_mem hfn]
        exact skipTo_cc_tail (Lowering.mkLabel nL) (Lowering.mkLabel (nL + 1)) rv
          (Tacky.Variable.anonymous nR) (Tacky.Variable.anonymous (nL + 1 + 1)) k envL 1
      · simp [Sem.evalVal, Sem.setVar, ha0]
      · intro w hw
        rw [setVar_ne (notTouched_ne_anon hw (by omega) (by omega))]
        exact hL3 w (notTouched_mono (le_refl _) (by omega) hw)
      · intro _ j hj
        rw [setVar_ne (by intro hc; injection hc with hc'; omega)]
        exact hL3 _ (Or.inr (by omega))

theorem lowerExpr_sim (e : Ast.Expr) :
    ∀ v : Int, Sem.exprEval e = some v → SimSpec e v := by
  induction e with
  | num n =>
    intro v h
    simp only [Sem.exprEval] at h
    split at h
    · next hle =>
      simp only [Option.some.injEq] at h
      intro ctx
      refine ⟨[], Tacky.Val.constant (Int.ofNat n), ctx.next_anonymous, ?_, le_refl _,
        Or.inl ⟨Int.ofNat n, rfl⟩, ?_, ?_⟩
      · simp [Lowering.lowerExpr, Lowering.parseI32, hle]
      · intro t ht
        exact absurd ht (by simp [labelNames])
      · intro env k
        exact ⟨env, rfl, by simp [Sem.evalVal]; exact h, fun w _ => rfl⟩
    · cases h
  | unary op arg ih =>
    intro v h
    cases op with
    | plus =>
      have h' : Sem.exprEval arg = some v := h
      have ihs := ih v h'
      intro ctx
      obtain ⟨new, val, n', heq, hle, hok, hlab, hrun⟩ := ihs ctx
      refine ⟨new, val, n' + 1, ?_, by omega, ?_, ?_, ?_⟩
      · simp only [Lowering.lowerExpr, heq, Lowering.temporary]
      · rcases hok with ⟨c, hc⟩ | ⟨j, hj, hj1, hj2⟩
        · exact Or.inl ⟨c, hc⟩
        · exact Or.inr ⟨j, hj, hj1, by omega⟩
      · intro t ht
        obtain ⟨i, h1, h2, h3⟩ := hlab t ht
        exact ⟨i, h1, by omega, h3⟩
      · intro env k
        obtain ⟨env', e1, e2, e3⟩ := hrun env k
        exact ⟨env', e1, e2, fun w hw => e3 w (notTouched_mono (le_refl _) (by omega) hw)⟩
    | minus =>
      simp only [Sem.exprEval, Option.map_eq_some'] at h
      obtain ⟨a, ha, hv⟩ := h
      have ihs := ih a ha
      intro ctx
      obtain ⟨new, val, n', heq, hle, hok, hlab, hrun⟩ := ihs ctx
      refine ⟨new ++ [Tacky.Instruction.unary .negate val
          (Tacky.Val.var (Tacky.Variable.anonymous n'))],
        Tacky.Val.var (Tacky.Variable.anonymous n'), n' + 1, ?_, by omega,
        Or.inr ⟨n', rfl, by omega, by omega⟩, ?_, ?_⟩
      · simp only [Lowering.lowerExpr, heq, Lowering.temporary, Lowering.push]
        simp
      · intro t ht
        rw [labelNames_append, List.mem_append] at ht
        rcases ht with ht | ht
        · obtain ⟨i, h1, h2, h3⟩ := hlab t ht
          exact ⟨i, h1, by omega, h3⟩
        · cases ht
      · intro env k
        obtain ⟨env', e1, e2, e3⟩ := hrun env
          (Tacky.Instruction.unary .negate val
            (Tacky.Val.var (Tacky.Variable.anonymous n')) :: k)
        have hassoc : (new ++ [Tacky.Instruction.unary .negate val
            (Tacky.Val.var (Tacky.Variable.anonymous n'))]) ++ k =
            new ++ (Tacky.Instruction.unary .negate val
              (Tacky.Val.var (Tacky.Variable.anonymous n')) :: k) := by simp
        rw [hassoc, e1]
        refine ⟨Sem.setVar env' (Tacky.Variable.anonymous n')
          (Sem.applyUnary .negate (Sem.evalVal env' val)), rfl, ?_, ?_⟩
        · show Sem.setVar env' (Tacky.Variable.anonymous n')
            (Sem.applyUnary .negate (Sem.evalVal env' val)) (Tacky.Variable.anonymous n') = v
          rw [setVar_same, e2, hv]
        · intro w hw
          rw [setVar_ne (notTouched_ne_anon hw (by omega) (by omega))]
          exact e3 w (notTouched_mono (le_refl _) (by omega) hw)
    | bitnot =>
      simp only [Sem.exprEval, Option.map_eq_some'] at h
      obtain ⟨a, ha, hv⟩ := h
      have ihs := ih a ha
      intro ctx
      obtain ⟨new, val, n', heq, hle, hok, hlab, hrun⟩ := ihs ctx
      refine ⟨new ++ [Tacky.Instruction.unary .complement val
          (Tacky.Val.var (Tacky.Variable.anonymous n'))],
        Tacky.Val.var (Tacky.Variable.anonymous n'), n' + 1, ?_, by omega,
        Or.inr ⟨n', rfl, by omega, by omega⟩, ?_, ?_⟩
      · simp only [Lowering.lowerExpr, heq, Lowering.temporary, Lowering.push]
        simp
      · intro t ht
        rw [labelNames_append, List.mem_append] at ht
        rcases ht with ht | ht
        · obtain ⟨i, h1, h2, h3⟩ := hlab t ht
          exact ⟨i, h1, by omega, h3⟩
        · cases ht
      · intro env k
        obtain ⟨env', e1, e2, e3⟩ := hrun env
          (Tacky.Instruction.unary .complement val
            (Tacky.Val.var (Tacky.Variable.anonymous n')) :: k)
        have hassoc : (new ++ [Tacky.Instruction.unary .complement val
            (Tacky.Val.var (Tacky.Variable.anonymous n'))]) ++ k =
            new ++ (Tacky.Instruction.unary .complement val
              (Tacky.Val.var (Tacky.Variable.anonymous n')) :: k) := by simp
        rw [hassoc, e1]
        refine ⟨Sem.setVar env' (Tacky.Variable.anonymous n')
          (Sem.applyUnary .complement (Sem.evalVal env' val)), rfl, ?_, ?_⟩
        · show Sem.setVar env' (Tacky.Variable.anonymous n')
            (Sem.applyUnary .complement (Sem.evalVal env' val)) (Tacky.Variable.anonymous n') = v
          rw [setVar_same, e2, hv]
        · intro w hw
          rw [setVar_ne (notTouched_ne_anon hw (by omega) (by omega))]
          exact e3 w (notTouched_mono (le_refl _) (by omega) hw)
    | not =>
      simp only [Sem.exprEval, Option.map_eq_some'] at h
      obtain ⟨a, ha, hv⟩ := h
      have ihs := ih a ha
      intro ctx
      obtain ⟨new, val, n', heq, hle, hok, hlab, hrun⟩ := ihs ctx
      refine ⟨new ++ [Tacky.Instruction.unary .not val
          (Tacky.Val.var (Tacky.Variable.anonymous n'))],
        Tacky.Val.var (Tacky.Variable.anonymous n'), n' + 1, ?_, by omega,
        Or.inr ⟨n', rfl, by omega, by omega⟩, ?_, ?_⟩
      · simp only [Lowering.lowerExpr, heq, Lowering.temporary, Lowering.push]
        simp
      · intro t ht
        rw [labelNames_append, List.mem_append] at ht
        rcases ht with ht | ht
        · obtain ⟨i, h1, h2, h3⟩ := hlab t ht
          exact ⟨i, h1, by omega, h3⟩
        · cases ht
      · intro env k
        obtain ⟨env', e1, e2, e3⟩ := hrun env
          (Tacky.Instruction.unary .not val
            (Tacky.Val.var (Tacky.Variable.anonymous n')) :: k)
        have hassoc : (new ++ [Tacky.Instruction.unary .not val
            (Tacky.Val.var (Tacky.Variable.anonymous n'))]) ++ k =
            new ++ (Tacky.Instruction.unary .not val
              (Tacky.Val.var (Tacky.Variable.anonymous n')) :: k) := by simp
        rw [hassoc, e1]
        refine ⟨Sem.setVar env' (Tacky.Variable.anonymous n')
          (Sem.applyUnary .not (Sem.evalVal env' val)), rfl, ?_, ?_⟩
        · show Sem.setVar env' (Tacky.Variable.anonymous n')
            (Sem.applyUnary .not (Sem.evalVal env' val)) (Tacky.Variable.anonymous n') = v
          rw [setVar_same, e2, hv]
        · intro w hw
          rw [setVar_ne (notTouched_ne_anon hw (by omega) (by omega))]
          exact e3 w (notTouched_mono (le_refl _) (by omega) hw)
  | binary bop l r ihl ihr =>
    intro v h
    simp only [Sem.exprEval] at h
    cases hL : Sem.exprEval l with
    | none =>
      rw [hL] at h
      cases bop <;> cases h
    | some a =>
      cases hR : Sem.exprEval r with
      | none =>
        rw [hL, hR] at h
        cases bop <;> cases h
      | some b =>
        rw [hL, hR] at h
        cases bop with
        | andand =>
          simp only [Option.some.injEq] at h
          intro ctx
          obtain ⟨newL, newR, lv, rv, nSplit, nR, h1, h2, h3, h4, h5, h6, h7, h8⟩ :=
            simSpec_andand (ihl a hL) (ihr b hR) ctx
          refine ⟨newL ++
              (Tacky.Instruction.jumpIfZero lv (Lowering.mkLabel nSplit) :: (newR ++
              [Tacky.Instruction.comparison .notEqual (Tacky.Val.constant 0) rv
                (Tacky.Val.var (Tacky.Variable.anonymous nR)),
               Tacky.Instruction.copy (Tacky.Val.var (Tacky.Variable.anonymous nR))
                (Tacky.Val.var (Tacky.Variable.anonymous (nSplit + 1 + 1))),
               Tacky.Instruction.jump (Lowering.mkLabel (nSplit + 1)),
               Tacky.Instruction.label (Lowering.mkLabel nSplit),
               Tacky.Instruction.copy (Tacky.Val.constant 0)
                (Tacky.Val.var (Tacky.Variable.anonymous (nSplit + 1 + 1))),
               Tacky.Instruction.label (Lowering.mkLabel (nSplit + 1))])),
            Tacky.Val.var (Tacky.Variable.anonymous (nSplit + 1 + 1)), nR + 1, h3,
            by omega, Or.inr ⟨nSplit + 1 + 1, rfl, by omega, by omega⟩, h7, ?_⟩
          intro env k
          obtain ⟨env', e1, e2, e3, _⟩ := h8 env k
          refine ⟨env', e1, ?_, e3⟩
          show env' (Tacky.Variable.anonymous (nSplit + 1 + 1)) = v
          rw [e2]
          exact h
        | oror =>
          simp only [Option.some.injEq] at h
          intro ctx
          obtain ⟨newL, newR, lv, rv, nSplit, nR, h1, h2, h3, h4, h5, h6, h7, h8⟩ :=
            simSpec_oror (ihl a hL) (ihr b hR) ctx
          refine ⟨newL ++
              (Tacky.Instruction.jumpIfNotZero lv (Lowering.mkLabel nSplit) :: (newR ++
              [Tacky.Instruction.comparison .notEqual (Tacky.Val.constant 0) rv
                (Tacky.Val.var (Tacky.Variable.anonymous nR)),
               Tacky.Instruction.copy (Tacky.Val.var (Tacky.Variable.anonymous nR))
                (Tacky.Val.var (Tacky.Variable.anonymous (nSplit + 1 + 1))),
               Tacky.Instruction.jump (Lowering.mkLabel (nSplit + 1)),
               Tacky.Instruction.label (Lowering.mkLabel nSplit),
               Tacky.Instruction.copy (Tacky.Val.constant 1)
                (Tacky.Val.var (Tacky.Variable.anonymous (nSplit + 1 + 1))),
               Tacky.Instruction.label (Lowering.mkLabel (nSplit + 1))])),
            Tacky.Val.var (Tacky.Variable.anonymous (nSplit + 1 + 1)), nR + 1, h3,
            by omega, Or.inr ⟨nSplit + 1 + 1, rfl, by omega, by omega⟩, h7, ?_⟩
          intro env k
          obtain ⟨env', e1, e2, e3, _⟩ := h8 env k
          refine ⟨env', e1, ?_, e3⟩
          show env' (Tacky.Variable.anonymous (nSplit + 1 + 1)) = v
          rw [e2]
          exact h
        | add =>
          simp only [Option.some.injEq] at h
          exact simSpec_binary_step (ihl a hL) (ihr b hR) .add
            (by intro ctx ctx₁ ctx₂ lv rv h1 h2; simp only [Lowering.lowerExpr, h1, h2])
            h (by rintro (hc | hc) <;> cases hc)
        | sub =>
          simp only [Option.some.injEq] at h
          exact simSpec_binary_step (ihl a hL) (ihr b hR) .sub
            (by intro ctx ctx₁ ctx₂ lv rv h1 h2; simp only [Lowering.lowerExpr, h1, h2])
            h (by rintro (hc | hc) <;> cases hc)
        | mul =>
          simp only [Option.some.injEq] at h
          exact simSpec_binary_step (ihl a hL) (ihr b hR) .mul
            (by intro ctx ctx₁ ctx₂ lv rv h1 h2; simp only [Lowering.lowerExpr, h1, h2])
            h (by rintro (hc | hc) <;> cases hc)
        | div =>
          cases hf : Sem.divFault a b with
          | true => simp [hf] at h
          | false =>
            simp only [hf] at h
            simp only [Bool.false_eq_true, if_false, Option.some.injEq] at h
            exact simSpec_binary_step (ihl a hL) (ihr b hR) .div
              (by intro ctx ctx₁ ctx₂ lv rv h1 h2; simp only [Lowering.lowerExpr, h1, h2])
              h (fun _ => hf)
        | mod =>
          cases hf : Sem.divFault a b with
          | true => simp [hf] at h
          | false =>
            simp only [hf] at h
            simp only [Bool.false_eq_true, if_false, Option.some.injEq] at h
            exact simSpec_binary_step (ihl a hL) (ihr b hR) .mod
              (by intro ctx ctx₁ ctx₂ lv rv h1 h2; simp only [Lowering.lowerExpr, h1, h2])
              h (fun _ => hf)
        | band =>
          simp only [Option.some.injEq] at h
          exact simSpec_binary_step (ihl a hL) (ihr b hR) .and
            (by intro ctx ctx₁ ctx₂ lv rv h1 h2; simp only [Lowering.lowerExpr, h1, h2])
            h (by rintro (hc | hc) <;> cases hc)
        | bor =>
          simp only [Option.some.injEq] at h
          exact simSpec_binary_step (ihl a hL) (ihr b hR) .or
            (by intro ctx ctx₁ ctx₂ lv rv h1 h2; simp only [Lowering.lowerExpr, h1, h2])
            h (by rintro (hc | hc) <;> cases hc)
        | shl =>
          simp only [Option.some.injEq] at h
          exact simSpec_binary_step (ihl a hL) (ihr b hR) .leftShift
            (by intro ctx ctx₁ ctx₂ lv rv h1 h2; simp only [Lowering.lowerExpr, h1, h2])
            h (by rintro (hc | hc) <;> cases hc)
        | shr =>
          simp only [Option.some.injEq] at h
          exact simSpec_binary_step (ihl a hL) (ihr b hR) .rightShift
            (by intro ctx ctx₁ ctx₂ lv rv h1 h2; simp only [Lowering.lowerExpr, h1, h2])
            h (by rintro (hc | hc) <;> cases hc)
        | eqeq =>
          simp only [Option.some.injEq] at h
          exact simSpec_comparison_step (ihl a hL) (ihr b hR) .equal
            (by intro ctx ctx₁ ctx₂ lv rv h1 h2; simp only [Lowering.lowerExpr, h1, h2]) h
        | noteq =>
          simp only [Option.some.injEq] at h
          exact simSpec_comparison_step (ihl a hL) (ihr b hR) .notEqual
            (by intro ctx ctx₁ ctx₂ lv rv h1 h2; simp only [Lowering.lowerExpr, h1, h2]) h
        | lt =>
          simp only [Option.some.injEq] at h
          exact simSpec_comparison_step (ihl a hL) (ihr b hR) .lessThan
            (by intro ctx ctx₁ ctx₂ lv rv h1 h2; simp only [Lowering.lowerExpr, h1, h2]) h
        | lte =>
          simp only [Option.some.injEq] at h
          exact simSpec_comparison_step (ihl a hL) (ihr b hR) .lessThanOrEqual
            (by intro ctx ctx₁ ctx₂ lv rv h1 h2; simp only [Lowering.lowerExpr, h1, h2]) h
        | gt =>
          simp only [Option.some.injEq] at h
          exact simSpec_comparison_step (ihl a hL) (ihr b hR) .greaterThan
            (by intro ctx ctx₁ ctx₂ lv rv h1 h2; simp only [Lowering.lowerExpr, h1, h2]) h
        | gte =>
          simp only [Option.some.injEq] at h
          exact simSpec_comparison_step (ihl a hL) (ihr b hR) .greaterThanOrEqual
            (by intro ctx ctx₁ ctx₂ lv rv h1 h2; simp only [Lowering.lowerExpr, h1, h2]) h
        | bitxor => cases h
  | paren inner ih =>
    intro v h
    have h' : Sem.exprEval inner = some v := h
    exact ih v h'
  | parenNonExpr =>
    intro v h
    simp only [Sem.exprEval] at h
    cases h
  | unsupported =>
    intro v h
    simp only [Sem.exprEval] at h
    cases h

/-- **C1.** Short-circuit observable equivalence: for side-effect-free
expressions `l` and `r` denoting integers `a` and `b` under the reference
semantics `exprEval`, the lowering of `l && r` first lowers `l` (ending with
the fresh-name counter at `nSplit`), allocates the two labels `L{nSplit}`,
`L{nSplit+1}` and the result temporary `Anonymous(nSplit+2)`, and lowers `r`
from counter `nSplit + 3`, so every temporary or label of the right block
is numbered `nSplit + 3` or higher (`StructOK`).  Running the emitted block
falls through to an environment `env'` in which the result temporary is `0`
exactly when `a = 0` or (`a ≠ 0` and `b = 0`) — so the block followed by a
`Return` of the result returns `0` under exactly that condition — and when
`a = 0` (the left operand already determines the result) every variable
`Anonymous(j)` with `j ≥ nSplit + 3` still holds its initial value: the
right operand's instructions were skipped, not executed.  Dually for
`l || r`: the result is `1` exactly when `a ≠ 0` or `b ≠ 0`, and when
`a ≠ 0` the right block's temporaries are all untouched. -/
theorem lower_short_circuit_equiv (l r : Ast.Expr) (a b : Int)
    (ha : Sem.exprEval l = some a) (hb : Sem.exprEval r = some b)
    (ctx : Lowering.FunctionContext) :
    (∃ (newL newR : List Tacky.Instruction) (lv rv : Tacky.Val) (nSplit nR : Nat),
      Lowering.lowerExpr l ctx =
        Except.ok (some lv, ⟨ctx.instructions ++ newL, nSplit, ctx.diags⟩) ∧
      Lowering.lowerExpr r ⟨(ctx.instructions ++ newL) ++
          [Tacky.Instruction.jumpIfZero lv (Lowering.mkLabel nSplit)],
          nSplit + 1 + 1 + 1, ctx.diags⟩ =
        Except.ok (some rv, ⟨((ctx.instructions ++ newL) ++
          [Tacky.Instruction.jumpIfZero lv (Lowering.mkLabel nSplit)]) ++ newR,
          nR, ctx.diags⟩) ∧
      Lowering.lowerExpr (Ast.Expr.binary Ast.BinaryOp.andand l r) ctx =
        Except.ok (some (Tacky.Val.var (Tacky.Variable.anonymous (nSplit + 1 + 1))),
          ⟨ctx.instructions ++ (newL ++
            (Tacky.Instruction.jumpIfZero lv (Lowering.mkLabel nSplit) :: (newR ++
            [Tacky.Instruction.comparison .notEqual (Tacky.Val.constant 0) rv
              (Tacky.Val.var (Tacky.Variable.anonymous nR)),
             Tacky.Instruction.copy (Tacky.Val.var (Tacky.Variable.anonymous nR))
              (Tacky.Val.var (Tacky.Variable.anonymous (nSplit + 1 + 1))),
             Tacky.Instruction.jump (Lowering.mkLabel (nSplit + 1)),
             Tacky.Instruction.label (Lowering.mkLabel nSplit),
             Tacky.Instruction.copy (Tacky.Val.constant 0)
              (Tacky.Val.var (Tacky.Variable.anonymous (nSplit + 1 + 1))),
             Tacky.Instruction.label (Lowering.mkLabel (nSplit + 1))]))),
            nR + 1, ctx.diags⟩) ∧
      StructOK (nSplit + 1 + 1 + 1) nR newR ∧
      (∀ env : Sem.Env, ∃ env' : Sem.Env,
        Sem.runInstrs (newL ++
          (Tacky.Instruction.jumpIfZero lv (Lowering.mkLabel nSplit) :: (newR ++
          [Tacky.Instruction.comparison .notEqual (Tacky.Val.constant 0) rv
            (Tacky.Val.var (Tacky.Variable.anonymous nR)),
           Tacky.Instruction.copy (Tacky.Val.var (Tacky.Variable.anonymous nR))
            (Tacky.Val.var (Tacky.Variable.anonymous (nSplit + 1 + 1))),
           Tacky.Instruction.jump (Lowering.mkLabel (nSplit + 1)),
           Tacky.Instruction.label (Lowering.mkLabel nSplit),
           Tacky.Instruction.copy (Tacky.Val.constant 0)
            (Tacky.Val.var (Tacky.Variable.anonymous (nSplit + 1 + 1))),
           Tacky.Instruction.label (Lowering.mkLabel (nSplit + 1))]))) env =
          Sem.ExecResult.fellThrough env' ∧
        (env' (Tacky.Variable.anonymous (nSplit + 1 + 1)) = 0 ↔
          (a = 0 ∨ (a ≠ 0 ∧ b = 0))) ∧
        (a = 0 → ∀ j, nSplit + 1 + 1 + 1 ≤ j →
          env' (Tacky.Variable.anonymous j) = env (Tacky.Variable.anonymous j)) ∧
        ∃ ret : Int,
          Sem.runInstrs ((newL ++
            (Tacky.Instruction.jumpIfZero lv (Lowering.mkLabel nSplit) :: (newR ++
            [Tacky.Instruction.comparison .notEqual (Tacky.Val.constant 0) rv
              (Tacky.Val.var (Tacky.Variable.anonymous nR)),
             Tacky.Instruction.copy (Tacky.Val.var (Tacky.Variable.anonymous nR))
              (Tacky.Val.var (Tacky.Variable.anonymous (nSplit + 1 + 1))),
             Tacky.Instruction.jump (Lowering.mkLabel (nSplit + 1)),
             Tacky.Instruction.label (Lowering.mkLabel nSplit),
             Tacky.Instruction.copy (Tacky.Val.constant 0)
              (Tacky.Val.var (Tacky.Variable.anonymous (nSplit + 1 + 1))),
             Tacky.Instruction.label (Lowering.mkLabel (nSplit + 1))]))) ++
            [Tacky.Instruction.ret
              (Tacky.Val.var (Tacky.Variable.anonymous (nSplit + 1 + 1)))]) env =
            Sem.ExecResult.returned ret ∧
          (ret = 0 ↔ (a = 0 ∨ (a ≠ 0 ∧ b = 0))))) ∧
    (∃ (newL newR : List Tacky.Instruction) (lv rv : Tacky.Val) (nSplit nR : Nat),
      Lowering.lowerExpr l ctx =
        Except.ok (some lv, ⟨ctx.instructions ++ newL, nSplit, ctx.diags⟩) ∧
      Lowering.lowerExpr r ⟨(ctx.instructions ++ newL) ++
          [Tacky.Instruction.jumpIfNotZero lv (Lowering.mkLabel nSplit)],
          nSplit + 1 + 1 + 1, ctx.diags⟩ =
        Except.ok (some rv, ⟨((ctx.instructions ++ newL) ++
          [Tacky.Instruction.jumpIfNotZero lv (Lowering.mkLabel nSplit)]) ++ newR,
          nR, ctx.diags⟩) ∧
      Lowering.lowerExpr (Ast.Expr.binary Ast.BinaryOp.oror l r) ctx =
        Except.ok (some (Tacky.Val.var (Tacky.Variable.anonymous (nSplit + 1 + 1))),
          ⟨ctx.instructions ++ (newL ++
            (Tacky.Instruction.jumpIfNotZero lv (Lowering.mkLabel nSplit) :: (newR ++
            [Tacky.Instruction.comparison .notEqual (Tacky.Val.constant 0) rv
              (Tacky.Val.var (Tacky.Variable.anonymous nR)),
             Tacky.Instruction.copy (Tacky.Val.var (Tacky.Variable.anonymous nR))
              (Tacky.Val.var (Tacky.Variable.anonymous (nSplit + 1 + 1))),
             Tacky.Instruction.jump (Lowering.mkLabel (nSplit + 1)),
             Tacky.Instruction.label (Lowering.mkLabel nSplit),
             Tacky.Instruction.copy (Tacky.Val.constant 1)
              (Tacky.Val.var (Tacky.Variable.anonymous (nSplit + 1 + 1))),
             Tacky.Instruction.label (Lowering.mkLabel (nSplit + 1))]))),
            nR + 1, ctx.diags⟩) ∧
      StructOK (nSplit + 1 + 1 + 1) nR newR ∧
      (∀ env : Sem.Env, ∃ env' : Sem.Env,
        Sem.runInstrs (newL ++
          (Tacky.Instruction.jumpIfNotZero lv (Lowering.mkLabel nSplit) :: (newR ++
          [Tacky.Instruction.comparison .notEqual (Tacky.Val.constant 0) rv
            (Tacky.Val.var (Tacky.Variable.anonymous nR)),
           Tacky.Instruction.copy (Tacky.Val.var (Tacky.Variable.anonymous nR))
            (Tacky.Val.var (Tacky.Variable.anonymous (nSplit + 1 + 1))),
           Tacky.Instruction.jump (Lowering.mkLabel (nSplit + 1)),
           Tacky.Instruction.label (Lowering.mkLabel nSplit),
           Tacky.Instruction.copy (Tacky.Val.constant 1)
            (Tacky.Val.var (Tacky.Variable.anonymous (nSplit + 1 + 1))),
           Tacky.Instruction.label (Lowering.mkLabel (nSplit + 1))]))) env =
          Sem.ExecResult.fellThrough env' ∧
        (env' (Tacky.Variable.anonymous (nSplit + 1 + 1)) = 1 ↔
          (a ≠ 0 ∨ b ≠ 0)) ∧
        (a ≠ 0 → ∀ j, nSplit + 1 + 1 + 1 ≤ j →
          env' (Tacky.Variable.anonymous j) = env (Tacky.Variable.anonymous j)) ∧
        ∃ ret : Int,
          Sem.runInstrs ((newL ++
            (Tacky.Instruction.jumpIfNotZero lv (Lowering.mkLabel nSplit) :: (newR ++
            [Tacky.Instruction.comparison .notEqual (Tacky.Val.constant 0) rv
              (Tacky.Val.var (Tacky.Variable.anonymous nR)),
             Tacky.Instruction.copy (Tacky.Val.var (Tacky.Variable.anonymous nR))
              (Tacky.Val.var (Tacky.Variable.anonymous (nSplit + 1 + 1))),
             Tacky.Instruction.jump (Lowering.mkLabel (nSplit + 1)),
             Tacky.Instruction.label (Lowering.mkLabel nSplit),
             Tacky.Instruction.copy (Tacky.Val.constant 1)
              (Tacky.Val.var (Tacky.Variable.anonymous (nSplit + 1 + 1))),
             Tacky.Instruction.label (Lowering.mkLabel (nSplit + 1))]))) ++
            [Tacky.Instruction.ret
              (Tacky.Val.var (Tacky.Variable.anonymous (nSplit + 1 + 1)))]) env =
            Sem.ExecResult.returned ret ∧
          (ret = 1 ↔ (a ≠ 0 ∨ b ≠ 0)))) := by
  have hl := lowerExpr_sim l a ha
  have hr := lowerExpr_sim r b hb
  constructor
  · obtain ⟨newL, newR, lv, rv, nSplit, nR, h1, h2, h3, h4, h5, h6, h7, h8⟩ :=
      simSpec_andand hl hr ctx
    refine ⟨newL, newR, lv, rv, nSplit, nR, h1, h2, h3, h6, ?_⟩
    intro env
    obtain ⟨env', e1, e2, e3, e4⟩ := h8 env []
    rw [List.append_nil] at e1
    refine ⟨env', e1, ?_, e4, ?_⟩
    · rw [e2]
      by_cases ha0 : a = 0 <;> by_cases hb0 : b = 0 <;> simp [ha0, hb0]
    · obtain ⟨env'', f1, f2, _, _⟩ := h8 env
        [Tacky.Instruction.ret (Tacky.Val.var (Tacky.Variable.anonymous (nSplit + 1 + 1)))]
      refine ⟨env'' (Tacky.Variable.anonymous (nSplit + 1 + 1)), ?_, ?_⟩
      · rw [f1]
        rfl
      · rw [f2]
        by_cases ha0 : a = 0 <;> by_cases hb0 : b = 0 <;> simp [ha0, hb0]
  · obtain ⟨newL, newR, lv, rv, nSplit, nR, h1, h2, h3, h4, h5, h6, h7, h8⟩ :=
      simSpec_oror hl hr ctx
    refine ⟨newL, newR, lv, rv, nSplit, nR, h1, h2, h3, h6, ?_⟩
    intro env
    obtain ⟨env', e1, e2, e3, e4⟩ := h8 env []
    rw [List.append_nil] at e1
    refine ⟨env', e1, ?_, e4, ?_⟩
    · rw [e2]
      by_cases ha0 : a = 0 <;> by_cases hb0 : b = 0 <;> simp [ha0, hb0]
    · obtain ⟨env'', f1, f2, _, _⟩ := h8 env
        [Tacky.Instruction.ret (Tacky.Val.var (Tacky.Variable.anonymous (nSplit + 1 + 1)))]
      refine ⟨env'' (Tacky.Variable.anonymous (nSplit + 1 + 1)), ?_, ?_⟩
      · rw [f1]
        rfl
      · rw [f2]
        by_cases ha0 : a = 0 <;> by_cases hb0 : b = 0 <;> simp [ha0, hb0]

theorem lower_short_circuit_equiv_witness :
    Sem.exprEval (Ast.Expr.num 0) = some 0 ∧
    Sem.exprEval (Ast.Expr.num 5) = some 5 ∧
    (
    (∃ (newL newR : List Tacky.Instruction) (lv rv : Tacky.Val) (nSplit nR : Nat),
      Lowering.lowerExpr (Ast.Expr.num 0) ⟨[], 0, []⟩ =
        Except.ok (some lv, ⟨([] : List Tacky.Instruction) ++ newL, nSplit, ([] : List Diagnostic)⟩) ∧
      Lowering.lowerExpr (Ast.Expr.num 5) ⟨(([] : List Tacky.Instruction) ++ newL) ++
          [Tacky.Instruction.jumpIfZero lv (Lowering.mkLabel nSplit)],
          nSplit + 1 + 1 + 1, ([] : List Diagnostic)⟩ =
        Except.ok (some rv, ⟨((([] : List Tacky.Instruction) ++ newL) ++
          [Tacky.Instruction.jumpIfZero lv (Lowering.mkLabel nSplit)]) ++ newR,
          nR, ([] : List Diagnostic)⟩) ∧
      Lowering.lowerExpr (Ast.Expr.binary Ast.BinaryOp.andand (Ast.Expr.num 0) (Ast.Expr.num 5)) ⟨[], 0, []⟩ =
        Except.ok (some (Tacky.Val.var (Tacky.Variable.anonymous (nSplit + 1 + 1))),
          ⟨([] : List Tacky.Instruction) ++ (newL ++
            (Tacky.Instruction.jumpIfZero lv (Lowering.mkLabel nSplit) :: (newR ++
            [Tacky.Instruction.comparison .notEqual (Tacky.Val.constant 0) rv
              (Tacky.Val.var (Tacky.Variable.anonymous nR)),
             Tacky.Instruction.copy (Tacky.Val.var (Tacky.Variable.anonymous nR))
              (Tacky.Val.var (Tacky.Variable.anonymous (nSplit + 1 + 1))),
             Tacky.Instruction.jump (Lowering.mkLabel (nSplit + 1)),
             Tacky.Instruction.label (Lowering.mkLabel nSplit),
             Tacky.Instruction.copy (Tacky.Val.constant 0)
              (Tacky.Val.var (Tacky.Variable.anonymous (nSplit + 1 + 1))),
             Tacky.Instruction.label (Lowering.mkLabel (nSplit + 1))]))),
            nR + 1, ([] : List Diagnostic)⟩) ∧
      StructOK (nSplit + 1 + 1 + 1) nR newR ∧
      (∀ env : Sem.Env, ∃ env' : Sem.Env,
        Sem.runInstrs (newL ++
          (Tacky.Instruction.jumpIfZero lv (Lowering.mkLabel nSplit) :: (newR ++
          [Tacky.Instruction.comparison .notEqual (Tacky.Val.constant 0) rv
            (Tacky.Val.var (Tacky.Variable.anonymous nR)),
           Tacky.Instruction.copy (Tacky.Val.var (Tacky.Variable.anonymous nR))
            (Tacky.Val.var (Tacky.Variable.anonymous (nSplit + 1 + 1))),
           Tacky.Instruction.jump (Lowering.mkLabel (nSplit + 1)),
           Tacky.Instruction.label (Lowering.mkLabel nSplit),
           Tacky.Instruction.copy (Tacky.Val.constant 0)
            (Tacky.Val.var (Tacky.Variable.anonymous (nSplit + 1 + 1))),
           Tacky.Instruction.label (Lowering.mkLabel (nSplit + 1))]))) env =
          Sem.ExecResult.fellThrough env' ∧
        (env' (Tacky.Variable.anonymous (nSplit + 1 + 1)) = 0 ↔
          ((0 : Int) = 0 ∨ ((0 : Int) ≠ 0 ∧ (5 : Int) = 0))) ∧
        ((0 : Int) = 0 → ∀ j, nSplit + 1 + 1 + 1 ≤ j →
          env' (Tacky.Variable.anonymous j) = env (Tacky.Variable.anonymous j)) ∧
        ∃ ret : Int,
          Sem.runInstrs ((newL ++
            (Tacky.Instruction.jumpIfZero lv (Lowering.mkLabel nSplit) :: (newR ++
            [Tacky.Instruction.comparison .notEqual (Tacky.Val.constant 0) rv
              (Tacky.Val.var (Tacky.Variable.anonymous nR)),
             Tacky.Instruction.copy (Tacky.Val.var (Tacky.Variable.anonymous nR))
              (Tacky.Val.var (Tacky.Variable.anonymous (nSplit + 1 + 1))),
             Tacky.Instruction.jump (Lowering.mkLabel (nSplit + 1)),
             Tacky.Instruction.label (Lowering.mkLabel nSplit),
             Tacky.Instruction.copy (Tacky.Val.constant 0)
              (Tacky.Val.var (Tacky.Variable.anonymous (nSplit + 1 + 1))),
             Tacky.Instruction.label (Lowering.mkLabel (nSplit + 1))]))) ++
            [Tacky.Instruction.ret
              (Tacky.Val.var (Tacky.Variable.anonymous (nSplit + 1 + 1)))]) env =
            Sem.ExecResult.returned ret ∧
          (ret = 0 ↔ ((0 : Int) = 0 ∨ ((0 : Int) ≠ 0 ∧ (5 : Int) = 0))))) ∧
    (∃ (newL newR : List Tacky.Instruction) (lv rv : Tacky.Val) (nSplit nR : Nat),
      Lowering.lowerExpr (Ast.Expr.num 0) ⟨[], 0, []⟩ =
        Except.ok (some lv, ⟨([] : List Tacky.Instruction) ++ newL, nSplit, ([] : List Diagnostic)⟩) ∧
      Lowering.lowerExpr (Ast.Expr.num 5) ⟨(([] : List Tacky.Instruction) ++ newL) ++
          [Tacky.Instruction.jumpIfNotZero lv (Lowering.mkLabel nSplit)],
          nSplit + 1 + 1 + 1, ([] : List Diagnostic)⟩ =
        Except.ok (some rv, ⟨((([] : List Tacky.Instruction) ++ newL) ++
          [Tacky.Instruction.jumpIfNotZero lv (Lowering.mkLabel nSplit)]) ++ newR,
          nR, ([] : List Diagnostic)⟩) ∧
      Lowering.lowerExpr (Ast.Expr.binary Ast.BinaryOp.oror (Ast.Expr.num 0) (Ast.Expr.num 5)) ⟨[], 0, []⟩ =
        Except.ok (some (Tacky.Val.var (Tacky.Variable.anonymous (nSplit + 1 + 1))),
          ⟨([] : List Tacky.Instruction) ++ (newL ++
            (Tacky.Instruction.jumpIfNotZero lv (Lowering.mkLabel nSplit) :: (newR ++
            [Tacky.Instruction.comparison .notEqual (Tacky.Val.constant 0) rv
              (Tacky.Val.var (Tacky.Variable.anonymous nR)),
             Tacky.Instruction.copy (Tacky.Val.var (Tacky.Variable.anonymous nR))
              (Tacky.Val.var (Tacky.Variable.anonymous (nSplit + 1 + 1))),
             Tacky.Instruction.jump (Lowering.mkLabel (nSplit + 1)),
             Tacky.Instruction.label (Lowering.mkLabel nSplit),
             Tacky.Instruction.copy (Tacky.Val.constant 1)
              (Tacky.Val.var (Tacky.Variable.anonymous (nSplit + 1 + 1))),
             Tacky.Instruction.label (Lowering.mkLabel (nSplit + 1))]))),
            nR + 1, ([] : List Diagnostic)⟩) ∧
      StructOK (nSplit + 1 + 1 + 1) nR newR ∧
      (∀ env : Sem.Env, ∃ env' : Sem.Env,
        Sem.runInstrs (newL ++
          (Tacky.Instruction.jumpIfNotZero lv (Lowering.mkLabel nSplit) :: (newR ++
          [Tacky.Instruction.comparison .notEqual (Tacky.Val.constant 0) rv
            (Tacky.Val.var (Tacky.Variable.anonymous nR)),
           Tacky.Instruction.copy (Tacky.Val.var (Tacky.Variable.anonymous nR))
            (Tacky.Val.var (Tacky.Variable.anonymous (nSplit + 1 + 1))),
           Tacky.Instruction.jump (Lowering.mkLabel (nSplit + 1)),
           Tacky.Instruction.label (Lowering.mkLabel nSplit),
           Tacky.Instruction.copy (Tacky.Val.constant 1)
            (Tacky.Val.var (Tacky.Variable.anonymous (nSplit + 1 + 1))),
           Tacky.Instruction.label (Lowering.mkLabel (nSplit + 1))]))) env =
          Sem.ExecResult.fellThrough env' ∧
        (env' (Tacky.Variable.anonymous (nSplit + 1 + 1)) = 1 ↔
          ((0 : Int) ≠ 0 ∨ (5 : Int) ≠ 0)) ∧
        ((0 : Int) ≠ 0 → ∀ j, nSplit + 1 + 1 + 1 ≤ j →
          env' (Tacky.Variable.anonymous j) = env (Tacky.Variable.anonymous j)) ∧
        ∃ ret : Int,
          Sem.runInstrs ((newL ++
            (Tacky.Instruction.jumpIfNotZero lv (Lowering.mkLabel nSplit) :: (newR ++
            [Tacky.Instruction.comparison .notEqual (Tacky.Val.constant 0) rv
              (Tacky.Val.var (Tacky.Variable.anonymous nR)),
             Tacky.Instruction.copy (Tacky.Val.var (Tacky.Variable.anonymous nR))
              (Tacky.Val.var (Tacky.Variable.anonymous (nSplit + 1 + 1))),
             Tacky.Instruction.jump (Lowering.mkLabel (nSplit + 1)),
             Tacky.Instruction.label (Lowering.mkLabel nSplit),
             Tacky.Instruction.copy (Tacky.Val.constant 1)
              (Tacky.Val.var (Tacky.Variable.anonymous (nSplit + 1 + 1))),
             Tacky.Instruction.label (Lowering.mkLabel (nSplit + 1))]))) ++
            [Tacky.Instruction.ret
              (Tacky.Val.var (Tacky.Variable.anonymous (nSplit + 1 + 1)))]) env =
            Sem.ExecResult.returned ret ∧
          (ret = 1 ↔ ((0 : Int) ≠ 0 ∨ (5 : Int) ≠ 0))))) :=
  ⟨rfl, rfl,
    lower_short_circuit_equiv (Ast.Expr.num 0) (Ast.Expr.num 5) 0 5 rfl rfl ⟨[], 0, []⟩⟩
